import Mathlib

/-!
# RISC instruction-set simulator (`Graduate-School/RISC-MIPS-simulator.go`)

A shallow embedding of the simulator's operand translation (`translateOperation`),
its hexadecimal renderer (`binToHex`, `systemCheck`) and its decode/execute loop
(`riscSim`), followed by theorems about them.

Conventions of the embedding.

* A Go `string` is a Lean `String`; each `Char` stands for one byte (every string the
  engine itself produces is ASCII).  Lengths, indexing and slicing go through `.data`.
* Go's `int` / `int64` are `Int`, with results of `+`, `-`, `*`, `/` and `<<` wrapped to
  64 bits by `wrap64`.
* A Go run-time panic (index out of range, slice bounds out of range, integer divide by
  zero) ends the run; a panicking step returns `Except.error` carrying the panic and the
  state vector `system` as it was when the panic was raised.
* The parts of package `strconv` the program calls (`Atoi`, `ParseInt`, `Itoa`,
  `FormatInt`) are modelled after the Go standard library; they return the value together
  with the error the Go source discards with `_`.
-/

set_option maxRecDepth 100000

namespace RiscSim

/-! ## Machine integers -/

/-- Wrap an integer to the range of a signed 64-bit `int`. -/
def wrap64 (z : Int) : Int := (z + 2 ^ 63) % 2 ^ 64 - 2 ^ 63

/-- Go `a / b` on `int`: `none` when `b = 0` (run-time panic), else the quotient truncated
toward zero and wrapped. -/
def goDiv (a b : Int) : Option Int :=
  if b = 0 then none else some (wrap64 (Int.tdiv a b))

/-- Go `1 << power` on `int`, for a non-negative shift count. -/
def shl1 (power : Nat) : Int :=
  if power < 64 then wrap64 (2 ^ power) else 0

/-! ## Package `strconv` -/

/-- The two kinds of error `strconv` reports. -/
inductive NumError where
  | errSyntax
  | errRange
deriving DecidableEq, Repr

/-- Digit value of one byte as `ParseUint` reads it: `'0'..'9'` give 0..9, letters (either
case) give 10..35, any other byte is rejected. -/
def digitOf (c : Char) : Option Nat :=
  if 48 ≤ c.toNat ∧ c.toNat ≤ 57 then some (c.toNat - 48)
  else if 97 ≤ c.toNat ∧ c.toNat ≤ 122 then some (c.toNat - 97 + 10)
  else if 65 ≤ c.toNat ∧ c.toNat ≤ 90 then some (c.toNat - 65 + 10)
  else none

/-- The digit loop of `strconv.ParseUint` for an explicit base in 2..36 and bit size 64:
`cutoff = maxUint64 / base + 1`, `maxVal = 2^64 - 1`. -/
def parseUintLoop (base : Nat) : List Char → Nat → Nat × Option NumError
  | [], n => (n, none)
  | c :: cs, n =>
    match digitOf c with
    | none => (0, some .errSyntax)
    | some d =>
      if d ≥ base then (0, some .errSyntax)
      else if n ≥ (2 ^ 64 - 1) / base + 1 then (2 ^ 64 - 1, some .errRange)
      else if n * base + d > 2 ^ 64 - 1 then (2 ^ 64 - 1, some .errRange)
      else parseUintLoop base cs (n * base + d)

/-- Model of `strconv.ParseUint(s, base, 64)` for `2 ≤ base ≤ 36`. -/
def ParseUint (s : List Char) (base : Nat) : Nat × Option NumError :=
  match s with
  | [] => (0, some .errSyntax)
  | _ => parseUintLoop base s 0

/-- Model of `strconv.ParseInt(s, base, 64)` for `2 ≤ base ≤ 36`: optional sign, then
`ParseUint`; a syntax error yields 0, a range error the nearest bound. -/
def ParseInt (s : String) (base : Nat) : Int × Option NumError :=
  match s.data with
  | [] => (0, some .errSyntax)
  | c :: cs =>
    let neg := c = '-'
    let body := if c = '+' ∨ c = '-' then cs else c :: cs
    match ParseUint body base with
    | (_, some .errSyntax) => (0, some .errSyntax)
    | (un, _) =>
      if ¬ neg ∧ un ≥ 2 ^ 63 then (2 ^ 63 - 1, some .errRange)
      else if neg ∧ un > 2 ^ 63 then (-(2 ^ 63), some .errRange)
      else if neg then (-(un : Int), none) else ((un : Int), none)

/-- Model of `strconv.Atoi` on a 64-bit platform: its fast path and its slow path both
compute `ParseInt(s, 10, 0)`. -/
def Atoi (s : String) : Int × Option NumError := ParseInt s 10

/-- Entry `d` of the digit table `"0123456789abcdefghijklmnopqrstuvwxyz"`. -/
def digitChar (d : Nat) : Char :=
  match d with
  | 0 => '0' | 1 => '1' | 2 => '2' | 3 => '3' | 4 => '4'
  | 5 => '5' | 6 => '6' | 7 => '7' | 8 => '8' | 9 => '9'
  | _ => Char.ofNat (87 + d)

/-- The digit loop of `formatBits`: `for u >= b { emit u % b; u /= b }; emit u`, digits
being written from the end of the buffer. -/
def formatLoop (base : Nat) : Nat → Nat → List Char → List Char
  | 0, _, acc => acc
  | fuel + 1, u, acc =>
    if u ≥ base then formatLoop base fuel (u / base) (digitChar (u % base) :: acc)
    else digitChar u :: acc

/-- Model of `strconv.FormatInt(i, base)`: the digits of `|i|` (at most 64 of them), with
a leading `-` when `i < 0`. -/
def FormatInt (i : Int) (base : Nat) : String :=
  if i < 0 then String.mk ('-' :: formatLoop base 64 (-i).toNat [])
  else String.mk (formatLoop base 64 i.toNat [])

/-- Model of `strconv.Itoa`. -/
def Itoa (i : Int) : String := FormatInt i 10

/-! ## `translateOperation` -/

/-- A Go run-time panic. -/
inductive Panic where
  | indexOutOfRange
  | sliceBoundsOutOfRange
  | integerDivideByZero
deriving DecidableEq, Repr

/-- Indexing `xs[k]` with a Go `int` index: `none` stands for the index-out-of-range
panic. -/
def indexInt (xs : List String) (k : Int) : Option String :=
  if 0 ≤ k then xs[k.toNat]? else none

/-- The first `switch` of `translateOperation`: the destination name `y[0]` becomes the
decimal text of its slot index; any other text is kept. -/
def translateDest (y0 : String) : String :=
  if y0 = "REGC" then "0"
  else if y0 = "REGB" then "1"
  else if y0 = "REGA" then "2"
  else if y0 = "MEM5" then "3"
  else if y0 = "MEM4" then "4"
  else if y0 = "MEM3" then "5"
  else if y0 = "MEM2" then "6"
  else if y0 = "MEM1" then "7"
  else y0

/-- One `case` body of the second `switch`: `okay, _ := strconv.ParseInt(x[k], 2, 64)`
followed by `y[i] = strconv.Itoa(int(okay))`. -/
def slotDecimal (x : List String) (k : Nat) : Except Panic String :=
  match x[k]? with
  | some s => .ok (Itoa (ParseInt s 2).1)
  | none => .error .indexOutOfRange

/-- The second `switch` of `translateOperation`, applied to one entry `y[i]`, `i ≥ 1`. -/
def translateOperand (x : List String) (yi : String) : Except Panic String :=
  if yi = "REGC" then slotDecimal x 0
  else if yi = "REGB" then slotDecimal x 1
  else if yi = "REGA" then slotDecimal x 2
  else if yi = "MEM5" then slotDecimal x 3
  else if yi = "MEM4" then slotDecimal x 4
  else if yi = "MEM3" then slotDecimal x 5
  else if yi = "MEM2" then slotDecimal x 6
  else if yi = "MEM1" then slotDecimal x 7
  else .ok yi

/-- The loop `for i := 1; i < len(y); i++` over the entries after `y[0]`. -/
def translateLoop (x : List String) : List String → Except Panic (List String)
  | [] => .ok []
  | yi :: rest =>
    match translateOperand x yi with
    | .error p => .error p
    | .ok v =>
      match translateLoop x rest with
      | .error p => .error p
      | .ok r => .ok (v :: r)

/-- Model of `translateOperation(x, y)`: returns `x` and the rewritten `y` (which the Go
code rewrites in place). -/
def translateOperation (x y : List String) : Except Panic (List String × List String) :=
  match y with
  | [] => .error .indexOutOfRange
  | y0 :: rest =>
    match translateLoop x rest with
    | .error p => .error p
    | .ok r => .ok (x, translateDest y0 :: r)

/-! ## `binToHex` and `systemCheck` -/

/-- The inner loop of the first pass of `binToHex` on one field: the bytes are visited from
the last to the first, a byte equal to 49 (`'1'`) adds `1 * (1 << power)`. -/
def binInt (s : String) : Int :=
  (s.data.foldr
    (fun c (st : Int × Nat) =>
      (if c.toNat = 49 then wrap64 (st.1 + wrap64 (1 * shl1 st.2)) else st.1, st.2 + 1))
    (0, 0)).1

/-- First pass of `binToHex`: fields are visited from the last to the first and each decimal
text is put in front of `binSlice`. -/
def binSlice (b : List String) : List String :=
  b.foldr (fun s acc => [Itoa (binInt s)] ++ acc) []

/-- The loop `for l := 0; l < 9223372036854775807; l++` that collects base-16 digits, least
significant first. -/
def hexLoop : Nat → Int → List Int → List Int
  | 0, _, value2 => value2
  | fuel + 1, value, value2 =>
    if value ≥ 16 then hexLoop fuel (value >>> (4 : Nat)) (value2 ++ [Int.tmod value 16])
    else value2 ++ [value]

/-- The `switch` that renders one collected digit. -/
def hexDigit (d : Int) : String :=
  if d = 10 then "A"
  else if d = 11 then "B"
  else if d = 12 then "C"
  else if d = 13 then "D"
  else if d = 14 then "E"
  else if d = 15 then "F"
  else Itoa d

/-- The body of the second pass of `binToHex` for one entry of `binSlice`. -/
def hexText (binStr : String) : String :=
  let value := (Atoi binStr).1
  if value > 9 then
    let value2 := hexLoop 9223372036854775807 value []
    value2.reverse.foldl (fun value3 d => value3 ++ hexDigit d) ""
  else
    "" ++ Itoa value

/-- Model of `systemCheck` on one entry: a text shorter than 8 is padded with zeros on the
left and prefixed with `0x`; any other text is kept. -/
def systemCheckWord (w : String) : String :=
  if w.length < 8 then "0x" ++ (String.mk (List.replicate (8 - w.length) '0') ++ w)
  else w

/-- Model of `systemCheck`. -/
def systemCheck (x : List String) : List String := x.map systemCheckWord

/-- Model of `binToHex`. -/
def binToHex (b : List String) : List String :=
  systemCheck ((binSlice b).foldl (fun value4 binStr => value4 ++ [hexText binStr]) [])

/-! ## The decode/execute engine `riscSim` -/

/-- The two slices `riscSim` mutates: the state vector `system` and the operand scratch
list `tempJunk`. -/
structure Machine where
  system : List String
  tempJunk : List String
deriving DecidableEq, Repr

/-- Result of executing statements of `riscSim`: a value, or a panic together with the
state vector at the moment of the panic. -/
abbrev Exec (α : Type) := Except (Panic × List String) α

/-- The literal `system` is initialised with. -/
def initialSystem : List String :=
  ["0000000000000000000000000000000000000000",
   "0000000000000000000000000000000000000000",
   "0000000000000000000000000000000000000000",
   "000000000000",
   "000000000000",
   "000000000000",
   "000000000010",
   "000000000001",
   "000000",
   "0000",
   "0000"]

/-- The literal `case RESET` assigns to `system`. -/
def resetSystem : List String :=
  ["0000000000000000000000000000000000000000",
   "0000000000000000000000000000000000000000",
   "0000000000000000000000000000000000000000",
   "000000000000",
   "000000000000",
   "000000000000",
   "000000000000",
   "000000000000",
   "111111",
   "0000",
   "0000"]

/-- The machine at the start of `riscSim`: `tempJunk := []string{"", "", ""}`. -/
def initialMachine : Machine := ⟨initialSystem, ["", "", ""]⟩

/-- Read of the stream token `x[k]`. -/
def tokenAt (x : List String) (k : Nat) (m : Machine) : Exec String :=
  match x[k]? with
  | some t => .ok t
  | none => .error (.indexOutOfRange, m.system)

/-- Read of `tempJunk[k]`. -/
def tempAt (k : Nat) (m : Machine) : Exec String :=
  match m.tempJunk[k]? with
  | some t => .ok t
  | none => .error (.indexOutOfRange, m.system)

/-- Read of `system[k]` for an `int` index. -/
def systemAt (k : Int) (m : Machine) : Exec String :=
  match indexInt m.system k with
  | some t => .ok t
  | none => .error (.indexOutOfRange, m.system)

/-- The assignment `tempJunk[k] = v`. -/
def setTempJunk (k : Nat) (v : String) (m : Machine) : Exec Machine :=
  if k < m.tempJunk.length then .ok { m with tempJunk := m.tempJunk.set k v }
  else .error (.indexOutOfRange, m.system)

/-- The assignment `system[k] = v` for an `int` index. -/
def setSystem (k : Int) (v : String) (m : Machine) : Exec Machine :=
  if 0 ≤ k ∧ k.toNat < m.system.length then
    .ok { m with system := m.system.set k.toNat v }
  else .error (.indexOutOfRange, m.system)

/-- The call `translateOperation(system, tempJunk)`, which rewrites `tempJunk` in place
and leaves `system` as it is. -/
def translate (m : Machine) : Exec Machine :=
  match translateOperation m.system m.tempJunk with
  | .ok (_, y) => .ok { m with tempJunk := y }
  | .error p => .error (p, m.system)

/-- The assignment `tempJunk[0], tempJunk[1], tempJunk[2] = x[i+1], x[i+2], x[i+3]`. -/
def loadThree (x : List String) (i : Nat) (m : Machine) : Exec Machine := do
  let t1 ← tokenAt x (i + 1) m
  let t2 ← tokenAt x (i + 2) m
  let t3 ← tokenAt x (i + 3) m
  let m ← setTempJunk 0 t1 m
  let m ← setTempJunk 1 t2 m
  setTempJunk 2 t3 m

/-- The assignment `tempJunk[0], tempJunk[1] = x[i+1], x[i+2]`. -/
def loadTwo (x : List String) (i : Nat) (m : Machine) : Exec Machine := do
  let t1 ← tokenAt x (i + 1) m
  let t2 ← tokenAt x (i + 2) m
  let m ← setTempJunk 0 t1 m
  setTempJunk 1 t2 m

/-- The assignment `tempJunk[0] = x[k]`. -/
def loadOne (x : List String) (k : Nat) (m : Machine) : Exec Machine := do
  let t ← tokenAt x k m
  setTempJunk 0 t m

/-- The body shared by the three-operand cases.  `op` is the Go operator applied to
`moreJunk1` and `moreJunk2` (`none`: divide by zero); `translated` tells whether the case
calls `translateOperation` (it is commented out in STOREHALF, STOREWORD, LOADHALF,
LOADHALFUN, SETLESSTHAN, SETLESSTHANUN); `opcodeFirst` tells whether `system[8]` is
assigned before `system[results1]` (all cases but ADD, SUB, MULT). -/
def execThree (op : Int → Int → Option Int) (translated opcodeFirst : Bool)
    (opcode : String) (x : List String) (i : Nat) (m : Machine) : Exec Machine := do
  let m ← loadThree x i m
  let m ← if translated then translate m else .ok m
  let moreJunk1 := (Atoi (← tempAt 1 m)).1
  let moreJunk2 := (Atoi (← tempAt 2 m)).1
  match op moreJunk1 moreJunk2 with
  | none => .error (.integerDivideByZero, m.system)
  | some logJunk =>
    let logJunk2 := FormatInt logJunk 2
    let results1 := (Atoi (← tempAt 0 m)).1
    if opcodeFirst then do
      let m ← setSystem 8 opcode m
      setSystem results1 logJunk2 m
    else do
      let m ← setSystem results1 logJunk2 m
      setSystem 8 opcode m

/-- The body shared by STOREBYTE, LOADBYTE, LOADBYTEUN and LOADWORD. -/
def execMove (opcode : String) (x : List String) (i : Nat) (m : Machine) :
    Exec Machine := do
  let m ← loadTwo x i m
  let m ← translate m
  let moreJunk1 := (Atoi (← tempAt 1 m)).1
  let logJunk := FormatInt moreJunk1 2
  let loadVar ← tempAt 0 m
  let loadVarInt := (Atoi loadVar).1
  let m ← setSystem loadVarInt logJunk m
  setSystem 8 opcode m

/-- The expression `logJunk4[1:] + "0"` of SHIFTLEFTLOG. -/
def sliceShiftLeftLog (s : String) : Option String :=
  if 1 ≤ s.data.length then some (String.mk (s.data.drop 1) ++ "0") else none

/-- The expression `"0" + logJunk4[:len(logJunk4)-2]` of SHIFTRIGHTLOG. -/
def sliceShiftRightLog (s : String) : Option String :=
  if 2 ≤ s.data.length then some ("0" ++ String.mk (s.data.take (s.data.length - 2)))
  else none

/-- The expression `"1" + logJunk4[:len(logJunk4)-1]` of SHIFTRIGHARTH. -/
def sliceShiftRightArith (s : String) : Option String :=
  if 1 ≤ s.data.length then some ("1" ++ String.mk (s.data.take (s.data.length - 1)))
  else none

/-- The expression `logJunk4 + "0"` of SHIFTLEFTARTH. -/
def sliceShiftLeftArith (s : String) : Option String :=
  some (s ++ "0")

/-- The body shared by the four shift cases; `slice` is the string expression assigned to
`logJunk4` (`none`: slice bounds out of range). -/
def execShift (slice : String → Option String) (opcode : String) (x : List String)
    (i : Nat) (m : Machine) : Exec Machine := do
  let m ← loadOne x (i + 1) m
  let m ← translate m
  let results1 := (Atoi (← tempAt 0 m)).1
  let m ← loadOne x (i + 2) m
  let m ← translate m
  let logJunk3 := (Atoi (← tempAt 0 m)).1
  let logJunk4 ← systemAt logJunk3 m
  match slice logJunk4 with
  | none => .error (.sliceBoundsOutOfRange, m.system)
  | some logJunk4 =>
    let m ← setSystem 8 opcode m
    setSystem results1 logJunk4 m

/-- The body shared by the cases that end in `system[k] = system[loadVarInt]` (AIN, LOADA,
BIN, LOADB, CIN, LOADC, MEMnIN). -/
def execIn (k : Int) (opcode : String) (x : List String) (i : Nat) (m : Machine) :
    Exec Machine := do
  let m ← loadOne x (i + 1) m
  let m ← translate m
  let loadVarInt := (Atoi (← tempAt 0 m)).1
  let v ← systemAt loadVarInt m
  let m ← setSystem k v m
  setSystem 8 opcode m

/-- The body shared by the cases that end in `system[loadVarInt] = system[k]` (AOUT, BOUT,
COUT, MEMnOUT). -/
def execOut (k : Int) (opcode : String) (x : List String) (i : Nat) (m : Machine) :
    Exec Machine := do
  let m ← loadOne x (i + 1) m
  let m ← translate m
  let loadVarInt := (Atoi (← tempAt 0 m)).1
  let v ← systemAt k m
  let m ← setSystem loadVarInt v m
  setSystem 8 opcode m

/-- Go `a + b`, `a - b`, `a * b` on `int` (they never panic). -/
def goAdd (a b : Int) : Option Int := some (wrap64 (a + b))

/-- Go `a - b` on `int`. -/
def goSub (a b : Int) : Option Int := some (wrap64 (a - b))

/-- Go `a * b` on `int`. -/
def goMul (a b : Int) : Option Int := some (wrap64 (a * b))

/-- Pair the machine a case body leaves with the amount the case adds to `i`. -/
def withIncrement (inc : Nat) (r : Exec Machine) : Exec (Machine × Nat) :=
  match r with
  | .ok m => .ok (m, inc)
  | .error e => .error e

/-- The `switch` of `riscSim` on the token `t = x[i]`: the machine after the matching case
and the amount that case adds to `i`; a token that matches no case changes nothing. -/
def execute (x : List String) (i : Nat) (m : Machine) (t : String) : Exec (Machine × Nat) :=
  if t = "ZERO" then withIncrement 0 (setSystem 8 "000000" m)
  else if t = "IMM" then withIncrement 0 (setSystem 8 "000001" m)
  else if t = "ADD" then withIncrement 2 (execThree goAdd true false "000010" x i m)
  else if t = "SUB" then withIncrement 2 (execThree goSub true false "000011" x i m)
  else if t = "MULT" then withIncrement 3 (execThree goMul true false "000100" x i m)
  else if t = "MULTHS" then withIncrement 3 (execThree goMul true true "000101" x i m)
  else if t = "MULTHSU" then withIncrement 3 (execThree goMul true true "000110" x i m)
  else if t = "DIV" then withIncrement 3 (execThree goDiv true true "000111" x i m)
  else if t = "DIVS" then withIncrement 3 (execThree goDiv true true "001000" x i m)
  else if t = "DIVUNS" then withIncrement 3 (execThree goDiv true true "001001" x i m)
  else if t = "STOREBYTE" then withIncrement 2 (execMove "010000" x i m)
  else if t = "STOREHALF" then withIncrement 3 (execThree goSub false true "010001" x i m)
  else if t = "STOREWORD" then withIncrement 3 (execThree goSub false true "010010" x i m)
  else if t = "LOADBYTE" then withIncrement 2 (execMove "010011" x i m)
  else if t = "LOADBYTEUN" then withIncrement 2 (execMove "010100" x i m)
  else if t = "LOADHALF" then withIncrement 3 (execThree goSub false true "010101" x i m)
  else if t = "LOADHALFUN" then withIncrement 3 (execThree goSub false true "010110" x i m)
  else if t = "LOADWORD" then withIncrement 2 (execMove "010111" x i m)
  else if t = "SETLESSTHAN" then
    withIncrement 3 (execThree goSub false true "011000" x i m)
  else if t = "SETLESSTHANUN" then
    withIncrement 3 (execThree goSub false true "011001" x i m)
  else if t = "SHIFTLEFTLOG" then
    withIncrement 2 (execShift sliceShiftLeftLog "011100" x i m)
  else if t = "SHIFTRIGHTLOG" then
    withIncrement 2 (execShift sliceShiftRightLog "011100" x i m)
  else if t = "SHIFTRIGHARTH" then
    withIncrement 2 (execShift sliceShiftRightArith "011100" x i m)
  else if t = "SHIFTLEFTARTH" then
    withIncrement 2 (execShift sliceShiftLeftArith "011101" x i m)
  else if t = "AIN" then withIncrement 1 (execIn 2 "011110" x i m)
  else if t = "LOADA" then withIncrement 1 (execIn 2 "011111" x i m)
  else if t = "AOUT" then withIncrement 1 (execOut 2 "100000" x i m)
  else if t = "BIN" then withIncrement 1 (execIn 1 "100001" x i m)
  else if t = "LOADB" then withIncrement 1 (execIn 1 "100010" x i m)
  else if t = "BOUT" then withIncrement 1 (execOut 1 "100011" x i m)
  else if t = "CIN" then withIncrement 1 (execIn 1 "100100" x i m)
  else if t = "LOADC" then withIncrement 1 (execIn 1 "100101" x i m)
  else if t = "COUT" then withIncrement 1 (execOut 0 "100110" x i m)
  else if t = "MEM1IN" then withIncrement 1 (execIn 7 "100111" x i m)
  else if t = "MEM1OUT" then withIncrement 1 (execOut 7 "100110" x i m)
  else if t = "MEM2IN" then withIncrement 1 (execIn 6 "101001" x i m)
  else if t = "MEM2OUT" then withIncrement 1 (execOut 6 "101010" x i m)
  else if t = "MEM3IN" then withIncrement 1 (execIn 5 "101011" x i m)
  else if t = "MEM3OUT" then withIncrement 1 (execOut 5 "101100" x i m)
  else if t = "MEM4IN" then withIncrement 1 (execIn 4 "101101" x i m)
  else if t = "MEM4OUT" then withIncrement 1 (execOut 4 "101110" x i m)
  else if t = "MEM5IN" then withIncrement 1 (execIn 4 "101111" x i m)
  else if t = "MEM5OUT" then withIncrement 1 (execOut 3 "110000" x i m)
  else if t = "JUMP" then withIncrement 0 (setSystem 8 "110001" m)
  else if t = "STALL" then
    withIncrement 0 (do
      let m ← setSystem 8 "0" m
      setSystem 8 "111110" m)
  else if t = "RESET" then .ok ({ m with system := resetSystem }, 0)
  else .ok (m, 0)

/-- One iteration of the `for` loop of `riscSim` at position `i`: the `switch` on `x[i]`,
then the index the next iteration starts at (the case's own increment and the loop's
`i++`). -/
def step (x : List String) (i : Nat) (m : Machine) : Exec (Machine × Nat) :=
  match x[i]? with
  | none => .error (.indexOutOfRange, m.system)
  | some t =>
    match execute x i m t with
    | .ok (m', inc) => .ok (m', i + inc + 1)
    | .error e => .error e

/-- The `for i := 0; i < len(x); i++` loop of `riscSim`; every iteration advances `i`, so
`len(x)` iterations of fuel are enough.  `out` collects the vectors `binToHex(system)` that
are printed when the step flag `y` is set. -/
def riscSimLoop (x : List String) (y : Bool) :
    Nat → Nat → Machine → List (List String) → Exec (Machine × List (List String))
  | 0, _, m, out => .ok (m, out)
  | fuel + 1, i, m, out =>
    if i < x.length then
      match step x i m with
      | .error e => .error e
      | .ok (m', i') =>
        let system2 := binToHex m'.system
        riscSimLoop x y fuel i' m' (if y = true then out ++ [system2] else out)
    else .ok (m, out)

/-- Model of `riscSim(x, y)`. -/
def riscSim (x : List String) (y : Bool) : Exec (Machine × List (List String)) :=
  riscSimLoop x y x.length 0 initialMachine []

/-! ## Vocabulary of the specification -/

/-- The eight location names, in the order of their slot indices. -/
def locationNames : List String :=
  ["REGC", "REGB", "REGA", "MEM5", "MEM4", "MEM3", "MEM2", "MEM1"]

/-- Slot index of a location name in the fixed table `REGC=0, REGB=1, REGA=2, MEM5=3,
MEM4=4, MEM3=5, MEM2=6, MEM1=7` (8 for any other text). -/
def slotIndex (t : String) : Nat := locationNames.indexOf t

/-- A bit-string: every character is `0` or `1`. -/
def IsBitString (s : String) : Prop := ∀ c ∈ s.data, c = '0' ∨ c = '1'

instance (s : String) : Decidable (IsBitString s) := by
  unfold IsBitString; infer_instance

/-- The unsigned binary value of a bit-string, most significant bit first. -/
def unsignedValue (s : String) : Nat :=
  s.data.foldl (fun n c => 2 * n + (if c = '1' then 1 else 0)) 0

/-- A decimal literal of a natural number: one or more characters `0`..`9`. -/
def IsDecimalNat (s : String) : Prop :=
  s.data ≠ [] ∧ ∀ c ∈ s.data, 48 ≤ c.toNat ∧ c.toNat ≤ 57

instance (s : String) : Decidable (IsDecimalNat s) := by
  unfold IsDecimalNat; infer_instance

/-- The number a decimal literal denotes. -/
def decimalValue (s : String) : Nat :=
  s.data.foldl (fun n c => 10 * n + (c.toNat - 48)) 0

/-- The value of an operand token as the specification describes it: a location name
stands for the unsigned binary value of its slot, a decimal literal for its number. -/
def operandValue (system : List String) (t : String) : Option Nat :=
  if t ∈ locationNames then (system[slotIndex t]?).map unsignedValue
  else if IsDecimalNat t then some (decimalValue t)
  else none

/-- Value of a digit string in a base, continuing from `n`. -/
def digitsValue (base : Nat) (cs : List Char) (n : Nat) : Nat :=
  cs.foldl (fun n c => n * base + (digitOf c).getD 0) n

/-- Every character is a digit of the base. -/
def DigitsBelow (base : Nat) (cs : List Char) : Prop :=
  ∀ c ∈ cs, ∃ d, digitOf c = some d ∧ d < base

/-- What `binToHex` makes of one field: its value as `binInt` reads it, as decimal text,
as hexadecimal text, then through `systemCheck`. -/
def renderField (s : String) : String :=
  systemCheckWord (hexText (Itoa (binInt s)))

/-- The integer the engine works with for an operand token `t` in a position after the
destination: the rewrite of `translateOperation`, read by `strconv.Atoi` with its error
discarded. -/
def resolveOperand (system : List String) (t : String) : Except Panic Int :=
  match translateOperand system t with
  | .ok t' => .ok (Atoi t').1
  | .error p => .error p

/-- The decimal text of a natural number. -/
def decimalText (n : Nat) : String := Nat.repr n

/-- The characters of a token after its optional sign `+` or `-`. -/
def unsignedBody (s : String) : List Char :=
  match s.data with
  | [] => []
  | c :: cs => if c = '+' ∨ c = '-' then cs else c :: cs

/-- A decimal literal of an integer: an optional sign followed by one or more characters
`0`..`9`. -/
def IsDecimalLiteral (s : String) : Prop :=
  unsignedBody s ≠ [] ∧ ∀ c ∈ unsignedBody s, 48 ≤ c.toNat ∧ c.toNat ≤ 57

instance (s : String) : Decidable (IsDecimalLiteral s) := by
  unfold IsDecimalLiteral; infer_instance

/-- The token starts, after its optional sign, with a character `0`..`9`. -/
def StartsWithDigit (s : String) : Prop :=
  match unsignedBody s with
  | [] => False
  | c :: _ => 48 ≤ c.toNat ∧ c.toNat ≤ 57

instance (s : String) : Decidable (StartsWithDigit s) := by
  unfold StartsWithDigit; split <;> infer_instance

/-- Value of one hexadecimal digit character (0 for any other character). -/
def hexCharValue (c : Char) : Nat :=
  if 48 ≤ c.toNat ∧ c.toNat ≤ 57 then c.toNat - 48
  else if 65 ≤ c.toNat ∧ c.toNat ≤ 70 then c.toNat - 55
  else if 97 ≤ c.toNat ∧ c.toNat ≤ 102 then c.toNat - 87
  else 0

/-- The hexadecimal digits of a rendered word: the word without its `0x` prefix when it
has one. -/
def hexDigitsOf (w : String) : List Char :=
  match w.data with
  | '0' :: 'x' :: rest => rest
  | cs => cs

/-- A sequence of hexadecimal digits read as a base-16 number, most significant first. -/
def hexValue (cs : List Char) : Nat :=
  cs.foldl (fun n c => 16 * n + hexCharValue c) 0

/-- The upper-case hexadecimal digit character of a number below 16. -/
def hexChar (d : Nat) : Char :=
  match d with
  | 0 => '0' | 1 => '1' | 2 => '2' | 3 => '3' | 4 => '4' | 5 => '5' | 6 => '6' | 7 => '7'
  | 8 => '8' | 9 => '9' | 10 => 'A' | 11 => 'B' | 12 => 'C' | 13 => 'D' | 14 => 'E'
  | _ => 'F'

/-- The width invariant: the slots have the lengths 3 × `w`, 5 × 12, 6, 4, 4.  The
specification declares `w = 42` for the registers; the literals of `riscSim` have 40
characters. -/
def HasWidths (w : Nat) (system : List String) : Prop :=
  system.map String.length = [w, w, w, 12, 12, 12, 12, 12, 6, 4, 4]

instance (w : Nat) (system : List String) : Decidable (HasWidths w system) := by
  unfold HasWidths; infer_instance

/-- The transfer cases of `riscSim` that end in `system[k] = system[loadVarInt]`, each
with the slot `k` it writes. -/
def transferIn : List (String × Nat) :=
  [("AIN", 2), ("LOADA", 2), ("BIN", 1), ("LOADB", 1), ("CIN", 1), ("LOADC", 1),
   ("MEM1IN", 7), ("MEM2IN", 6), ("MEM3IN", 5), ("MEM4IN", 4), ("MEM5IN", 4)]

/-- The transfer cases of `riscSim` that end in `system[loadVarInt] = system[k]`, each
with the slot `k` it reads. -/
def transferOut : List (String × Nat) :=
  [("AOUT", 2), ("BOUT", 1), ("COUT", 0), ("MEM1OUT", 7), ("MEM2OUT", 6), ("MEM3OUT", 5),
   ("MEM4OUT", 4), ("MEM5OUT", 3)]

/-- The tokens the `switch` of `riscSim` has a case for, in the order of the cases. -/
def mnemonics : List String :=
  ["ZERO", "IMM", "ADD", "SUB", "MULT", "MULTHS", "MULTHSU", "DIV", "DIVS", "DIVUNS",
   "STOREBYTE", "STOREHALF", "STOREWORD", "LOADBYTE", "LOADBYTEUN", "LOADHALF",
   "LOADHALFUN", "LOADWORD", "SETLESSTHAN", "SETLESSTHANUN", "SHIFTLEFTLOG",
   "SHIFTRIGHTLOG", "SHIFTRIGHARTH", "SHIFTLEFTARTH", "AIN", "LOADA", "AOUT", "BIN",
   "LOADB", "BOUT", "CIN", "LOADC", "COUT", "MEM1IN", "MEM1OUT", "MEM2IN", "MEM2OUT",
   "MEM3IN", "MEM3OUT", "MEM4IN", "MEM4OUT", "MEM5IN", "MEM5OUT", "JUMP", "STALL",
   "RESET"]

/-! ## The hazard/stall annotator `stallDesignate` -/

/-- One comparison `x[a] == x[b]` of a probe, with `int` indices: the left operand is read
first, and a read outside the stream is the index-out-of-range panic. -/
def probeEq (x : List String) (a b : Int) : Except Panic Bool :=
  match indexInt x a with
  | none => .error .indexOutOfRange
  | some s =>
    match indexInt x b with
    | none => .error .indexOutOfRange
    | some t => .ok (decide (s = t))

/-- A `case` condition `x[a] == x[b1] || x[a] == x[b2] || ...` of a probe: the comparisons
are evaluated from left to right until one holds. -/
def probeAny (x : List String) (a : Int) : List Int → Except Panic Bool
  | [] => .ok false
  | b :: bs =>
    match probeEq x a b with
    | .error p => .error p
    | .ok true => .ok true
    | .ok false => probeAny x a bs

/-- The `switch` inside the first probe loop at index `k`: whether one of its three cases
(forward offsets 1, 2, 3 against backward offsets 2, 3, 4) matches. -/
def probeNarrow (x : List String) (k : Nat) : Except Panic Bool :=
  match probeAny x ((k : Int) + 1) [(k : Int) - 2, (k : Int) - 3, (k : Int) - 4] with
  | .error p => .error p
  | .ok true => .ok true
  | .ok false =>
    match probeAny x ((k : Int) + 2) [(k : Int) - 2, (k : Int) - 3, (k : Int) - 4] with
    | .error p => .error p
    | .ok true => .ok true
    | .ok false =>
      probeAny x ((k : Int) + 3) [(k : Int) - 2, (k : Int) - 3, (k : Int) - 4]

/-- The `switch` inside the second probe loop at index `l`: whether one of its two cases
(forward offsets 1, 2 against backward offsets 2 to 6) matches. -/
def probeWide (x : List String) (l : Nat) : Except Panic Bool :=
  match probeAny x ((l : Int) + 1)
      [(l : Int) - 2, (l : Int) - 3, (l : Int) - 4, (l : Int) - 5, (l : Int) - 6] with
  | .error p => .error p
  | .ok true => .ok true
  | .ok false =>
    probeAny x ((l : Int) + 2)
      [(l : Int) - 2, (l : Int) - 3, (l : Int) - 4, (l : Int) - 5, (l : Int) - 6]

/-- A probe loop `for k := ...; k < len(x); k++` with the `switch` given by `probe`:
`some (k, x[k])` is the index of the first match, where the loop is left by
`break secondLoop`, with the token there; `none` means the loop ran to its end without a
match. -/
def probeLoop (x : List String) (probe : List String → Nat → Except Panic Bool) :
    Nat → Nat → Except Panic (Option (Nat × String))
  | 0, _ => .ok none
  | fuel + 1, k =>
    match x[k]? with
    | none => .ok none
    | some xk =>
      match probe x k with
      | .error p => .error p
      | .ok true => .ok (some (k, xk))
      | .ok false => probeLoop x probe fuel (k + 1)

/-- The inner loop `for j := i; j < len(x); j++` labelled `secondLoop`: the value of `i`
and the slice `stallSl` when the loop is left, by a `break` or at its end.  A matching
probe appends `STALL`, `STALL`, `x[k]` and sets `i = k`. -/
def secondLoop (x : List String) :
    Nat → Nat → Nat → List String → Except Panic (Nat × List String)
  | 0, _, i, stallSl => .ok (i, stallSl)
  | fuel + 1, j, i, stallSl =>
    match x[j]? with
    | none => .ok (i, stallSl)
    | some xj =>
      if xj = "@" ∧ i = 0 then .ok (j, stallSl)
      else
        match
          (if xj = "@" ∧ (j : Int) - (i : Int) > 3 then
            probeLoop x probeNarrow x.length (j + 1)
          else .ok none) with
        | .error p => .error p
        | .ok (some (k, xk)) => .ok (k, stallSl ++ ["STALL"] ++ ["STALL"] ++ [xk])
        | .ok none =>
          match
            (if xj = "@" ∧ (j : Int) - (i : Int) ≥ 2 then
              probeLoop x probeWide x.length (j + 1)
            else .ok none) with
          | .error p => .error p
          | .ok (some (l, xl)) => .ok (l, stallSl ++ ["STALL"] ++ ["STALL"] ++ [xl])
          | .ok none =>
            secondLoop x fuel (j + 1) i (if xj ≠ "@" then stallSl ++ [xj] else stallSl)

/-- The outer loop `for i := 0; i < len(x); i++`; the inner loop never lowers `i`, so
`len(x)` iterations of fuel are enough. -/
def firstLoop (x : List String) : Nat → Nat → List String → Except Panic (List String)
  | 0, _, stallSl => .ok stallSl
  | fuel + 1, i, stallSl =>
    if i < x.length then
      match secondLoop x x.length i i stallSl with
      | .error p => .error p
      | .ok (i', stallSl') => firstLoop x fuel (i' + 1) stallSl'
    else .ok stallSl

/-- The slice `stallSl` that `stallDesignate` hands to `riscSim`: the result of the loops
cut by `stallSl[:len(stallSl)-1]`, which panics on the empty slice. -/
def stallSl (x : List String) : Except Panic (List String) :=
  match firstLoop x x.length 0 [] with
  | .error p => .error p
  | .ok s => if s.length = 0 then .error .sliceBoundsOutOfRange else .ok s.dropLast

/-- The slice `stallSl2`, `stallSl` without the markers `@`; it is computed and not used. -/
def stallSl2 (x : List String) : Except Panic (List String) :=
  match stallSl x with
  | .error p => .error p
  | .ok s => .ok (s.filter (fun t => t ≠ "@"))

/-- Model of `stallDesignate(x, y)`: the annotation, then the call `riscSim(stallSl, y)`. -/
def stallDesignate (x : List String) (y : Bool) :
    Except Panic (Exec (Machine × List (List String))) :=
  match stallSl x with
  | .error p => .error p
  | .ok s => .ok (riscSim s y)

/-- The concatenation of the suffixes `x[0:], x[1:], ..., x[n-1:]` of a stream of `n`
tokens. -/
def suffixConcat (x : List String) : List String :=
  ((List.range x.length).map (fun p => x.drop p)).flatten

/-! ## Vocabulary for the frame and the invariant claims -/

/-- The state vector a case body leaves: the one of the machine it returns or, when it
panics, the one at the moment of the panic. -/
def systemAfterBody (r : Exec Machine) : List String :=
  match r with
  | .ok m => m.system
  | .error e => e.2

/-- The state vector a step leaves: the one of the machine it returns or, when it panics,
the one at the moment of the panic. -/
def systemAfter (r : Exec (Machine × Nat)) : List String :=
  match r with
  | .ok (m, _) => m.system
  | .error e => e.2

/-- The state vector `s` is `sys` after the two assignments of a case body, `system[k] = v`
and `system[8] = opcode`, in one order or the other. -/
def Written (sys : List String) (opcode : String) (k : Nat) (v : String)
    (s : List String) : Prop :=
  s = (sys.set k v).set 8 opcode ∨ s = (sys.set 8 opcode).set k v

/-- A non-empty string over the characters `0` and `1`. -/
def IsNonEmptyBitString (s : String) : Prop := s.data ≠ [] ∧ IsBitString s

instance (s : String) : Decidable (IsNonEmptyBitString s) := by
  unfold IsNonEmptyBitString; infer_instance

/-- A non-empty string over `0` and `1`, or the minus sign `-` followed by one. -/
def IsSignedBitString (s : String) : Prop :=
  IsNonEmptyBitString s ∨
    ∃ body : List Char, s.data = '-' :: body ∧ body ≠ [] ∧ ∀ c ∈ body, c = '0' ∨ c = '1'

/-- The mnemonics whose first operand is a destination: the three-operand cases, the
two-operand moves, the shifts and the OUT transfers. -/
def destinationMnemonics : List String :=
  ["ADD", "SUB", "MULT", "MULTHS", "MULTHSU", "DIV", "DIVS", "DIVUNS", "STOREBYTE",
   "STOREHALF", "STOREWORD", "LOADBYTE", "LOADBYTEUN", "LOADHALF", "LOADHALFUN",
   "LOADWORD", "SETLESSTHAN", "SETLESSTHANUN", "SHIFTLEFTLOG", "SHIFTRIGHTLOG",
   "SHIFTRIGHARTH", "SHIFTLEFTARTH", "AOUT", "BOUT", "COUT", "MEM1OUT", "MEM2OUT",
   "MEM3OUT", "MEM4OUT", "MEM5OUT"]

/-- The number a case of `riscSim` reads from its destination token `dest` and uses as the
index of the slot it writes: `Atoi` of the token in the six cases whose call of
`translateOperation` is commented out, `Atoi` of the token as `translateOperation` rewrites
it in every other case. -/
def destinationIndex (mn dest : String) : Int :=
  if mn = "STOREHALF" ∨ mn = "STOREWORD" ∨ mn = "LOADHALF" ∨ mn = "LOADHALFUN" ∨
      mn = "SETLESSTHAN" ∨ mn = "SETLESSTHANUN" then (Atoi dest).1
  else (Atoi (translateDest dest)).1

/-- The state vector `s` has the length of `sys` and differs from it in at most the opcode
slot 8 and the slot of index `idx`. -/
def ChangesOnly (sys s : List String) (idx : Int) : Prop :=
  s.length = sys.length ∧ ∀ j : Nat, j ≠ 8 → (j : Int) ≠ idx → s[j]? = sys[j]?

/-- The number `strconv` returns for a non-negative literal of value `n`: `n` itself, or
the largest `int`, `2^63 - 1`, when `n` is out of range. -/
def clampInt (n : Nat) : Nat := min n (2 ^ 63 - 1)

/-- The four cases STOREHALF, STOREWORD, LOADHALF and LOADHALFUN of `riscSim`, each with
the opcode it writes. -/
def halfWordCases : List (String × String) :=
  [("STOREHALF", "010001"), ("STOREWORD", "010010"), ("LOADHALF", "010101"),
   ("LOADHALFUN", "010110")]

/-- The declared length of slot `k`: `w` for the three registers, 12 for the five memory
slots, 6 for the opcode, 4 for the reserved and the flags slot. -/
def declaredWidth (w k : Nat) : Nat := [w, w, w, 12, 12, 12, 12, 12, 6, 4, 4].getD k 0

/-- The string `v` is one that a case of `riscSim` assigns to a slot as it is: the text
`FormatInt(r, 2)` of an `int`, a slot of the state vector `sys`, or one of the four
shift expressions on a slot of `sys`. -/
def StoredAsIs (sys : List String) (v : String) : Prop :=
  (∃ r : Int, v = FormatInt r 2) ∨ v ∈ sys ∨
    ∃ s0 ∈ sys, sliceShiftLeftLog s0 = some v ∨ sliceShiftRightLog s0 = some v ∨
      sliceShiftRightArith s0 = some v ∨ sliceShiftLeftArith s0 = some v

/-- What a case body leaves of the state vector `sys`: `sys` itself, `sys` with the opcode
written, or `sys` with the opcode and one more string, stored as it is, written. -/
def CaseEffect (sys : List String) (opcode : String) (s : List String) : Prop :=
  s = sys ∨ s = sys.set 8 opcode ∨
    ∃ (k : Nat) (v : String), k < 11 ∧ StoredAsIs sys v ∧ Written sys opcode k v s

/-! ## `strconv`: parsing what was formatted -/

theorem le_digitsValue (base : Nat) (hb : 1 ≤ base) (cs : List Char) (n : Nat) :
    n ≤ digitsValue base cs n := by
  induction cs generalizing n with
  | nil => simp [digitsValue]
  | cons c cs ih =>
    have h := ih (n * base + (digitOf c).getD 0)
    have h2 : n ≤ n * base := Nat.le_mul_of_pos_right n hb
    simp only [digitsValue, List.foldl_cons] at h ⊢
    omega

theorem parseUintLoop_eq (base : Nat) (hb : 1 ≤ base) (cs : List Char) (n : Nat)
    (hd : DigitsBelow base cs) (hv : digitsValue base cs n < 2 ^ 64) :
    parseUintLoop base cs n = (digitsValue base cs n, none) := by
  induction cs generalizing n with
  | nil => simp [parseUintLoop, digitsValue]
  | cons c cs ih =>
    obtain ⟨d, hd1, hd2⟩ := hd c (List.mem_cons_self c cs)
    have hrest : DigitsBelow base cs := fun c' hc' => hd c' (List.mem_cons_of_mem c hc')
    have hstep : digitsValue base (c :: cs) n = digitsValue base cs (n * base + d) := by
      simp [digitsValue, hd1]
    rw [hstep] at hv ⊢
    have hle := le_digitsValue base hb cs (n * base + d)
    have h1 : n * base + d < 2 ^ 64 := lt_of_le_of_lt hle hv
    have h2 : n < (2 ^ 64 - 1) / base + 1 := by
      have : n ≤ (2 ^ 64 - 1) / base := by
        rw [Nat.le_div_iff_mul_le (by omega)]
        omega
      omega
    simp only [parseUintLoop, hd1]
    rw [if_neg (by omega), if_neg (by omega), if_neg (by omega)]
    exact ih (n * base + d) hrest hv

theorem digitOf_digitChar (d : Nat) (hd : d < 10) : digitOf (digitChar d) = some d := by
  interval_cases d <;> rfl

theorem digitsValue_formatLoop (base : Nat) (hb2 : 2 ≤ base) (hb10 : base ≤ 10)
    (fuel u : Nat) (acc : List Char) (hu : u < base ^ fuel) :
    digitsValue base (formatLoop base fuel u acc) 0 = digitsValue base acc u := by
  induction fuel generalizing u acc with
  | zero =>
    have : u = 0 := by simpa using hu
    simp [formatLoop, this]
  | succ f ih =>
    unfold formatLoop
    split
    · rename_i hge
      have hlt : u / base < base ^ f := by
        rw [Nat.div_lt_iff_lt_mul (by omega)]
        rw [pow_succ] at hu
        exact hu
      rw [ih (u / base) _ hlt]
      have hm : u % base < 10 := lt_of_lt_of_le (Nat.mod_lt u (by omega)) hb10
      simp only [digitsValue, List.foldl_cons, digitOf_digitChar _ hm, Option.getD_some]
      rw [Nat.div_add_mod' u base]
    · rename_i hlt
      have hm : u < 10 := by omega
      simp [digitsValue, digitOf_digitChar _ hm]

theorem digitsBelow_formatLoop (base : Nat) (hb2 : 2 ≤ base) (hb10 : base ≤ 10)
    (fuel u : Nat) (acc : List Char) (hacc : DigitsBelow base acc) :
    DigitsBelow base (formatLoop base fuel u acc) := by
  induction fuel generalizing u acc with
  | zero => simpa [formatLoop] using hacc
  | succ f ih =>
    unfold formatLoop
    split
    · apply ih
      intro c hc
      rcases List.mem_cons.1 hc with rfl | hc
      · have hm : u % base < base := Nat.mod_lt u (by omega)
        exact ⟨u % base, digitOf_digitChar _ (by omega), hm⟩
      · exact hacc c hc
    · rename_i hlt
      intro c hc
      rcases List.mem_cons.1 hc with rfl | hc
      · exact ⟨u, digitOf_digitChar _ (by omega), by omega⟩
      · exact hacc c hc

theorem formatLoop_ne_nil (base fuel u : Nat) (acc : List Char) :
    formatLoop base (fuel + 1) u acc ≠ [] := by
  induction fuel generalizing u acc with
  | zero => unfold formatLoop; split <;> simp [formatLoop]
  | succ f ih =>
    unfold formatLoop
    split
    · exact ih _ _
    · simp

theorem digitOf_ne_sign (c : Char) (d : Nat) (h : digitOf c = some d) :
    ¬ (c = '+' ∨ c = '-') := by
  rintro (rfl | rfl) <;> simp [digitOf] at h

theorem ParseInt_digits (s : String) (base : Nat) (hb : 1 ≤ base) (hne : s.data ≠ [])
    (hd : DigitsBelow base s.data) (hv : digitsValue base s.data 0 < 2 ^ 63) :
    ParseInt s base = (((digitsValue base s.data 0 : Nat) : Int), none) := by
  unfold ParseInt
  cases hs : s.data with
  | nil => exact absurd hs hne
  | cons c cs =>
    rw [hs] at hd hv
    obtain ⟨d, hd1, _⟩ := hd c (List.mem_cons_self c cs)
    have hsign := digitOf_ne_sign c d hd1
    have hneg : ¬ c = '-' := fun h => hsign (Or.inr h)
    have hp : ParseUint (c :: cs) base = (digitsValue base (c :: cs) 0, none) := by
      simp only [ParseUint]
      exact parseUintLoop_eq base hb (c :: cs) 0 hd (by omega)
    simp only [if_neg hsign]
    rw [hp]
    simp only [hneg, decide_False, Bool.false_eq_true, false_and, not_false_eq_true,
      true_and, if_false]
    rw [if_neg (by omega)]

theorem digitsBelow_of_bits (s : String) (h : IsBitString s) : DigitsBelow 2 s.data := by
  intro c hc
  rcases h c hc with rfl | rfl
  · exact ⟨0, rfl, by omega⟩
  · exact ⟨1, rfl, by omega⟩

theorem digitsValue_of_bits (cs : List Char) (h : ∀ c ∈ cs, c = '0' ∨ c = '1') (n : Nat) :
    digitsValue 2 cs n = cs.foldl (fun n c => 2 * n + (if c = '1' then 1 else 0)) n := by
  induction cs generalizing n with
  | nil => rfl
  | cons c cs ih =>
    have hc := h c (List.mem_cons_self c cs)
    have hrest : ∀ c' ∈ cs, c' = '0' ∨ c' = '1' := fun c' hc' =>
      h c' (List.mem_cons_of_mem c hc')
    have := ih hrest
    simp only [digitsValue, List.foldl_cons] at this ⊢
    rcases hc with rfl | rfl
    · have h0 : digitOf '0' = some 0 := rfl
      rw [h0, this]
      simp [Nat.mul_comm]
    · have h1 : digitOf '1' = some 1 := rfl
      rw [h1, this]
      simp [Nat.mul_comm]

theorem unsignedValue_eq_digitsValue (s : String) (h : IsBitString s) :
    digitsValue 2 s.data 0 = unsignedValue s :=
  digitsValue_of_bits s.data h 0

/-- The call `ParseInt(s, 2, 64)` reads a bit-string whose value fits an `int` as that value. -/
theorem ParseInt_bits (s : String) (h : IsBitString s) (hv : unsignedValue s < 2 ^ 63) :
    (ParseInt s 2).1 = ((unsignedValue s : Nat) : Int) := by
  by_cases hne : s.data = []
  · simp [ParseInt, unsignedValue, hne]
  · rw [← unsignedValue_eq_digitsValue s h] at hv ⊢
    rw [ParseInt_digits s 2 (by omega) hne (digitsBelow_of_bits s h) hv]

theorem digitsBelow_of_decimal (s : String) (h : IsDecimalNat s) : DigitsBelow 10 s.data := by
  intro c hc
  have := h.2 c hc
  refine ⟨c.toNat - 48, ?_, by omega⟩
  simp [digitOf, this]

theorem digitsValue_of_decimal (cs : List Char) (h : ∀ c ∈ cs, 48 ≤ c.toNat ∧ c.toNat ≤ 57)
    (n : Nat) :
    digitsValue 10 cs n = cs.foldl (fun n c => 10 * n + (c.toNat - 48)) n := by
  induction cs generalizing n with
  | nil => rfl
  | cons c cs ih =>
    have hc := h c (List.mem_cons_self c cs)
    have hrest : ∀ c' ∈ cs, 48 ≤ c'.toNat ∧ c'.toNat ≤ 57 := fun c' hc' =>
      h c' (List.mem_cons_of_mem c hc')
    have := ih hrest
    have hd : digitOf c = some (c.toNat - 48) := by simp [digitOf, hc]
    simp only [digitsValue, List.foldl_cons] at this ⊢
    rw [hd, this]
    simp [Nat.mul_comm]

/-- The function `Atoi` reads a decimal literal whose number fits an `int` as that number, without an
error. -/
theorem Atoi_decimal (s : String) (h : IsDecimalNat s) (hv : decimalValue s < 2 ^ 63) :
    Atoi s = (((decimalValue s : Nat) : Int), none) := by
  have hval : digitsValue 10 s.data 0 = decimalValue s := digitsValue_of_decimal s.data h.2 0
  unfold Atoi
  rw [ParseInt_digits s 10 (by omega) h.1 (digitsBelow_of_decimal s h) (by omega), hval]

/-- Parsing in base `b` what `FormatInt` wrote in base `b` gives the number back, for
every non-negative `int`. -/
theorem ParseInt_FormatInt (base : Nat) (hb2 : 2 ≤ base) (hb10 : base ≤ 10) (n : Nat)
    (hn : n < 2 ^ 63) : ParseInt (FormatInt (n : Int) base) base = ((n : Int), none) := by
  have hnn : ¬ ((n : Int) < 0) := by omega
  have hlt : n < base ^ 64 :=
    lt_of_lt_of_le (by omega : n < 2 ^ 64) (Nat.pow_le_pow_left hb2 64)
  have hval := digitsValue_formatLoop base hb2 hb10 64 n [] hlt
  have hval' : digitsValue base (formatLoop base 64 n []) 0 = n := by
    rw [hval]; rfl
  have hne : formatLoop base 64 n [] ≠ [] := formatLoop_ne_nil base 63 n []
  have hdig : DigitsBelow base (formatLoop base 64 n []) :=
    digitsBelow_formatLoop base hb2 hb10 64 n [] (by intro c hc; simp at hc)
  have hp := ParseInt_digits (String.mk (formatLoop base 64 n [])) base (by omega) hne hdig
    (by rw [hval']; exact hn)
  rw [hval'] at hp
  unfold FormatInt
  rw [if_neg hnn, Int.toNat_ofNat]
  exact hp

theorem Atoi_Itoa (n : Nat) (hn : n < 2 ^ 63) : Atoi (Itoa (n : Int)) = ((n : Int), none) :=
  ParseInt_FormatInt 10 (by omega) (by omega) n hn

/-! ## Operand translation -/

theorem not_name_of_decimal (t : String) (h : IsDecimalNat t) : t ∉ locationNames := by
  intro hm
  simp only [locationNames, List.mem_cons, List.mem_singleton, List.not_mem_nil,
    or_false] at hm
  rcases hm with rfl | rfl | rfl | rfl | rfl | rfl | rfl | rfl <;>
    exact absurd h (by decide)

theorem slotIndex_lt (t : String) (h : t ∈ locationNames) : slotIndex t < 8 := by
  simp only [locationNames, List.mem_cons, List.mem_singleton, List.not_mem_nil,
    or_false] at h
  rcases h with rfl | rfl | rfl | rfl | rfl | rfl | rfl | rfl <;> decide

theorem translateDest_name (t : String) (h : t ∈ locationNames) :
    translateDest t = Itoa (slotIndex t) ∧ Atoi (translateDest t) = ((slotIndex t : Int), none) := by
  simp only [locationNames, List.mem_cons, List.mem_singleton, List.not_mem_nil,
    or_false] at h
  rcases h with rfl | rfl | rfl | rfl | rfl | rfl | rfl | rfl <;> decide

theorem translateDest_other (t : String) (h : t ∉ locationNames) : translateDest t = t := by
  simp only [locationNames, List.mem_cons, List.mem_singleton, List.not_mem_nil,
    or_false, not_or] at h
  obtain ⟨h0, h1, h2, h3, h4, h5, h6, h7⟩ := h
  simp [translateDest, h0, h1, h2, h3, h4, h5, h6, h7]

theorem Atoi_name (t : String) (h : t ∈ locationNames) : (Atoi t).1 = 0 := by
  simp only [locationNames, List.mem_cons, List.mem_singleton, List.not_mem_nil,
    or_false] at h
  rcases h with rfl | rfl | rfl | rfl | rfl | rfl | rfl | rfl <;> decide

theorem translateOperand_other (x : List String) (t : String) (h : t ∉ locationNames) :
    translateOperand x t = .ok t := by
  simp only [locationNames, List.mem_cons, List.mem_singleton, List.not_mem_nil,
    or_false, not_or] at h
  obtain ⟨h0, h1, h2, h3, h4, h5, h6, h7⟩ := h
  simp [translateOperand, h0, h1, h2, h3, h4, h5, h6, h7]

theorem translateOperand_name (x : List String) (t : String) (h : t ∈ locationNames) :
    translateOperand x t = slotDecimal x (slotIndex t) := by
  simp only [locationNames, List.mem_cons, List.mem_singleton, List.not_mem_nil,
    or_false] at h
  rcases h with rfl | rfl | rfl | rfl | rfl | rfl | rfl | rfl <;> rfl

/-- An operand token with a value in the sense of the specification (a location name or a
decimal literal) is translated to a text that `Atoi` reads as that value. -/
theorem translateOperand_value (x : List String) (hbits : ∀ s ∈ x, IsBitString s)
    (t : String) (v : Nat) (hv : operandValue x t = some v) (hlt : v < 2 ^ 63) :
    ∃ t', translateOperand x t = .ok t' ∧ Atoi t' = ((v : Int), none) := by
  unfold operandValue at hv
  by_cases hn : t ∈ locationNames
  · rw [if_pos hn] at hv
    rw [translateOperand_name x t hn]
    unfold slotDecimal
    cases hs : x[slotIndex t]? with
    | none => simp [hs] at hv
    | some s =>
      simp only [hs, Option.map_some', Option.some.injEq] at hv
      have hb : IsBitString s := hbits s (List.getElem?_mem hs)
      subst hv
      refine ⟨_, rfl, ?_⟩
      rw [ParseInt_bits s hb hlt]
      exact Atoi_Itoa _ hlt
  · rw [if_neg hn] at hv
    by_cases hd : IsDecimalNat t
    · rw [if_pos hd] at hv
      simp only [Option.some.injEq] at hv
      subst hv
      exact ⟨t, translateOperand_other x t hn, Atoi_decimal t hd hlt⟩
    · simp [hd] at hv

theorem bit_of_digitOf (c : Char) (d : Nat) (h : digitOf c = some d) (hd : d < 2) :
    c = '0' ∨ c = '1' := by
  have hc : Char.ofNat c.toNat = c := Char.ofNat_toNat c
  unfold digitOf at h
  split at h
  · rename_i h1
    simp only [Option.some.injEq] at h
    have : c.toNat = 48 ∨ c.toNat = 49 := by omega
    rcases this with h2 | h2
    · left; rw [← hc, h2]
    · right; rw [← hc, h2]
  · split at h
    · simp only [Option.some.injEq] at h; omega
    · split at h
      · simp only [Option.some.injEq] at h; omega
      · simp at h

/-- The text `FormatInt(n, 2)` of a non-negative `int` is a bit-string whose unsigned value
is `n`. -/
theorem FormatInt_two (n : Nat) (hn : n < 2 ^ 63) :
    IsBitString (FormatInt (n : Int) 2) ∧ unsignedValue (FormatInt (n : Int) 2) = n := by
  have hnn : ¬ ((n : Int) < 0) := by omega
  have hdig : DigitsBelow 2 (formatLoop 2 64 n []) :=
    digitsBelow_formatLoop 2 (by omega) (by omega) 64 n [] (by intro c hc; simp at hc)
  have hbits : IsBitString (String.mk (formatLoop 2 64 n [])) := by
    intro c hc
    obtain ⟨d, hd1, hd2⟩ := hdig c hc
    exact bit_of_digitOf c d hd1 hd2
  have hval := digitsValue_formatLoop 2 (by omega) (by omega) 64 n [] (by omega)
  have hval' : digitsValue 2 (formatLoop 2 64 n []) 0 = n := by
    rw [hval]; rfl
  unfold FormatInt
  rw [if_neg hnn, Int.toNat_ofNat]
  refine ⟨hbits, ?_⟩
  rw [← unsignedValue_eq_digitsValue _ hbits]
  exact hval'

/-! ## Symbolic execution of the case bodies -/

theorem wrap64_of_lt (n : Nat) (hn : n < 2 ^ 63) : wrap64 (n : Int) = (n : Int) := by
  unfold wrap64
  omega

/-- The three-operand body with translation, destination written before the opcode (ADD,
SUB, MULT), on operands that translate and a destination index in range. -/
theorem execThree_destFirst (op : Int → Int → Option Int) (opcode : String)
    (x : List String) (i : Nat) (sys : List String) (t0 t1 t2 dest a b a' b' : String)
    (r : Int) (k : Nat)
    (h1 : x[i + 1]? = some dest) (h2 : x[i + 2]? = some a) (h3 : x[i + 3]? = some b)
    (ha : translateOperand sys a = .ok a') (hb : translateOperand sys b = .ok b')
    (hr : op (Atoi a').1 (Atoi b').1 = some r)
    (hk : (Atoi (translateDest dest)).1 = (k : Int)) (hks : k < sys.length)
    (h8 : 8 < sys.length) :
    execThree op true false opcode x i ⟨sys, [t0, t1, t2]⟩ =
      .ok ⟨(sys.set k (FormatInt r 2)).set 8 opcode, [translateDest dest, a', b']⟩ := by
  simp [execThree, loadThree, tokenAt, setTempJunk, translate, translateOperation,
    translateLoop, tempAt, setSystem, h1, h2, h3, ha, hb, hr, hk, hks, h8, bind,
    Except.bind]

theorem getElem?_set_set_opcode (sys : List String) (k : Nat) (v opcode : String)
    (hk : k < 8) (h8 : 8 < sys.length) :
    ((sys.set k v).set 8 opcode)[k]? = some v ∧
      ((sys.set k v).set 8 opcode)[8]? = some opcode := by
  constructor
  · rw [List.getElem?_set_ne (by omega), List.getElem?_set_self (by omega)]
  · rw [List.getElem?_set_self (by simp; omega)]

/-! ## `binToHex` field by field -/

theorem binSlice_eq_map (b : List String) : binSlice b = b.map (fun s => Itoa (binInt s)) := by
  induction b with
  | nil => rfl
  | cons s b ih =>
    have : binSlice (s :: b) = Itoa (binInt s) :: binSlice b := rfl
    rw [this, ih, List.map_cons]

theorem foldl_append_singleton {α β : Type} (f : α → β) (l : List α) (init : List β) :
    l.foldl (fun acc a => acc ++ [f a]) init = init ++ l.map f := by
  induction l generalizing init with
  | nil => simp
  | cons a l ih => simp [ih]

/-- The function `binToHex` renders the fields one by one, in their order. -/
theorem binToHex_eq_map (b : List String) : binToHex b = b.map renderField := by
  unfold binToHex systemCheck
  rw [foldl_append_singleton hexText, binSlice_eq_map]
  simp [renderField, Function.comp_def]

theorem binToHex_getElem? (b : List String) (k : Nat) :
    (binToHex b)[k]? = (b[k]?).map renderField := by
  rw [binToHex_eq_map, List.getElem?_map]

/-! ## Claims -/

/-- C1: on a state vector of eleven bit-string slots, `ADD dest,a,b` with `dest` one of the
eight location names and `a`, `b` each a location name or a decimal literal of a natural
number, of values `va` and `vb` (a name standing for the unsigned binary value of its slot
before the instruction) with `va + vb < 2^42`, completes, leaves in the destination slot a
bit-string of unsigned value `va + vb` and leaves `000010` in the opcode slot 8. -/
theorem add_writes_sum (x : List String) (i : Nat) (sys : List String)
    (t0 t1 t2 dest a b : String) (va vb : Nat)
    (hlen : sys.length = 11) (hbits : ∀ s ∈ sys, IsBitString s)
    (h0 : x[i]? = some "ADD") (h1 : x[i + 1]? = some dest)
    (h2 : x[i + 2]? = some a) (h3 : x[i + 3]? = some b)
    (hdest : dest ∈ locationNames)
    (ha : operandValue sys a = some va) (hb : operandValue sys b = some vb)
    (hsum : va + vb < 2 ^ 42) :
    ∃ m' n, step x i ⟨sys, [t0, t1, t2]⟩ = .ok (m', n) ∧
      (∃ s, m'.system[slotIndex dest]? = some s ∧ IsBitString s ∧
        unsignedValue s = va + vb) ∧
      m'.system[8]? = some "000010" ∧
      (binToHex m'.system)[8]? = some "0x00000002" := by
  obtain ⟨a', hta, haa⟩ := translateOperand_value sys hbits a va ha (by omega)
  obtain ⟨b', htb, hbb⟩ := translateOperand_value sys hbits b vb hb (by omega)
  have hk := slotIndex_lt dest hdest
  have hr : goAdd (Atoi a').1 (Atoi b').1 = some (((va + vb : Nat) : Int)) := by
    rw [haa, hbb]
    simp only [goAdd, Option.some.injEq]
    rw [← Nat.cast_add]
    exact wrap64_of_lt (va + vb) (by omega)
  have hd : (Atoi (translateDest dest)).1 = (slotIndex dest : Int) := by
    rw [(translateDest_name dest hdest).2]
  have hexec := execThree_destFirst goAdd "000010" x i sys t0 t1 t2 dest a b a' b' _
    (slotIndex dest) h1 h2 h3 hta htb hr hd (by omega) (by omega)
  have hfmt := FormatInt_two (va + vb) (by omega)
  have hget := getElem?_set_set_opcode sys (slotIndex dest)
    (FormatInt ((va + vb : Nat) : Int) 2) "000010" hk (by omega)
  refine ⟨⟨(sys.set (slotIndex dest) (FormatInt ((va + vb : Nat) : Int) 2)).set 8 "000010",
    [translateDest dest, a', b']⟩, i + 2 + 1, ?_, ⟨_, hget.1, hfmt.1, hfmt.2⟩, hget.2, ?_⟩
  · simp [step, h0, execute, hexec, withIncrement]
  · rw [binToHex_getElem?, hget.2]
    rfl

/-- C1, the scenario of the specification: on the freshly reset state vector the tokens
`ADD, REGA, 3, 4` leave `111` (binary 7) in REGA, `000010` in the opcode slot and the
rendered opcode word `0x00000002`. -/
theorem add_writes_sum_witness :
    step ["ADD", "REGA", "3", "4"] 0 ⟨resetSystem, ["", "", ""]⟩ =
        .ok (⟨["0000000000000000000000000000000000000000",
               "0000000000000000000000000000000000000000", "111", "000000000000",
               "000000000000", "000000000000", "000000000000", "000000000000", "000010",
               "0000", "0000"], ["2", "3", "4"]⟩, 3) ∧
      ∃ m' n, step ["ADD", "REGA", "3", "4"] 0 ⟨resetSystem, ["", "", ""]⟩ = .ok (m', n) ∧
        (∃ s, m'.system[slotIndex "REGA"]? = some s ∧ IsBitString s ∧
          unsignedValue s = 3 + 4) ∧
        m'.system[8]? = some "000010" ∧
        (binToHex m'.system)[8]? = some "0x00000002" :=
  ⟨by rfl,
   add_writes_sum ["ADD", "REGA", "3", "4"] 0 resetSystem "" "" "" "REGA" "3" "4" 3 4
    (by decide) (by decide) (by decide) (by decide) (by decide) (by decide) (by decide)
    (by decide) (by decide) (by decide)⟩

theorem translateOperand_ok (x : List String) (hlen : 8 ≤ x.length) (t : String) :
    ∃ t', translateOperand x t = .ok t' := by
  by_cases hn : t ∈ locationNames
  · have hk := slotIndex_lt t hn
    rw [translateOperand_name x t hn]
    unfold slotDecimal
    rw [List.getElem?_eq_getElem (by omega)]
    exact ⟨_, rfl⟩
  · exact ⟨t, translateOperand_other x t hn⟩

/-- The three-operand body with translation stops with the divide panic, before any write
to `system`, when the operator rejects the operands. -/
theorem execThree_panic (op : Int → Int → Option Int) (opcodeFirst : Bool) (opcode : String)
    (x : List String) (i : Nat) (sys : List String) (t0 t1 t2 dest a b a' b' : String)
    (h1 : x[i + 1]? = some dest) (h2 : x[i + 2]? = some a) (h3 : x[i + 3]? = some b)
    (ha : translateOperand sys a = .ok a') (hb : translateOperand sys b = .ok b')
    (hr : op (Atoi a').1 (Atoi b').1 = none) :
    execThree op true opcodeFirst opcode x i ⟨sys, [t0, t1, t2]⟩ =
      .error (.integerDivideByZero, sys) := by
  simp [execThree, loadThree, tokenAt, setTempJunk, translate, translateOperation,
    translateLoop, tempAt, h1, h2, h3, ha, hb, hr, bind, Except.bind]

/-- C2: on a state vector of eleven slots, DIV, DIVS and DIVUNS with any destination token,
any dividend token and a divisor token the engine resolves to 0 stop with the
integer-divide-by-zero panic, and the state vector at the panic is the one the instruction
started from: neither the destination nor the opcode slot was written. -/
theorem div_by_zero_no_write (x : List String) (i : Nat) (sys : List String)
    (t0 t1 t2 mn dest a b : String)
    (hlen : sys.length = 11) (hmn : mn ∈ ["DIV", "DIVS", "DIVUNS"])
    (h0 : x[i]? = some mn) (h1 : x[i + 1]? = some dest)
    (h2 : x[i + 2]? = some a) (h3 : x[i + 3]? = some b)
    (hb : resolveOperand sys b = .ok 0) :
    step x i ⟨sys, [t0, t1, t2]⟩ = .error (.integerDivideByZero, sys) := by
  obtain ⟨a', hta⟩ := translateOperand_ok sys (by omega) a
  obtain ⟨b', htb⟩ := translateOperand_ok sys (by omega) b
  have hb0 : (Atoi b').1 = 0 := by
    simpa [resolveOperand, htb] using hb
  have hr : goDiv (Atoi a').1 (Atoi b').1 = none := by
    simp [goDiv, hb0]
  have hexec := fun opcode => execThree_panic goDiv true opcode x i sys t0 t1 t2 dest a b
    a' b' h1 h2 h3 hta htb hr
  simp only [List.mem_cons, List.mem_singleton, List.not_mem_nil, or_false] at hmn
  rcases hmn with rfl | rfl | rfl <;>
    simp [step, h0, execute, hexec, withIncrement]

/-- C2 on a run: `DIV REGA,3,0`, `DIVS REGA,MEM1,MEM3` (MEM3 holds zero) and
`DIVUNS REGA,7,FOO` each stop the run started from the initial state with the divide
panic, the state vector untouched. -/
theorem div_by_zero_no_write_witness :
    riscSim ["DIV", "REGA", "3", "0"] true = .error (.integerDivideByZero, initialSystem) ∧
      step ["DIVS", "REGA", "MEM1", "MEM3"] 0 initialMachine =
        .error (.integerDivideByZero, initialSystem) ∧
      step ["DIVUNS", "REGA", "7", "FOO"] 0 initialMachine =
        .error (.integerDivideByZero, initialSystem) :=
  ⟨by rfl,
   div_by_zero_no_write ["DIVS", "REGA", "MEM1", "MEM3"] 0 initialSystem "" "" "" "DIVS"
    "REGA" "MEM1" "MEM3" (by decide) (by decide) (by decide) (by decide) (by decide)
    (by decide) (by rfl),
   div_by_zero_no_write ["DIVUNS", "REGA", "7", "FOO"] 0 initialSystem "" "" "" "DIVUNS"
    "REGA" "7" "FOO" (by decide) (by decide) (by decide) (by decide) (by decide)
    (by decide) (by rfl)⟩

/-- C3: whatever the machine was, RESET completes and leaves the fixed state vector
`resetSystem`: every slot other than the opcode slot consists of `0` characters only and
the opcode slot 8 holds `111111`. -/
theorem reset_restores (x : List String) (i : Nat) (m : Machine)
    (h0 : x[i]? = some "RESET") :
    (∃ m', step x i m = .ok (m', i + 1) ∧ m'.system = resetSystem) ∧
      resetSystem.length = 11 ∧
      (∀ k s, k ≠ 8 → resetSystem[k]? = some s → ∀ c ∈ s.data, c = '0') ∧
      resetSystem[8]? = some "111111" := by
  refine ⟨⟨⟨resetSystem, m.tempJunk⟩, ?_, rfl⟩, by decide, ?_, by decide⟩
  · simp [step, h0, execute]
  · intro k s hk hs
    have hlt : k < 11 := by
      have := (List.getElem?_eq_some_iff.1 hs).1
      simpa [resetSystem] using this
    interval_cases k <;> first
      | exact absurd rfl hk
      | (simp only [resetSystem, List.getElem?_cons_zero, List.getElem?_cons_succ,
           Option.some.injEq] at hs
         subst hs
         decide)

/-- C3 on two different prior states: RESET on the initial machine and RESET on a machine
whose state vector is malformed leave the same state vector. -/
theorem reset_restores_witness :
    (∃ m', step ["RESET"] 0 initialMachine = .ok (m', 0 + 1) ∧ m'.system = resetSystem) ∧
      (∃ m', step ["RESET"] 0 ⟨["1", "", "x"], []⟩ = .ok (m', 0 + 1) ∧
        m'.system = resetSystem) :=
  ⟨(reset_restores ["RESET"] 0 initialMachine (by decide)).1,
   (reset_restores ["RESET"] 0 ⟨["1", "", "x"], []⟩ (by decide)).1⟩

/-- C4, as stated, fails: the run on the empty stream executes no instruction and ends in
the state `riscSim` starts with, which is not the state RESET produces; MEM2 holds 2, MEM1
holds 1 and the opcode slot holds `000000`. -/
theorem initial_state_ne_reset :
    ∃ m out, riscSim [] false = .ok (m, out) ∧ m.system ≠ resetSystem ∧
      m.system[6]? = some "000000000010" ∧ m.system[7]? = some "000000000001" ∧
      m.system[8]? = some "000000" :=
  ⟨initialMachine, [], rfl, by decide, by decide, by decide, by decide⟩

/-- C4, amended: every run of `riscSim` starts from the state vector `initialSystem`; its
registers, MEM5, MEM4, MEM3, the reserved slot and the flags slot hold the same all-zero
strings as after RESET, MEM2 holds `000000000010`, MEM1 holds `000000000001` and the opcode
slot holds `000000`; it differs from the state RESET produces in the slots 6, 7, 8 only. -/
theorem initial_state_fields (x : List String) (y : Bool) :
    riscSim x y = riscSimLoop x y x.length 0 ⟨initialSystem, ["", "", ""]⟩ [] ∧
      initialSystem.length = 11 ∧
      (∀ k ∈ [0, 1, 2, 3, 4, 5, 9, 10], initialSystem[k]? = resetSystem[k]?) ∧
      initialSystem[6]? = some "000000000010" ∧
      initialSystem[7]? = some "000000000001" ∧
      initialSystem[8]? = some "000000" ∧
      ((initialSystem.set 6 "000000000000").set 7 "000000000000").set 8 "111111" =
        resetSystem :=
  ⟨rfl, by decide, by decide, by decide, by decide, by decide, by decide⟩

/-! ## `translateOperation` as a whole -/

theorem digitChar_eq (d : Nat) (hd : d < 10) : digitChar d = Nat.digitChar d := by
  interval_cases d <;> rfl

theorem formatLoop_eq_toDigitsCore (f1 : Nat) :
    ∀ (u f2 : Nat) (acc : List Char), u < 10 ^ (f1 + 1) → u + 1 ≤ f2 →
      formatLoop 10 (f1 + 1) u acc = Nat.toDigitsCore 10 f2 u acc := by
  induction f1 with
  | zero =>
    intro u f2 acc hu hf
    obtain ⟨f2', rfl⟩ : ∃ f2', f2 = f2' + 1 := ⟨f2 - 1, by omega⟩
    have hu' : u < 10 := by simpa using hu
    have hdiv : u / 10 = 0 := by omega
    have hmod : u % 10 = u := by omega
    simp only [formatLoop, Nat.toDigitsCore, hdiv, hmod, if_true]
    rw [if_neg (by omega), digitChar_eq u hu']
  | succ f ih =>
    intro u f2 acc hu hf
    obtain ⟨f2', rfl⟩ : ∃ f2', f2 = f2' + 1 := ⟨f2 - 1, by omega⟩
    by_cases h10 : u < 10
    · have hdiv : u / 10 = 0 := by omega
      have hmod : u % 10 = u := by omega
      unfold formatLoop
      simp only [Nat.toDigitsCore, hdiv, hmod, if_true]
      rw [if_neg (by omega), digitChar_eq u h10]
    · have hdiv : u / 10 ≠ 0 := by omega
      have hlt : u / 10 < 10 ^ (f + 1) := by
        rw [Nat.div_lt_iff_lt_mul (by omega)]
        rw [pow_succ] at hu
        exact hu
      have hm : u % 10 < 10 := Nat.mod_lt u (by omega)
      unfold formatLoop
      simp only [Nat.toDigitsCore, hdiv, if_false]
      rw [if_pos (by omega), digitChar_eq _ hm]
      exact ih (u / 10) f2' _ hlt (by omega)

/-- The text `Itoa` makes of a non-negative `int` is the decimal text of the number. -/
theorem Itoa_eq_decimalText (n : Nat) (hn : n < 2 ^ 63) : Itoa (n : Int) = decimalText n := by
  have hnn : ¬ ((n : Int) < 0) := by omega
  have h := formatLoop_eq_toDigitsCore 63 n (n + 1) [] (by omega) (by omega)
  unfold Itoa FormatInt decimalText Nat.repr Nat.toDigits List.asString
  rw [if_neg hnn, Int.toNat_ofNat, h]

theorem foldl_bits_lt (cs : List Char) (n : Nat) :
    cs.foldl (fun n c => 2 * n + (if c = '1' then 1 else 0)) n < (n + 1) * 2 ^ cs.length := by
  induction cs generalizing n with
  | nil => simp
  | cons c cs ih =>
    have h := ih (2 * n + (if c = '1' then 1 else 0))
    simp only [List.foldl_cons, List.length_cons]
    refine lt_of_lt_of_le h ?_
    have : (2 * n + (if c = '1' then 1 else 0) + 1) ≤ 2 * (n + 1) := by
      split <;> omega
    calc (2 * n + (if c = '1' then 1 else 0) + 1) * 2 ^ cs.length
        ≤ (2 * (n + 1)) * 2 ^ cs.length := Nat.mul_le_mul_right _ this
      _ = (n + 1) * 2 ^ (cs.length + 1) := by ring

/-- A bit-string of `n` characters has a value below `2^n`. -/
theorem unsignedValue_lt (s : String) : unsignedValue s < 2 ^ s.length := by
  have h := foldl_bits_lt s.data 0
  rw [Nat.zero_add, Nat.one_mul] at h
  exact h

theorem unsignedValue_lt_of_short (s : String) (n : Nat) (h : s.length ≤ n) :
    unsignedValue s < 2 ^ n :=
  lt_of_lt_of_le (unsignedValue_lt s) (Nat.pow_le_pow_right (by omega) h)

theorem translateLoop_ok (x : List String) (hlen : 8 ≤ x.length) (rest : List String) :
    ∃ r, translateLoop x rest = .ok r ∧ r.length = rest.length ∧
      ∀ (k : Nat) (t : String), rest[k]? = some t → ∃ t', translateOperand x t = .ok t' ∧ r[k]? = some t' := by
  induction rest with
  | nil => exact ⟨[], rfl, rfl, by intro k t h; simp at h⟩
  | cons y rest ih =>
    obtain ⟨r, hr, hrl, hrk⟩ := ih
    obtain ⟨v, hv⟩ := translateOperand_ok x hlen y
    refine ⟨v :: r, by simp [translateLoop, hv, hr], by simp [hrl], ?_⟩
    intro k t hk
    cases k with
    | zero =>
      simp only [List.getElem?_cons_zero, Option.some.injEq] at hk
      subst hk
      exact ⟨v, hv, by simp⟩
    | succ k =>
      simp only [List.getElem?_cons_succ] at hk
      obtain ⟨t', ht, hrt⟩ := hrk k t hk
      exact ⟨t', ht, by simpa using hrt⟩

/-- C5: for a state vector `x` of eleven bit-string slots, each shorter than 64 characters,
and an operand list `y` with first entry `y0` and later entries `rest`,
`translateOperation` returns `x` itself and a list `y'` of the length of `y` in which: a
location name at `y[0]` has become the decimal text of its slot index in the table
REGC=0 .. MEM1=7; a location name at a later position has become the decimal text of the
unsigned binary value of its slot; a decimal literal, at any position, is kept as it is,
and `Atoi` reads it as its decimal number. -/
theorem translateOperation_spec (x : List String) (y0 : String) (rest : List String)
    (hlen : x.length = 11) (hbits : ∀ s ∈ x, IsBitString s ∧ s.length < 64) :
    ∃ y', translateOperation x (y0 :: rest) = .ok (x, y') ∧
      y'.length = (y0 :: rest).length ∧
      (y0 ∈ locationNames → y'[0]? = some (decimalText (slotIndex y0))) ∧
      (∀ (k : Nat) (t : String), 1 ≤ k → (y0 :: rest)[k]? = some t → t ∈ locationNames →
        ∃ s, x[slotIndex t]? = some s ∧ y'[k]? = some (decimalText (unsignedValue s))) ∧
      (∀ (k : Nat) (t : String), (y0 :: rest)[k]? = some t → IsDecimalNat t →
        y'[k]? = some t ∧
          (decimalValue t < 2 ^ 63 → (Atoi t).1 = (decimalValue t : Int))) := by
  obtain ⟨r, hr, hrl, hrk⟩ := translateLoop_ok x (by omega) rest
  refine ⟨translateDest y0 :: r, by simp [translateOperation, hr], by simp [hrl], ?_, ?_, ?_⟩
  · intro hn
    have hk := slotIndex_lt y0 hn
    rw [List.getElem?_cons_zero, (translateDest_name y0 hn).1,
      Itoa_eq_decimalText _ (by omega)]
  · intro k t hk ht hn
    obtain ⟨k', rfl⟩ : ∃ k', k = k' + 1 := ⟨k - 1, by omega⟩
    simp only [List.getElem?_cons_succ] at ht ⊢
    obtain ⟨t', htt, hrt⟩ := hrk k' t ht
    have hlt := slotIndex_lt t hn
    rw [translateOperand_name x t hn] at htt
    unfold slotDecimal at htt
    cases hs : x[slotIndex t]? with
    | none => simp [hs] at htt
    | some s =>
      simp only [hs, Except.ok.injEq] at htt
      have hb := hbits s (List.getElem?_mem hs)
      have hv : unsignedValue s < 2 ^ 63 := unsignedValue_lt_of_short s 63 (by omega)
      rw [ParseInt_bits s hb.1 hv, Itoa_eq_decimalText _ hv] at htt
      exact ⟨s, rfl, by rw [hrt, htt]⟩
  · intro k t ht hd
    have hn := not_name_of_decimal t hd
    refine ⟨?_, fun hv => by rw [Atoi_decimal t hd hv]⟩
    cases k with
    | zero =>
      simp only [List.getElem?_cons_zero, Option.some.injEq] at ht
      subst ht
      rw [List.getElem?_cons_zero, translateDest_other y0 hn]
    | succ k =>
      simp only [List.getElem?_cons_succ] at ht ⊢
      obtain ⟨t', htt, hrt⟩ := hrk k t ht
      rw [translateOperand_other x t hn] at htt
      simp only [Except.ok.injEq] at htt
      rw [hrt, htt]

/-- C5 on the operand list `REGA, MEM1, 12, MEM2` and the initial state vector: the list
becomes `2, 1, 12, 2` and the state vector is returned as it was. -/
theorem translateOperation_spec_witness :
    translateOperation initialSystem ["REGA", "MEM1", "12", "MEM2"] =
        .ok (initialSystem, ["2", "1", "12", "2"]) ∧
      ∃ y', translateOperation initialSystem ("REGA" :: ["MEM1", "12", "MEM2"]) =
          .ok (initialSystem, y') ∧
        y'.length = ("REGA" :: ["MEM1", "12", "MEM2"]).length ∧
        ("REGA" ∈ locationNames → y'[0]? = some (decimalText (slotIndex "REGA"))) ∧
        (∀ (k : Nat) (t : String), 1 ≤ k →
          ("REGA" :: ["MEM1", "12", "MEM2"])[k]? = some t → t ∈ locationNames →
          ∃ s, initialSystem[slotIndex t]? = some s ∧
            y'[k]? = some (decimalText (unsignedValue s))) ∧
        (∀ (k : Nat) (t : String),
          ("REGA" :: ["MEM1", "12", "MEM2"])[k]? = some t → IsDecimalNat t →
          y'[k]? = some t ∧
            (decimalValue t < 2 ^ 63 → (Atoi t).1 = (decimalValue t : Int))) :=
  ⟨by rfl,
   translateOperation_spec initialSystem "REGA" ["MEM1", "12", "MEM2"] (by decide)
    (by decide)⟩

/-! ## Tokens that are neither a name nor a number -/

theorem isDigit_of_digitOf (c : Char) (d : Nat) (h : digitOf c = some d) (hd : d < 10) :
    48 ≤ c.toNat ∧ c.toNat ≤ 57 := by
  unfold digitOf at h
  split at h
  · assumption
  · split at h
    · simp only [Option.some.injEq] at h; omega
    · split at h
      · simp only [Option.some.injEq] at h; omega
      · simp at h

/-- On a text with a character that is not a decimal digit the digit loop of `ParseUint`
ends in an error: the syntax error with value 0, or the range error met before it. -/
theorem parseUintLoop_error (cs : List Char) (n : Nat)
    (h : ∃ c ∈ cs, ¬ (48 ≤ c.toNat ∧ c.toNat ≤ 57)) :
    parseUintLoop 10 cs n = (0, some .errSyntax) ∨
      parseUintLoop 10 cs n = (2 ^ 64 - 1, some .errRange) := by
  induction cs generalizing n with
  | nil => obtain ⟨c, hc, _⟩ := h; simp at hc
  | cons c cs ih =>
    unfold parseUintLoop
    cases hd : digitOf c with
    | none => exact Or.inl rfl
    | some d =>
      simp only []
      split
      · exact Or.inl rfl
      · rename_i hlt
        split
        · exact Or.inr rfl
        · split
          · exact Or.inr rfl
          · apply ih
            obtain ⟨c', hc', hnd⟩ := h
            rcases List.mem_cons.1 hc' with rfl | hmem
            · exact absurd (isDigit_of_digitOf c' d hd (by omega)) hnd
            · exact ⟨c', hmem, hnd⟩

theorem parseUintLoop_first (c : Char) (cs : List Char) (n : Nat)
    (h : ¬ (48 ≤ c.toNat ∧ c.toNat ≤ 57)) :
    parseUintLoop 10 (c :: cs) n = (0, some .errSyntax) := by
  unfold parseUintLoop
  cases hd : digitOf c with
  | none => rfl
  | some d =>
    have : ¬ d < 10 := fun hlt => h (isDigit_of_digitOf c d hd hlt)
    simp only []
    rw [if_pos (by omega)]

theorem ParseInt_eq_body (s : String) (hne : s.data ≠ []) :
    ParseInt s 10 =
      (match ParseUint (unsignedBody s) 10 with
       | (_, some .errSyntax) => (0, some .errSyntax)
       | (un, _) =>
         if ¬ (s.data.head? = some '-') ∧ un ≥ 2 ^ 63 then (2 ^ 63 - 1, some .errRange)
         else if s.data.head? = some '-' ∧ un > 2 ^ 63 then (-(2 ^ 63), some .errRange)
         else if s.data.head? = some '-' then (-(un : Int), none) else ((un : Int), none)) := by
  unfold ParseInt unsignedBody
  cases hs : s.data with
  | nil => exact absurd hs hne
  | cons c cs => simp

/-- The function `Atoi` reports an error for every token that is not a decimal literal. -/
theorem Atoi_error_of_not_literal (t : String) (h : ¬ IsDecimalLiteral t) :
    (Atoi t).2 ≠ none := by
  unfold Atoi
  by_cases hne : t.data = []
  · simp [ParseInt, hne]
  · rw [ParseInt_eq_body t hne]
    by_cases hb : unsignedBody t = []
    · simp [hb, ParseUint]
    · have hex : ∃ c ∈ unsignedBody t, ¬ (48 ≤ c.toNat ∧ c.toNat ≤ 57) := by
        by_contra hall
        push_neg at hall
        exact h ⟨hb, fun c hc => hall c hc⟩
      have hp : ParseUint (unsignedBody t) 10 = parseUintLoop 10 (unsignedBody t) 0 := by
        unfold ParseUint
        split
        · rename_i heq; exact absurd heq hb
        · rfl
      rw [hp]
      rcases parseUintLoop_error (unsignedBody t) 0 hex with hr | hr <;> rw [hr]
      · simp
      · by_cases hneg : t.data.head? = some '-' <;> simp [hneg]

/-- The function `Atoi` returns 0, with the syntax error, for a token that does not start with a
digit. -/
theorem Atoi_zero_of_not_digit (t : String) (h : ¬ StartsWithDigit t) :
    Atoi t = (0, some .errSyntax) := by
  unfold Atoi
  by_cases hne : t.data = []
  · simp [ParseInt, hne]
  · rw [ParseInt_eq_body t hne]
    unfold StartsWithDigit at h
    cases hb : unsignedBody t with
    | nil => simp [ParseUint]
    | cons c cs =>
      rw [hb] at h
      simp only [] at h
      have : ParseUint (c :: cs) 10 = (0, some .errSyntax) := by
        simp only [ParseUint]
        exact parseUintLoop_first c cs 0 h
      rw [this]

/-- C6, as stated, fails: `FOO` is neither a location name nor a decimal literal, yet
`ADD REGA,FOO,4` raises no error and completes; `FOO` is read as 0 and REGA receives
`100` (binary 4). -/
theorem unknown_operand_completes :
    "FOO" ∉ locationNames ∧ ¬ IsDecimalLiteral "FOO" ∧
      step ["ADD", "REGA", "FOO", "4"] 0 initialMachine =
        .ok (⟨["0000000000000000000000000000000000000000",
               "0000000000000000000000000000000000000000", "100", "000000000000",
               "000000000000", "000000000000", "000000000010", "000000000001", "000010",
               "0000", "0000"], ["2", "FOO", "4"]⟩, 3) :=
  ⟨by decide, by decide, by rfl⟩

/-- C6, amended: an operand token `t` that is neither a location name nor a decimal literal
raises no unknown-operand error.  `translateOperation` keeps it as it is, `Atoi` reports
an error for it, which the engine discards, and returns 0 when `t` does not start with a
digit; `ADD dest,t,b` on a state vector of eleven slots completes and writes the binary
text of the sum of what `Atoi` returned for `t` and for the translated `b`. -/
theorem add_unknown_operand (x : List String) (i : Nat) (sys : List String)
    (t0 t1 t2 dest t b : String) (hlen : sys.length = 11)
    (h0 : x[i]? = some "ADD") (h1 : x[i + 1]? = some dest)
    (h2 : x[i + 2]? = some t) (h3 : x[i + 3]? = some b)
    (hdest : dest ∈ locationNames) (hname : t ∉ locationNames)
    (hlit : ¬ IsDecimalLiteral t) :
    translateOperand sys t = .ok t ∧ (Atoi t).2 ≠ none ∧
      (¬ StartsWithDigit t → Atoi t = (0, some .errSyntax)) ∧
      ∃ m' n b', step x i ⟨sys, [t0, t1, t2]⟩ = .ok (m', n) ∧
        translateOperand sys b = .ok b' ∧
        m'.system[slotIndex dest]? =
          some (FormatInt (wrap64 ((Atoi t).1 + (Atoi b').1)) 2) ∧
        m'.system[8]? = some "000010" := by
  have hta := translateOperand_other sys t hname
  obtain ⟨b', htb⟩ := translateOperand_ok sys (by omega) b
  have hk := slotIndex_lt dest hdest
  have hd : (Atoi (translateDest dest)).1 = (slotIndex dest : Int) := by
    rw [(translateDest_name dest hdest).2]
  have hexec := execThree_destFirst goAdd "000010" x i sys t0 t1 t2 dest t b t b'
    (wrap64 ((Atoi t).1 + (Atoi b').1)) (slotIndex dest) h1 h2 h3 hta htb rfl hd
    (by omega) (by omega)
  have hget := getElem?_set_set_opcode sys (slotIndex dest)
    (FormatInt (wrap64 ((Atoi t).1 + (Atoi b').1)) 2) "000010" hk (by omega)
  refine ⟨hta, Atoi_error_of_not_literal t hlit, Atoi_zero_of_not_digit t,
    ⟨(sys.set (slotIndex dest) (FormatInt (wrap64 ((Atoi t).1 + (Atoi b').1)) 2)).set 8
      "000010", [translateDest dest, t, b']⟩, i + 2 + 1, b', ?_, htb, hget.1, hget.2⟩
  simp [step, h0, execute, hexec, withIncrement]

/-- C6, amended, on `ADD REGA,FOO,4` and the initial state. -/
theorem add_unknown_operand_witness :
    translateOperand initialSystem "FOO" = .ok "FOO" ∧ (Atoi "FOO").2 ≠ none ∧
      (¬ StartsWithDigit "FOO" → Atoi "FOO" = (0, some .errSyntax)) ∧
      ∃ m' n b', step ["ADD", "REGA", "FOO", "4"] 0 ⟨initialSystem, ["", "", ""]⟩ =
          .ok (m', n) ∧
        translateOperand initialSystem "4" = .ok b' ∧
        m'.system[slotIndex "REGA"]? =
          some (FormatInt (wrap64 ((Atoi "FOO").1 + (Atoi b').1)) 2) ∧
        m'.system[8]? = some "000010" :=
  add_unknown_operand ["ADD", "REGA", "FOO", "4"] 0 initialSystem "" "" "" "REGA" "FOO" "4"
    (by decide) (by decide) (by decide) (by decide) (by decide) (by decide) (by decide)
    (by decide)

/-- C7 fails on a run: after `ADD REGA,268435456,0` on the initial state REGA holds `1`
followed by 28 zeros (the value 2^28) and `binToHex` renders it as `10000000`, eight
hexadecimal digits without the `0x` prefix; a register holding forty ones is rendered as
the ten digits `FFFFFFFFFF`. -/
theorem binToHex_word_without_prefix :
    (∃ m n, step ["ADD", "REGA", "268435456", "0"] 0 initialMachine = .ok (m, n) ∧
        m.system[2]? = some "10000000000000000000000000000" ∧
        (binToHex m.system)[2]? = some "10000000") ∧
      binToHex ["1111111111111111111111111111111111111111"] = ["FFFFFFFFFF"] :=
  ⟨⟨⟨["0000000000000000000000000000000000000000",
       "0000000000000000000000000000000000000000", "10000000000000000000000000000",
       "000000000000", "000000000000", "000000000000", "000000000010", "000000000001",
       "000010", "0000", "0000"], ["2", "268435456", "0"]⟩, 3, by rfl, by rfl, by rfl⟩,
   by rfl⟩

/-! ## `binToHex`: the value of a rendered field -/

theorem foldl_bits_shift (cs : List Char) (n : Nat) :
    cs.foldl (fun n c => 2 * n + (if c = '1' then 1 else 0)) n =
      n * 2 ^ cs.length + cs.foldl (fun n c => 2 * n + (if c = '1' then 1 else 0)) 0 := by
  induction cs generalizing n with
  | nil => simp
  | cons c cs ih =>
    simp only [List.foldl_cons, List.length_cons]
    rw [ih (2 * n + (if c = '1' then 1 else 0)), ih (2 * 0 + (if c = '1' then 1 else 0))]
    ring

theorem shl1_of_lt (p : Nat) (hp : p < 63) : shl1 p = ((2 ^ p : Nat) : Int) := by
  have h1 : 2 ^ p < 2 ^ 63 := Nat.pow_lt_pow_right (by omega) hp
  unfold shl1
  rw [if_pos (by omega)]
  have := wrap64_of_lt (2 ^ p) h1
  rw [← this]
  push_cast
  rfl

theorem binInt_foldr (cs : List Char) (hbits : ∀ c ∈ cs, c = '0' ∨ c = '1')
    (hlen : cs.length ≤ 63) :
    cs.foldr
        (fun c (st : Int × Nat) =>
          (if c.toNat = 49 then wrap64 (st.1 + wrap64 (1 * shl1 st.2)) else st.1, st.2 + 1))
        (0, 0) =
      (((cs.foldl (fun n c => 2 * n + (if c = '1' then 1 else 0)) 0 : Nat) : Int),
        cs.length) := by
  induction cs with
  | nil => rfl
  | cons c cs ih =>
    have hrest : ∀ c' ∈ cs, c' = '0' ∨ c' = '1' := fun c' hc' =>
      hbits c' (List.mem_cons_of_mem c hc')
    have hl : cs.length ≤ 62 := by simp only [List.length_cons] at hlen; omega
    rw [List.foldr_cons, ih hrest (by omega)]
    have hv := foldl_bits_lt cs 0
    rw [Nat.zero_add, Nat.one_mul] at hv
    have hp : 2 ^ cs.length ≤ 2 ^ 62 := Nat.pow_le_pow_right (by omega) hl
    have hshift := foldl_bits_shift cs
    simp only [List.foldl_cons, List.length_cons]
    rcases hbits c (List.mem_cons_self c cs) with rfl | rfl
    · have h0 : ¬ ('0'.toNat = 49) := by decide
      simp only [if_neg h0]
      rw [hshift (2 * 0 + if '0' = '1' then 1 else 0)]
      simp
    · have h1 : '1'.toNat = 49 := by decide
      simp only [if_pos h1]
      rw [hshift (2 * 0 + if True then 1 else 0), shl1_of_lt _ (by omega)]
      simp only [one_mul, if_true, Nat.mul_zero, Nat.zero_add]
      rw [wrap64_of_lt _ (by omega), ← Nat.cast_add, wrap64_of_lt _ (by omega)]
      congr 2
      ring

/-- The function `binInt` reads a bit-string of at most 63 characters as its unsigned value. -/
theorem binInt_eq (s : String) (h : IsBitString s) (hlen : s.length ≤ 63) :
    binInt s = ((unsignedValue s : Nat) : Int) := by
  unfold binInt unsignedValue
  rw [binInt_foldr s.data h hlen]

theorem hexLoop_digits (e : Nat) :
    ∀ (fuel v : Nat) (acc : List Int), e ≤ fuel → 0 < v → v < 16 ^ e →
      hexLoop fuel (v : Int) acc = acc ++ (Nat.digits 16 v).map Int.ofNat := by
  induction e with
  | zero => intro fuel v acc _ hv hlt; simp at hlt; omega
  | succ e ih =>
    intro fuel v acc hf hv hlt
    obtain ⟨f, rfl⟩ : ∃ f, fuel = f + 1 := ⟨fuel - 1, by omega⟩
    unfold hexLoop
    by_cases h16 : v < 16
    · rw [if_neg (by omega), Nat.digits_of_lt 16 v (by omega) h16]
      rfl
    · have hd : 0 < v / 16 := Nat.div_pos (by omega) (by omega)
      have hlt' : v / 16 < 16 ^ e := by
        rw [Nat.div_lt_iff_lt_mul (by omega)]
        rw [pow_succ] at hlt
        exact hlt
      have hshift : (v : Int) >>> (4 : Nat) = ((v / 16 : Nat) : Int) := by
        rw [Int.shiftRight_eq_div_pow]
        norm_num
      have hmod : Int.tmod (v : Int) 16 = ((v % 16 : Nat) : Int) := by
        rw [Int.tmod_eq_emod (by omega) (by omega)]
        norm_num
      rw [if_pos (by omega), hshift, hmod, ih f (v / 16) _ (by omega) hd hlt']
      rw [Nat.digits_def' (by omega) hv]
      simp

theorem hexDigit_data (d : Nat) (hd : d < 16) : (hexDigit (d : Int)).data = [hexChar d] := by
  interval_cases d <;> rfl

theorem hexCharValue_hexChar (d : Nat) (hd : d < 16) : hexCharValue (hexChar d) = d := by
  interval_cases d <;> rfl

theorem hexChar_ne_x (d : Nat) : hexChar d ≠ 'x' := by
  unfold hexChar
  split <;> decide

theorem render_data (l : List Nat) (hl : ∀ d ∈ l, d < 16) (init : String) :
    ((l.map Int.ofNat).foldl (fun value3 d => value3 ++ hexDigit d) init).data =
      init.data ++ l.map hexChar := by
  induction l generalizing init with
  | nil => simp
  | cons d l ih =>
    have hd := hl d (List.mem_cons_self d l)
    have hrest : ∀ d' ∈ l, d' < 16 := fun d' hd' => hl d' (List.mem_cons_of_mem d hd')
    simp only [List.map_cons, List.foldl_cons]
    rw [ih hrest, String.data_append]
    have := hexDigit_data d hd
    simp only [Int.ofNat_eq_coe, this, List.append_assoc, List.singleton_append]

theorem hexValue_reverse (l : List Nat) (hl : ∀ d ∈ l, d < 16) :
    hexValue (l.reverse.map hexChar) = Nat.ofDigits 16 l := by
  induction l with
  | nil => rfl
  | cons d l ih =>
    have hd := hl d (List.mem_cons_self d l)
    have hrest : ∀ d' ∈ l, d' < 16 := fun d' hd' => hl d' (List.mem_cons_of_mem d hd')
    have := ih hrest
    unfold hexValue at this ⊢
    rw [List.reverse_cons, List.map_append, List.foldl_append, this, Nat.ofDigits_cons]
    simp only [List.map_cons, List.map_nil, List.foldl_cons, List.foldl_nil,
      hexCharValue_hexChar d hd]
    omega

theorem hexValue_zeros (k : Nat) (cs : List Char) :
    hexValue (List.replicate k '0' ++ cs) = hexValue cs := by
  unfold hexValue
  rw [List.foldl_append]
  have : (List.replicate k '0').foldl (fun n c => 16 * n + hexCharValue c) 0 = 0 := by
    induction k with
    | zero => rfl
    | succ k ih => rw [List.replicate_succ, List.foldl_cons]; exact ih
  rw [this]

theorem hexDigitsOf_eq (w : String) (h : ∀ c ∈ w.data, c ≠ 'x') : hexDigitsOf w = w.data := by
  unfold hexDigitsOf
  split
  · rename_i rest heq
    exact absurd rfl (h 'x' (by rw [heq]; simp))
  · rfl

/-- The hexadecimal text `binToHex` makes of a value reads back as that value and has no
character `x`. -/
theorem hexText_value (v : Nat) (hv : v < 2 ^ 63) :
    hexValue (hexText (Itoa (v : Int))).data = v ∧
      ∀ c ∈ (hexText (Itoa (v : Int))).data, c ≠ 'x' := by
  by_cases h9 : v ≤ 9
  · interval_cases v <;> exact ⟨by rfl, by decide⟩
  · have hgt : ((v : Int) > 9) := by omega
    have hdig : ∀ d ∈ Nat.digits 16 v, d < 16 := fun d hd =>
      Nat.digits_lt_base (by omega) hd
    have hloop := hexLoop_digits 16 9223372036854775807 v [] (by decide) (by omega)
      (by norm_num; omega)
    have hdata : (hexText (Itoa (v : Int))).data = (Nat.digits 16 v).reverse.map hexChar := by
      unfold hexText
      simp only [Atoi_Itoa v hv, if_pos hgt, hloop, List.nil_append, ← List.map_reverse]
      rw [render_data _ (fun d hd => hdig d (List.mem_reverse.1 hd))]
      rfl
    rw [hdata]
    refine ⟨?_, ?_⟩
    · rw [hexValue_reverse _ hdig, Nat.ofDigits_digits]
    · intro c hc
      obtain ⟨d, _, rfl⟩ := List.mem_map.1 hc
      exact hexChar_ne_x d

theorem systemCheckWord_value (w : String) (h : ∀ c ∈ w.data, c ≠ 'x') :
    hexValue (hexDigitsOf (systemCheckWord w)) = hexValue w.data := by
  unfold systemCheckWord
  split
  · have : hexDigitsOf ("0x" ++ (String.mk (List.replicate (8 - w.length) '0') ++ w)) =
        List.replicate (8 - w.length) '0' ++ w.data := by
      unfold hexDigitsOf
      simp only [String.data_append]
      rfl
    rw [this, hexValue_zeros]
  · rw [hexDigitsOf_eq w h]

/-- The word `binToHex` renders for a bit-string field of at most 63 characters has the
value of the field as its hexadecimal digits. -/
theorem renderField_value (s : String) (h : IsBitString s) (hlen : s.length ≤ 63) :
    hexValue (hexDigitsOf (renderField s)) = unsignedValue s := by
  have hv : unsignedValue s < 2 ^ 63 := unsignedValue_lt_of_short s 63 hlen
  unfold renderField
  rw [binInt_eq s h hlen]
  have := hexText_value (unsignedValue s) hv
  rw [systemCheckWord_value _ this.2, this.1]

/-- C8: for every list of bit-string fields, each shorter than 63 characters, `binToHex`
returns a list of the same length, and the word at each index, taken without its `0x`
prefix when it has one and read as a base-16 number, equals the unsigned binary value of
the field at that index (in particular when that value is below 2^32). -/
theorem binToHex_roundtrip (b : List String)
    (hb : ∀ s ∈ b, IsBitString s ∧ s.length < 63) :
    (binToHex b).length = b.length ∧
      ∀ (k : Nat) (s : String), b[k]? = some s →
        ∃ w, (binToHex b)[k]? = some w ∧ hexValue (hexDigitsOf w) = unsignedValue s := by
  refine ⟨by rw [binToHex_eq_map, List.length_map], ?_⟩
  intro k s hs
  have hmem := hb s (List.getElem?_mem hs)
  refine ⟨renderField s, by rw [binToHex_getElem?, hs]; rfl, ?_⟩
  exact renderField_value s hmem.1 (by omega)

/-- C8 on three fields: three words come back, the second one without a prefix, and each
reads back as the value of its field. -/
theorem binToHex_roundtrip_witness :
    binToHex ["000000000101", "10000000000000000000000000000", "111111"] =
        ["0x00000005", "10000000", "0x0000003F"] ∧
      (binToHex ["000000000101", "10000000000000000000000000000", "111111"]).length =
        ["000000000101", "10000000000000000000000000000", "111111"].length ∧
      ∀ (k : Nat) (s : String),
        ["000000000101", "10000000000000000000000000000", "111111"][k]? = some s →
        ∃ w, (binToHex ["000000000101", "10000000000000000000000000000", "111111"])[k]? =
            some w ∧
          hexValue (hexDigitsOf w) = unsignedValue s :=
  ⟨by rfl,
   binToHex_roundtrip ["000000000101", "10000000000000000000000000000", "111111"]
    (by decide)⟩

/-- The body of the cases ending in `system[k] = system[loadVarInt]`, on a source that is
a location name. -/
theorem execIn_name (k : Int) (opcode : String) (x : List String) (i : Nat)
    (sys : List String) (t0 t1 t2 src : String) (hlen : sys.length = 11)
    (h1 : x[i + 1]? = some src) (hsrc : src ∈ locationNames) (hk0 : 0 ≤ k) (hk : k < 8) :
    ∃ tj v, sys[slotIndex src]? = some v ∧
      execIn k opcode x i ⟨sys, [t0, t1, t2]⟩ = .ok ⟨(sys.set k.toNat v).set 8 opcode, tj⟩ := by
  obtain ⟨r, hr, _, _⟩ := translateLoop_ok sys (by omega) [t1, t2]
  have hj := slotIndex_lt src hsrc
  have hd := (translateDest_name src hsrc).2
  have hlt : slotIndex src < sys.length := by omega
  have hv : sys[slotIndex src]? = some sys[slotIndex src] := List.getElem?_eq_getElem hlt
  refine ⟨translateDest src :: r, _, hv, ?_⟩
  have hkn : k.toNat < 11 := by omega
  simp [execIn, loadOne, tokenAt, setTempJunk, translate, translateOperation, hr, tempAt,
    systemAt, indexInt, setSystem, h1, hd, hv, hlen, hk0, hkn, bind, Except.bind]

/-- C10: on a state vector of eleven slots, `LOADA src` with `src` one of the eight
location names completes, leaves in Register A (slot 2) the string the source slot held
before the instruction (so the same unsigned value), leaves `011111` in the opcode slot 8
and leaves every other slot as it was. -/
theorem loada_copies_source (x : List String) (i : Nat) (sys : List String)
    (t0 t1 t2 src : String) (hlen : sys.length = 11)
    (h0 : x[i]? = some "LOADA") (h1 : x[i + 1]? = some src) (hsrc : src ∈ locationNames) :
    ∃ m' n v, step x i ⟨sys, [t0, t1, t2]⟩ = .ok (m', n) ∧
      sys[slotIndex src]? = some v ∧
      (∃ s, m'.system[2]? = some s ∧ s = v ∧ unsignedValue s = unsignedValue v) ∧
      m'.system[8]? = some "011111" ∧
      ∀ (k : Nat), k ≠ 2 → k ≠ 8 → m'.system[k]? = sys[k]? := by
  obtain ⟨tj, v, hv, hexec⟩ := execIn_name 2 "011111" x i sys t0 t1 t2 src hlen h1 hsrc
    (by omega) (by omega)
  refine ⟨⟨(sys.set 2 v).set 8 "011111", tj⟩, i + 1 + 1, v, ?_, hv, ⟨v, ?_, rfl, rfl⟩, ?_, ?_⟩
  · simp [step, h0, execute, hexec, withIncrement]
  · rw [List.getElem?_set_ne (by omega), List.getElem?_set_self (by omega)]
  · rw [List.getElem?_set_self (by simp; omega)]
  · intro k hk2 hk8
    rw [List.getElem?_set_ne (by omega), List.getElem?_set_ne (by omega)]

/-- C10, the scenario of the specification: with MEM1 holding `000000000101` (decimal 5)
the tokens `LOADA, MEM1` leave that string, of value binary 101, in Register A and
`011111` in the opcode slot. -/
theorem loada_copies_source_witness :
    step ["LOADA", "MEM1"] 0 ⟨initialSystem.set 7 "000000000101", ["", "", ""]⟩ =
        .ok (⟨["0000000000000000000000000000000000000000",
               "0000000000000000000000000000000000000000", "000000000101", "000000000000",
               "000000000000", "000000000000", "000000000010", "000000000101", "011111",
               "0000", "0000"], ["7", "", ""]⟩, 2) ∧
      unsignedValue "000000000101" = 5 ∧
      ∃ m' n v, step ["LOADA", "MEM1"] 0 ⟨initialSystem.set 7 "000000000101", ["", "", ""]⟩ =
          .ok (m', n) ∧
        (initialSystem.set 7 "000000000101")[slotIndex "MEM1"]? = some v ∧
        (∃ s, m'.system[2]? = some s ∧ s = v ∧ unsignedValue s = unsignedValue v) ∧
        m'.system[8]? = some "011111" ∧
        ∀ (k : Nat), k ≠ 2 → k ≠ 8 →
          m'.system[k]? = (initialSystem.set 7 "000000000101")[k]? :=
  ⟨by rfl, by decide,
   loada_copies_source ["LOADA", "MEM1"] 0 (initialSystem.set 7 "000000000101") "" "" ""
    "MEM1" (by decide) (by decide) (by decide) (by decide)⟩

/-! ## Widths -/

theorem execOut_name (k : Int) (opcode : String) (x : List String) (i : Nat)
    (sys : List String) (t0 t1 t2 dest : String) (hlen : sys.length = 11)
    (h1 : x[i + 1]? = some dest) (hdest : dest ∈ locationNames) (hk0 : 0 ≤ k) (hk : k < 8) :
    ∃ tj v, sys[k.toNat]? = some v ∧
      execOut k opcode x i ⟨sys, [t0, t1, t2]⟩ =
        .ok ⟨(sys.set (slotIndex dest) v).set 8 opcode, tj⟩ := by
  obtain ⟨r, hr, _, _⟩ := translateLoop_ok sys (by omega) [t1, t2]
  have hj := slotIndex_lt dest hdest
  have hd := (translateDest_name dest hdest).2
  have hlt : k.toNat < sys.length := by omega
  have hv : sys[k.toNat]? = some sys[k.toNat] := List.getElem?_eq_getElem hlt
  refine ⟨translateDest dest :: r, _, hv, ?_⟩
  have hjn : slotIndex dest < 11 := by omega
  simp [execOut, loadOne, tokenAt, setTempJunk, translate, translateOperation, hr, tempAt,
    systemAt, indexInt, setSystem, h1, hd, hv, hlen, hk0, hjn, bind, Except.bind]

theorem execute_transferIn (x : List String) (i : Nat) (m : Machine) (mn : String) (k : Nat)
    (h : (mn, k) ∈ transferIn) :
    k < 8 ∧ ∃ opcode, opcode.length = 6 ∧
      execute x i m mn = withIncrement 1 (execIn (k : Int) opcode x i m) := by
  simp only [transferIn, List.mem_cons, List.mem_singleton, List.not_mem_nil, or_false,
    Prod.mk.injEq] at h
  rcases h with ⟨rfl, rfl⟩ | ⟨rfl, rfl⟩ | ⟨rfl, rfl⟩ | ⟨rfl, rfl⟩ | ⟨rfl, rfl⟩ | ⟨rfl, rfl⟩ |
    ⟨rfl, rfl⟩ | ⟨rfl, rfl⟩ | ⟨rfl, rfl⟩ | ⟨rfl, rfl⟩ | ⟨rfl, rfl⟩ <;>
  exact ⟨by omega, _, by decide, rfl⟩

theorem execute_transferOut (x : List String) (i : Nat) (m : Machine) (mn : String) (k : Nat)
    (h : (mn, k) ∈ transferOut) :
    k < 8 ∧ ∃ opcode, opcode.length = 6 ∧
      execute x i m mn = withIncrement 1 (execOut (k : Int) opcode x i m) := by
  simp only [transferOut, List.mem_cons, List.mem_singleton, List.not_mem_nil, or_false,
    Prod.mk.injEq] at h
  rcases h with ⟨rfl, rfl⟩ | ⟨rfl, rfl⟩ | ⟨rfl, rfl⟩ | ⟨rfl, rfl⟩ | ⟨rfl, rfl⟩ | ⟨rfl, rfl⟩ |
    ⟨rfl, rfl⟩ | ⟨rfl, rfl⟩ <;>
  exact ⟨by omega, _, by decide, rfl⟩

theorem hasWidths_set (w : Nat) (sys : List String) (j k : Nat) (v opcode : String)
    (hw : HasWidths w sys) (hv : sys[j]? = some v) (hj : j < 8) (hk : k < 8)
    (hclass : j < 3 ↔ k < 3) (h6 : opcode.length = 6) :
    HasWidths w ((sys.set k v).set 8 opcode) := by
  unfold HasWidths at hw ⊢
  have hvl : (sys.map String.length)[j]? = some v.length := by
    rw [List.getElem?_map, hv]; rfl
  rw [hw] at hvl
  rw [List.map_set, List.map_set, hw, h6]
  interval_cases j <;> interval_cases k <;> simp at hvl hclass ⊢ <;> omega

theorem hasWidths_set_opcode (w : Nat) (sys : List String) (opcode : String)
    (hw : HasWidths w sys) (h6 : opcode.length = 6) : HasWidths w (sys.set 8 opcode) := by
  unfold HasWidths at hw ⊢
  rw [List.map_set, hw, h6]
  rfl

theorem length_of_hasWidths (w : Nat) (sys : List String) (hw : HasWidths w sys) :
    sys.length = 11 := by
  have := congrArg List.length hw
  simpa using this

/-- C9, as stated, fails, with the registers' width read as the 40 characters of the
literals of `riscSim` or as the 42 bits the specification declares: `ADD REGA,3,4` on an
all-zero state vector of the declared widths leaves the 3-character string `111` in
REGA. -/
theorem add_breaks_width :
    (HasWidths 40 resetSystem ∧
      ∃ m n, step ["ADD", "REGA", "3", "4"] 0 ⟨resetSystem, ["", "", ""]⟩ = .ok (m, n) ∧
        m.system[2]? = some "111" ∧ ¬ HasWidths 40 m.system) ∧
    (HasWidths 42 (["000000000000000000000000000000000000000000",
        "000000000000000000000000000000000000000000",
        "000000000000000000000000000000000000000000"] ++ resetSystem.drop 3) ∧
      ∃ m n, step ["ADD", "REGA", "3", "4"] 0
          ⟨["000000000000000000000000000000000000000000",
            "000000000000000000000000000000000000000000",
            "000000000000000000000000000000000000000000"] ++ resetSystem.drop 3,
           ["", "", ""]⟩ = .ok (m, n) ∧
        m.system[2]? = some "111" ∧ ¬ HasWidths 42 m.system) :=
  ⟨⟨by decide,
    ⟨["0000000000000000000000000000000000000000",
       "0000000000000000000000000000000000000000", "111", "000000000000", "000000000000",
       "000000000000", "000000000000", "000000000000", "000010", "0000", "0000"],
      ["2", "3", "4"]⟩, 3, by rfl, by rfl, by decide⟩,
   ⟨by decide,
    ⟨["000000000000000000000000000000000000000000",
       "000000000000000000000000000000000000000000", "111", "000000000000", "000000000000",
       "000000000000", "000000000000", "000000000000", "000010", "0000", "0000"],
      ["2", "3", "4"]⟩, 3, by rfl, by rfl, by decide⟩⟩

/-- The instructions that write no computed number keep the declared lengths, for any
register length `w`: ZERO, IMM, JUMP and STALL write only a 6-character opcode; a transfer
instruction whose operand is a location name copies one slot into another, and keeps every
length when the slot read and the slot written are both registers or both memory slots. -/
theorem marker_or_transfer_keeps_widths (w : Nat) (x : List String) (i : Nat)
    (sys : List String) (t0 t1 t2 mn : String) (hw : HasWidths w sys)
    (h0 : x[i]? = some mn)
    (h : mn ∈ ["ZERO", "IMM", "JUMP", "STALL"] ∨
      ∃ k opnd, ((mn, k) ∈ transferIn ∨ (mn, k) ∈ transferOut) ∧ x[i + 1]? = some opnd ∧
        opnd ∈ locationNames ∧ (slotIndex opnd < 3 ↔ k < 3)) :
    ∃ m' n, step x i ⟨sys, [t0, t1, t2]⟩ = .ok (m', n) ∧ HasWidths w m'.system := by
  have hlen := length_of_hasWidths w sys hw
  rcases h with hmark | ⟨k, opnd, hmn, h1, hop, hclass⟩
  · simp only [List.mem_cons, List.mem_singleton, List.not_mem_nil, or_false] at hmark
    rcases hmark with rfl | rfl | rfl | rfl
    · exact ⟨⟨sys.set 8 "000000", [t0, t1, t2]⟩, i + 0 + 1,
        by simp [step, h0, execute, setSystem, withIncrement, hlen],
        hasWidths_set_opcode w sys _ hw (by decide)⟩
    · exact ⟨⟨sys.set 8 "000001", [t0, t1, t2]⟩, i + 0 + 1,
        by simp [step, h0, execute, setSystem, withIncrement, hlen],
        hasWidths_set_opcode w sys _ hw (by decide)⟩
    · exact ⟨⟨sys.set 8 "110001", [t0, t1, t2]⟩, i + 0 + 1,
        by simp [step, h0, execute, setSystem, withIncrement, hlen],
        hasWidths_set_opcode w sys _ hw (by decide)⟩
    · refine ⟨⟨(sys.set 8 "0").set 8 "111110", [t0, t1, t2]⟩, i + 0 + 1,
        by simp [step, h0, execute, setSystem, withIncrement, hlen, bind, Except.bind], ?_⟩
      rw [List.set_set]
      exact hasWidths_set_opcode w sys _ hw (by decide)
  · have hj := slotIndex_lt opnd hop
    rcases hmn with hin | hout
    · obtain ⟨hk, opcode, h6, hexe⟩ := execute_transferIn x i ⟨sys, [t0, t1, t2]⟩ mn k hin
      obtain ⟨tj, v, hv, hexec⟩ := execIn_name (k : Int) opcode x i sys t0 t1 t2 opnd hlen h1
        hop (by omega) (by omega)
      rw [Int.toNat_ofNat] at hexec
      exact ⟨⟨(sys.set k v).set 8 opcode, tj⟩, i + 1 + 1,
        by simp [step, h0, hexe, hexec, withIncrement],
        hasWidths_set w sys (slotIndex opnd) k v opcode hw hv hj hk hclass h6⟩
    · obtain ⟨hk, opcode, h6, hexe⟩ := execute_transferOut x i ⟨sys, [t0, t1, t2]⟩ mn k hout
      obtain ⟨tj, v, hv, hexec⟩ := execOut_name (k : Int) opcode x i sys t0 t1 t2 opnd hlen
        h1 hop (by omega) (by omega)
      rw [Int.toNat_ofNat] at hv
      exact ⟨⟨(sys.set (slotIndex opnd) v).set 8 opcode, tj⟩, i + 1 + 1,
        by simp [step, h0, hexe, hexec, withIncrement],
        hasWidths_set w sys k (slotIndex opnd) v opcode hw hv hk hj hclass.symm h6⟩

/-! ## The transfer cases -/

/-- What a transfer case of the table `transferIn` does on a state vector of eleven slots
and a source that is a location name: slot `k` of the table receives the string of the
source slot. -/
theorem transferIn_effect (x : List String) (i : Nat) (sys : List String)
    (t0 t1 t2 mn src : String) (k : Nat) (hlen : sys.length = 11)
    (hmn : (mn, k) ∈ transferIn) (h0 : x[i]? = some mn) (h1 : x[i + 1]? = some src)
    (hsrc : src ∈ locationNames) :
    ∃ m' v, step x i ⟨sys, [t0, t1, t2]⟩ = .ok (m', i + 2) ∧
      sys[slotIndex src]? = some v ∧ m'.system[k]? = some v ∧
      ∀ (j : Nat), j ≠ k → j ≠ 8 → m'.system[j]? = sys[j]? := by
  obtain ⟨hk, opcode, _, hexe⟩ := execute_transferIn x i ⟨sys, [t0, t1, t2]⟩ mn k hmn
  obtain ⟨tj, v, hv, hexec⟩ := execIn_name (k : Int) opcode x i sys t0 t1 t2 src hlen h1
    hsrc (by omega) (by omega)
  rw [Int.toNat_ofNat] at hexec
  refine ⟨⟨(sys.set k v).set 8 opcode, tj⟩, v, ?_, hv, ?_, ?_⟩
  · simp [step, h0, hexe, hexec, withIncrement]
  · rw [List.getElem?_set_ne (by omega), List.getElem?_set_self (by omega)]
  · intro j hj hj8
    rw [List.getElem?_set_ne (by omega), List.getElem?_set_ne (by omega)]

/-- What a transfer case of the table `transferOut` does on a state vector of eleven slots
and a destination that is a location name: the destination slot receives the string of
slot `k` of the table. -/
theorem transferOut_effect (x : List String) (i : Nat) (sys : List String)
    (t0 t1 t2 mn dest : String) (k : Nat) (hlen : sys.length = 11)
    (hmn : (mn, k) ∈ transferOut) (h0 : x[i]? = some mn) (h1 : x[i + 1]? = some dest)
    (hdest : dest ∈ locationNames) :
    ∃ m' v, step x i ⟨sys, [t0, t1, t2]⟩ = .ok (m', i + 2) ∧
      sys[k]? = some v ∧ m'.system[slotIndex dest]? = some v ∧
      ∀ (j : Nat), j ≠ slotIndex dest → j ≠ 8 → m'.system[j]? = sys[j]? := by
  obtain ⟨hk, opcode, _, hexe⟩ := execute_transferOut x i ⟨sys, [t0, t1, t2]⟩ mn k hmn
  obtain ⟨tj, v, hv, hexec⟩ := execOut_name (k : Int) opcode x i sys t0 t1 t2 dest hlen h1
    hdest (by omega) (by omega)
  rw [Int.toNat_ofNat] at hv
  have hj := slotIndex_lt dest hdest
  refine ⟨⟨(sys.set (slotIndex dest) v).set 8 opcode, tj⟩, v, ?_, hv, ?_, ?_⟩
  · simp [step, h0, hexe, hexec, withIncrement]
  · rw [List.getElem?_set_ne (by omega), List.getElem?_set_self (by omega)]
  · intro j hjd hj8
    rw [List.getElem?_set_ne (by omega), List.getElem?_set_ne (by omega)]

/-- C11 fails on a run: on the initial state, where MEM1 holds the value 1 and Register C
the value 0, `CIN MEM1` and `LOADC MEM1` complete, leave Register C (slot 0) as it was and
put the string of MEM1 in Register B (slot 1): both cases assign `system[1]`. -/
theorem cin_loadc_write_register_b :
    (∃ m n, step ["CIN", "MEM1"] 0 initialMachine = .ok (m, n) ∧
        m.system[0]? = initialSystem[0]? ∧ m.system[1]? = some "000000000001" ∧
        m.system[8]? = some "100100") ∧
      (∃ m n, step ["LOADC", "MEM1"] 0 initialMachine = .ok (m, n) ∧
        m.system[0]? = initialSystem[0]? ∧ m.system[1]? = some "000000000001" ∧
        m.system[8]? = some "100101") ∧
      initialSystem[7]? = some "000000000001" ∧
      unsignedValue "000000000001" = 1 ∧
      initialSystem[0]? = some "0000000000000000000000000000000000000000" ∧
      unsignedValue "0000000000000000000000000000000000000000" = 0 :=
  ⟨⟨⟨["0000000000000000000000000000000000000000", "000000000001",
       "0000000000000000000000000000000000000000", "000000000000", "000000000000",
       "000000000000", "000000000010", "000000000001", "100100", "0000", "0000"],
      ["7", "", ""]⟩, 2, by rfl, by rfl, by rfl, by rfl⟩,
   ⟨⟨["0000000000000000000000000000000000000000", "000000000001",
       "0000000000000000000000000000000000000000", "000000000000", "000000000000",
       "000000000000", "000000000010", "000000000001", "100101", "0000", "0000"],
      ["7", "", ""]⟩, 2, by rfl, by rfl, by rfl, by rfl⟩,
   by rfl, by decide, by rfl, by decide⟩

/-- C12 fails on a run: on the initial state, where MEM1 holds the value 1, `MEM5IN MEM1`
completes, leaves memory slot 5 (index 3) all-zero as it was and puts the string of MEM1
in memory slot 4 (index 4): the case assigns `system[4]`, as the case MEM4IN does. -/
theorem mem5in_writes_memory_slot_4 :
    (∃ m n, step ["MEM5IN", "MEM1"] 0 initialMachine = .ok (m, n) ∧
        m.system[3]? = some "000000000000" ∧ m.system[4]? = some "000000000001" ∧
        m.system[8]? = some "101111") ∧
      (∃ m n, step ["MEM4IN", "MEM1"] 0 initialMachine = .ok (m, n) ∧
        m.system[4]? = some "000000000001") ∧
      initialSystem[7]? = some "000000000001" ∧
      unsignedValue "000000000001" = 1 ∧ unsignedValue "000000000000" = 0 :=
  ⟨⟨⟨["0000000000000000000000000000000000000000",
       "0000000000000000000000000000000000000000",
       "0000000000000000000000000000000000000000", "000000000000", "000000000001",
       "000000000000", "000000000010", "000000000001", "101111", "0000", "0000"],
      ["7", "", ""]⟩, 2, by rfl, by rfl, by rfl, by rfl⟩,
   ⟨⟨["0000000000000000000000000000000000000000",
       "0000000000000000000000000000000000000000",
       "0000000000000000000000000000000000000000", "000000000000", "000000000001",
       "000000000000", "000000000010", "000000000001", "101101", "0000", "0000"],
      ["7", "", ""]⟩, 2, by rfl, by rfl⟩,
   by rfl, by decide, by decide⟩

/-- C13 fails on a run: on the initial state `COUT REGA` and `MEM1OUT REGA` both leave
`100110` in the opcode slot 8, while the opcodes of the neighbouring cases MEM1IN and
MEM2IN are `100111` and `101001`. -/
theorem cout_mem1out_same_opcode :
    (∃ m n, step ["COUT", "REGA"] 0 initialMachine = .ok (m, n) ∧
        m.system[8]? = some "100110") ∧
      (∃ m n, step ["MEM1OUT", "REGA"] 0 initialMachine = .ok (m, n) ∧
        m.system[8]? = some "100110") ∧
      (∃ m n, step ["MEM1IN", "REGA"] 0 initialMachine = .ok (m, n) ∧
        m.system[8]? = some "100111") ∧
      (∃ m n, step ["MEM2IN", "REGA"] 0 initialMachine = .ok (m, n) ∧
        m.system[8]? = some "101001") :=
  ⟨⟨⟨initialSystem.set 8 "100110", ["2", "", ""]⟩, 2, by rfl, by rfl⟩,
   ⟨⟨(initialSystem.set 2 "000000000001").set 8 "100110", ["2", "", ""]⟩, 2, by rfl,
     by rfl⟩,
   ⟨⟨(initialSystem.set 7 "0000000000000000000000000000000000000000").set 8 "100111",
      ["2", "", ""]⟩, 2, by rfl, by rfl⟩,
   ⟨⟨(initialSystem.set 6 "0000000000000000000000000000000000000000").set 8 "101001",
      ["2", "", ""]⟩, 2, by rfl, by rfl⟩⟩

/-! ## Markers and unmatched tokens -/

/-- C14: on a state vector of eleven slots the STALL marker completes, leaves `111110` in
the opcode slot 8 and leaves every other slot, and the operand scratch list, as they
were; the next token dispatched is the one after the marker. -/
theorem stall_writes_opcode_only (x : List String) (i : Nat) (m : Machine)
    (hlen : m.system.length = 11) (h0 : x[i]? = some "STALL") :
    ∃ m', step x i m = .ok (m', i + 1) ∧ m'.system[8]? = some "111110" ∧
      (∀ (k : Nat), k ≠ 8 → m'.system[k]? = m.system[k]?) ∧
      m'.system.length = 11 ∧ m'.tempJunk = m.tempJunk := by
  refine ⟨⟨(m.system.set 8 "0").set 8 "111110", m.tempJunk⟩, ?_, ?_, ?_, ?_, rfl⟩
  · simp [step, h0, execute, setSystem, withIncrement, hlen, bind, Except.bind]
  · rw [List.getElem?_set_self (by simp; omega)]
  · intro k hk
    rw [List.getElem?_set_ne (by omega), List.getElem?_set_ne (by omega)]
  · simp [hlen]

/-- C14 on the initial state: STALL changes the opcode slot only. -/
theorem stall_writes_opcode_only_witness :
    step ["STALL"] 0 initialMachine =
        .ok (⟨initialSystem.set 8 "111110", ["", "", ""]⟩, 1) ∧
      ∃ m', step ["STALL"] 0 initialMachine = .ok (m', 0 + 1) ∧
        m'.system[8]? = some "111110" ∧
        (∀ (k : Nat), k ≠ 8 → m'.system[k]? = initialMachine.system[k]?) ∧
        m'.system.length = 11 ∧ m'.tempJunk = initialMachine.tempJunk :=
  ⟨by rfl, stall_writes_opcode_only ["STALL"] 0 initialMachine (by decide) (by decide)⟩

/-- C19: a token that is none of the mnemonics of the `switch` matches no case: the step
raises no error, leaves the machine (state vector and scratch list) as it was and goes on
at the next position `i + 1`; in the loop of `riscSim` the iteration only renders the
unchanged state vector. -/
theorem unmatched_token_skipped (x : List String) (y : Bool) (i fuel : Nat) (m : Machine)
    (out : List (List String)) (t : String) (h0 : x[i]? = some t) (ht : t ∉ mnemonics) :
    step x i m = .ok (m, i + 1) ∧
      riscSimLoop x y (fuel + 1) i m out =
        riscSimLoop x y fuel (i + 1) m (if y = true then out ++ [binToHex m.system] else out) := by
  have hstep : step x i m = .ok (m, i + 1) := by
    simp only [mnemonics, List.mem_cons, List.mem_singleton, List.not_mem_nil, or_false,
      not_or] at ht
    obtain ⟨h1, h2, h3, h4, h5, h6, h7, h8, h9, h10, h11, h12, h13, h14, h15, h16, h17,
      h18, h19, h20, h21, h22, h23, h24, h25, h26, h27, h28, h29, h30, h31, h32, h33, h34,
      h35, h36, h37, h38, h39, h40, h41, h42, h43, h44, h45, h46⟩ := ht
    simp [step, h0, execute, h1, h2, h3, h4, h5, h6, h7, h8, h9, h10, h11, h12, h13, h14,
      h15, h16, h17, h18, h19, h20, h21, h22, h23, h24, h25, h26, h27, h28, h29, h30, h31,
      h32, h33, h34, h35, h36, h37, h38, h39, h40, h41, h42, h43, h44, h45, h46]
  refine ⟨hstep, ?_⟩
  have hi : i < x.length := (List.getElem?_eq_some_iff.1 h0).1
  simp [riscSimLoop, hi, hstep]

/-- C19 on the stream `ADD, REGA, 3, 4`: the step at position 3 dispatches the token `4`,
which is no mnemonic, and changes nothing. -/
theorem unmatched_token_skipped_witness :
    step ["ADD", "REGA", "3", "4"] 3 initialMachine = .ok (initialMachine, 3 + 1) ∧
      riscSimLoop ["ADD", "REGA", "3", "4"] true (0 + 1) 3 initialMachine [] =
        riscSimLoop ["ADD", "REGA", "3", "4"] true 0 (3 + 1) initialMachine
          (if true = true then [] ++ [binToHex initialMachine.system] else []) :=
  unmatched_token_skipped ["ADD", "REGA", "3", "4"] true 3 0 initialMachine [] "4"
    (by decide) (by decide)

/-! ## The shift cases -/

/-- The body of the four shift cases on a destination and a source that are location
names: the source slot is read, sliced, and the result written to the destination slot
after the opcode. -/
theorem execShift_names (slice : String → Option String) (opcode : String)
    (x : List String) (i : Nat) (sys : List String) (t0 t1 t2 dest src s r : String)
    (hlen : sys.length = 11) (h1 : x[i + 1]? = some dest) (h2 : x[i + 2]? = some src)
    (hdest : dest ∈ locationNames) (hsrc : src ∈ locationNames)
    (hs : sys[slotIndex src]? = some s) (hr : slice s = some r) :
    ∃ tj, execShift slice opcode x i ⟨sys, [t0, t1, t2]⟩ =
      .ok ⟨(sys.set 8 opcode).set (slotIndex dest) r, tj⟩ := by
  obtain ⟨r1, hr1, _, _⟩ := translateLoop_ok sys (by omega) [t1, t2]
  obtain ⟨r2, hr2, _, _⟩ := translateLoop_ok sys (by omega) r1
  have hkd := slotIndex_lt dest hdest
  have hks := slotIndex_lt src hsrc
  have hd := (translateDest_name dest hdest).2
  have hsd := (translateDest_name src hsrc).2
  have hkn : slotIndex dest < 11 := by omega
  refine ⟨translateDest src :: r2, ?_⟩
  simp [execShift, loadOne, tokenAt, setTempJunk, translate, translateOperation, hr1, hr2,
    tempAt, systemAt, indexInt, setSystem, h1, h2, hd, hsd, hs, hr, hlen, hkn, bind,
    Except.bind]

theorem getElem?_set_opcode_set (sys : List String) (k : Nat) (v opcode : String)
    (hk : k < 8) (h8 : 8 < sys.length) :
    ((sys.set 8 opcode).set k v)[k]? = some v ∧
      ((sys.set 8 opcode).set k v)[8]? = some opcode := by
  constructor
  · rw [List.getElem?_set_self (by simp; omega)]
  · rw [List.getElem?_set_ne (by omega), List.getElem?_set_self (by omega)]

theorem isBitString_drop_append (cs : List Char) (h : ∀ c ∈ cs, c = '0' ∨ c = '1') :
    ∀ c ∈ cs.drop 1 ++ ['0'], c = '0' ∨ c = '1' := by
  intro c hc
  rcases List.mem_append.1 hc with hc | hc
  · exact h c (List.mem_of_mem_drop hc)
  · left; simpa using hc

/-- Dropping the leading bit of a non-empty bit-string and appending `0` doubles the value
modulo `2^length`. -/
theorem value_drop_append (cs : List Char) (hne : cs ≠ []) :
    (cs.drop 1 ++ ['0']).foldl (fun n c => 2 * n + (if c = '1' then 1 else 0)) 0 =
      (2 * cs.foldl (fun n c => 2 * n + (if c = '1' then 1 else 0)) 0) % 2 ^ cs.length := by
  cases cs with
  | nil => exact absurd rfl hne
  | cons c cs =>
    have hv := foldl_bits_lt cs 0
    rw [Nat.zero_add, Nat.one_mul] at hv
    have hshift := foldl_bits_shift cs (2 * 0 + (if c = '1' then 1 else 0))
    simp only [List.drop_succ_cons, List.drop_zero, List.foldl_append, List.foldl_cons,
      List.foldl_nil, List.length_cons]
    rw [hshift]
    have hb : (2 * 0 + (if c = '1' then 1 else 0)) ≤ 1 := by split <;> omega
    generalize (2 * 0 + (if c = '1' then 1 else 0)) = b at hb
    generalize cs.foldl (fun n c => 2 * n + (if c = '1' then 1 else 0)) 0 = v at hv
    have h2 : 2 * (b * 2 ^ cs.length + v) = 2 * v + b * 2 ^ (cs.length + 1) := by ring
    have h3 : 2 * v < 2 ^ (cs.length + 1) := by rw [pow_succ]; omega
    rw [h2, Nat.add_mul_mod_self_right, Nat.mod_eq_of_lt h3]
    simp

/-- C15: on a state vector of eleven slots, `SHIFTLEFTLOG dest,src` with `dest` and `src`
location names and the source slot holding a non-empty bit-string `s` completes, leaves in
the destination slot the string `s` without its leading bit and with a `0` appended (a
bit-string of the length of `s`, of value `2 * value(s)` modulo `2^length`) and leaves
`011100` in the opcode slot 8. -/
theorem shiftleftlog_drops_leading_bit (x : List String) (i : Nat) (sys : List String)
    (t0 t1 t2 dest src s : String) (hlen : sys.length = 11)
    (h0 : x[i]? = some "SHIFTLEFTLOG") (h1 : x[i + 1]? = some dest)
    (h2 : x[i + 2]? = some src) (hdest : dest ∈ locationNames)
    (hsrc : src ∈ locationNames) (hs : sys[slotIndex src]? = some s)
    (hbits : IsBitString s) (hne : s.data ≠ []) :
    ∃ m' r, step x i ⟨sys, [t0, t1, t2]⟩ = .ok (m', i + 3) ∧
      m'.system[slotIndex dest]? = some r ∧
      r.data = s.data.drop 1 ++ ['0'] ∧ r.length = s.length ∧ IsBitString r ∧
      unsignedValue r = (2 * unsignedValue s) % 2 ^ s.length ∧
      m'.system[8]? = some "011100" := by
  have hpos : 1 ≤ s.data.length := by
    cases hd : s.data with
    | nil => exact absurd hd hne
    | cons c cs => simp
  have hr : sliceShiftLeftLog s = some (String.mk (s.data.drop 1) ++ "0") := by
    unfold sliceShiftLeftLog
    rw [if_pos hpos]
  obtain ⟨tj, hexec⟩ := execShift_names sliceShiftLeftLog "011100" x i sys t0 t1 t2 dest
    src s _ hlen h1 h2 hdest hsrc hs hr
  have hk := slotIndex_lt dest hdest
  have hget := getElem?_set_opcode_set sys (slotIndex dest)
    (String.mk (s.data.drop 1) ++ "0") "011100" hk (by omega)
  have hdata : (String.mk (s.data.drop 1) ++ "0").data = s.data.drop 1 ++ ['0'] := by
    rw [String.data_append]
  refine ⟨⟨(sys.set 8 "011100").set (slotIndex dest) (String.mk (s.data.drop 1) ++ "0"),
    tj⟩, _, ?_, hget.1, hdata, ?_, ?_, ?_, hget.2⟩
  · simp [step, h0, execute, hexec, withIncrement]
  · show (String.mk (s.data.drop 1) ++ "0").data.length = s.data.length
    rw [hdata, List.length_append, List.length_drop]
    simp only [List.length_cons, List.length_nil]
    omega
  · unfold IsBitString
    rw [hdata]
    exact isBitString_drop_append s.data hbits
  · unfold unsignedValue
    rw [hdata]
    exact value_drop_append s.data hne

/-- C15, the scenario of the specification: with MEM2 holding `000000000110` the tokens
`SHIFTLEFTLOG REGA, MEM2` leave `000000001100` in Register A and `011100` in the opcode
slot. -/
theorem shiftleftlog_drops_leading_bit_witness :
    step ["SHIFTLEFTLOG", "REGA", "MEM2"] 0 ⟨initialSystem.set 6 "000000000110", ["", "", ""]⟩ =
        .ok (⟨["0000000000000000000000000000000000000000",
               "0000000000000000000000000000000000000000", "000000001100", "000000000000",
               "000000000000", "000000000000", "000000000110", "000000000001", "011100",
               "0000", "0000"], ["6", "", ""]⟩, 3) ∧
      ∃ m' r, step ["SHIFTLEFTLOG", "REGA", "MEM2"] 0
          ⟨initialSystem.set 6 "000000000110", ["", "", ""]⟩ = .ok (m', 0 + 3) ∧
        m'.system[slotIndex "REGA"]? = some r ∧
        r.data = "000000000110".data.drop 1 ++ ['0'] ∧
        r.length = "000000000110".length ∧ IsBitString r ∧
        unsignedValue r = (2 * unsignedValue "000000000110") % 2 ^ "000000000110".length ∧
        m'.system[8]? = some "011100" :=
  ⟨by rfl,
   shiftleftlog_drops_leading_bit ["SHIFTLEFTLOG", "REGA", "MEM2"] 0
    (initialSystem.set 6 "000000000110") "" "" "" "REGA" "MEM2" "000000000110" (by decide)
    (by decide) (by decide) (by decide) (by decide) (by decide) (by decide) (by decide)
    (by decide)⟩

/-- C16 fails on a run: on the initial state MEM2 holds `000000000010`, whose leading bit
is `0`; `SHIFTRIGHARTH REGA, MEM2` completes and leaves `100000000001` in Register A, a
`1` followed by the source without its last bit, where the leading bit of the source
followed by the source without its last bit is `000000000001`. -/
theorem shiftrigharth_prepends_one :
    (∃ m n, step ["SHIFTRIGHARTH", "REGA", "MEM2"] 0 initialMachine = .ok (m, n) ∧
        m.system[2]? = some "100000000001") ∧
      initialSystem[6]? = some "000000000010" ∧
      String.mk ("000000000010".data.take 1 ++ "000000000010".data.dropLast) =
        "000000000001" ∧
      sliceShiftRightArith "000000000010" = some "100000000001" :=
  ⟨⟨⟨["0000000000000000000000000000000000000000",
       "0000000000000000000000000000000000000000", "100000000001", "000000000000",
       "000000000000", "000000000000", "000000000010", "000000000001", "011100", "0000",
       "0000"], ["6", "", ""]⟩, 3, by rfl, by rfl⟩, by rfl, by decide, by decide⟩

/-- C17 fails on a run: on the initial state MEM2 holds `000000000010` (the value 2);
`SHIFTRIGHTLOG REGA, MEM2` completes and leaves `00000000000` in Register A, eleven
characters of value 0: the slice `[:len-2]` drops the last two bits, where a shift by one
position gives the twelve characters `000000000001` of value 1. -/
theorem shiftrightlog_drops_two_bits :
    (∃ m n, step ["SHIFTRIGHTLOG", "REGA", "MEM2"] 0 initialMachine = .ok (m, n) ∧
        m.system[2]? = some "00000000000") ∧
      initialSystem[6]? = some "000000000010" ∧
      unsignedValue "000000000010" = 2 ∧
      "00000000000".length = 11 ∧ unsignedValue "00000000000" = 0 ∧
      String.mk ('0' :: "000000000010".data.dropLast) = "000000000001" ∧
      sliceShiftRightLog "000000000010" = some "00000000000" :=
  ⟨⟨⟨["0000000000000000000000000000000000000000",
       "0000000000000000000000000000000000000000", "00000000000", "000000000000",
       "000000000000", "000000000000", "000000000010", "000000000001", "011100", "0000",
       "0000"], ["6", "", ""]⟩, 3, by rfl, by rfl⟩, by rfl, by decide, by decide,
   by decide, by decide, by decide⟩

/-- C20 fails on a run: ADD and SUB add 2 to `i`, the other three-operand cases add 3.
After `ADD REGA,3,4` or `SUB REGA,7,3` found at position 0 the next position dispatched is
3, the position of the third operand, where MULT goes on at position 4; the run of
`riscSim` on the four tokens `ADD, REGA, 3, 4` therefore makes two iterations and renders
the state vector twice. -/
theorem add_sub_dispatch_third_operand :
    (∃ m, step ["ADD", "REGA", "3", "4"] 0 initialMachine = .ok (m, 3)) ∧
      (∃ m, step ["SUB", "REGA", "7", "3"] 0 initialMachine = .ok (m, 3)) ∧
      (∃ m, step ["MULT", "REGA", "7", "3"] 0 initialMachine = .ok (m, 4)) ∧
      (∃ m out, riscSim ["ADD", "REGA", "3", "4"] true = .ok (m, out) ∧ out.length = 2) ∧
      (∃ m out, riscSim ["MULT", "REGA", "3", "4"] true = .ok (m, out) ∧ out.length = 1) :=
  ⟨⟨⟨(initialSystem.set 2 "111").set 8 "000010", ["2", "3", "4"]⟩, by rfl⟩,
   ⟨⟨(initialSystem.set 2 "100").set 8 "000011", ["2", "7", "3"]⟩, by rfl⟩,
   ⟨⟨(initialSystem.set 2 "10101").set 8 "000100", ["2", "7", "3"]⟩, by rfl⟩,
   ⟨⟨(initialSystem.set 2 "111").set 8 "000010", ["2", "3", "4"]⟩,
     [binToHex ((initialSystem.set 2 "111").set 8 "000010"),
      binToHex ((initialSystem.set 2 "111").set 8 "000010")], by rfl, by rfl⟩,
   ⟨⟨(initialSystem.set 2 "1100").set 8 "000100", ["2", "3", "4"]⟩,
     [binToHex ((initialSystem.set 2 "1100").set 8 "000100")], by rfl, by rfl⟩⟩

/-! ## The cases without a call of `translateOperation`, and LOADWORD -/

/-- The three-operand body without translation (STOREHALF, STOREWORD, LOADHALF,
LOADHALFUN, SETLESSTHAN, SETLESSTHANUN): the three tokens are read by `Atoi` as they
are. -/
theorem execThree_untranslated (op : Int → Int → Option Int) (opcode : String)
    (x : List String) (i : Nat) (sys : List String) (t0 t1 t2 dest a b : String)
    (r : Int) (k : Nat)
    (h1 : x[i + 1]? = some dest) (h2 : x[i + 2]? = some a) (h3 : x[i + 3]? = some b)
    (hr : op (Atoi a).1 (Atoi b).1 = some r)
    (hk : (Atoi dest).1 = (k : Int)) (hks : k < sys.length) (h8 : 8 < sys.length) :
    execThree op false true opcode x i ⟨sys, [t0, t1, t2]⟩ =
      .ok ⟨(sys.set 8 opcode).set k (FormatInt r 2), [dest, a, b]⟩ := by
  simp [execThree, loadThree, tokenAt, setTempJunk, tempAt, setSystem, h1, h2, h3, hr, hk,
    hks, h8, bind, Except.bind]

/-- The two-operand body (STOREBYTE, LOADBYTE, LOADBYTEUN, LOADWORD) on a source that
translates and a destination index in range. -/
theorem execMove_ok (opcode : String) (x : List String) (i : Nat) (sys : List String)
    (t0 t1 t2 dest src src' : String) (k : Nat) (hlen : 8 ≤ sys.length)
    (h1 : x[i + 1]? = some dest) (h2 : x[i + 2]? = some src)
    (hs : translateOperand sys src = .ok src')
    (hk : (Atoi (translateDest dest)).1 = (k : Int)) (hks : k < sys.length)
    (h8 : 8 < sys.length) :
    ∃ tj, execMove opcode x i ⟨sys, [t0, t1, t2]⟩ =
      .ok ⟨(sys.set k (FormatInt (Atoi src').1 2)).set 8 opcode, tj⟩ := by
  obtain ⟨t2', ht2⟩ := translateOperand_ok sys hlen t2
  refine ⟨[translateDest dest, src', t2'], ?_⟩
  simp [execMove, loadTwo, tokenAt, setTempJunk, translate, translateOperation,
    translateLoop, tempAt, setSystem, h1, h2, hs, ht2, hk, hks, h8, bind, Except.bind]

/-- C18, as stated, fails.  `STOREHALF REGA,7,3` on the initial state leaves Register A
as it was and writes `100` to slot 0: the case does not call `translateOperation`, so
`REGA` is read by `Atoi` as 0.  `STOREHALF 2,MEM2,MEM1` writes `0`, not 2 - 1, to slot 2.
`LOADWORD REGA,7,3` takes two operands and leaves `111`, the value of its second token,
in Register A. -/
theorem storehalf_loadword_not_by_name :
    (∃ m n, step ["STOREHALF", "REGA", "7", "3"] 0 initialMachine = .ok (m, n) ∧
        m.system[2]? = initialSystem[2]? ∧ m.system[0]? = some "100") ∧
      (∃ m n, step ["STOREHALF", "2", "MEM2", "MEM1"] 0 initialMachine = .ok (m, n) ∧
        m.system[2]? = some "0") ∧
      operandValue initialSystem "MEM2" = some 2 ∧
      operandValue initialSystem "MEM1" = some 1 ∧
      (∃ m, step ["LOADWORD", "REGA", "7", "3"] 0 initialMachine = .ok (m, 3) ∧
        m.system[2]? = some "111") :=
  ⟨⟨⟨(initialSystem.set 8 "010001").set 0 "100", ["REGA", "7", "3"]⟩, 4, by rfl, by rfl,
     by rfl⟩,
   ⟨⟨(initialSystem.set 8 "010001").set 2 "0", ["2", "MEM2", "MEM1"]⟩, 4, by rfl, by rfl⟩,
   by decide, by decide,
   ⟨⟨(initialSystem.set 2 "111").set 8 "010111", ["2", "7", ""]⟩, by rfl, by rfl⟩⟩

/-! ### Literals out of the range of an `int` -/

theorem parseUintLoop_range (base : Nat) (cs : List Char) (n : Nat)
    (hd : DigitsBelow base cs) (hn : n < 2 ^ 64) (hv : 2 ^ 64 ≤ digitsValue base cs n) :
    parseUintLoop base cs n = (2 ^ 64 - 1, some .errRange) := by
  induction cs generalizing n with
  | nil => simp [digitsValue] at hv; omega
  | cons c cs ih =>
    obtain ⟨d, hd1, hd2⟩ := hd c (List.mem_cons_self c cs)
    have hrest : DigitsBelow base cs := fun c' hc' => hd c' (List.mem_cons_of_mem c hc')
    have hstep : digitsValue base (c :: cs) n = digitsValue base cs (n * base + d) := by
      simp [digitsValue, hd1]
    rw [hstep] at hv
    simp only [parseUintLoop, hd1]
    rw [if_neg (by omega)]
    by_cases h1 : n ≥ (2 ^ 64 - 1) / base + 1
    · rw [if_pos h1]
    · rw [if_neg h1]
      by_cases h2 : n * base + d > 2 ^ 64 - 1
      · rw [if_pos h2]
      · rw [if_neg h2]
        exact ih (n * base + d) hrest (by omega) hv

/-- The call `ParseInt(s, base, 64)` on a non-empty string of digits of the base returns
the number the digits denote, or the largest `int` when that number is out of range. -/
theorem ParseInt_digits_clamp (s : String) (base : Nat) (hb : 1 ≤ base) (hne : s.data ≠ [])
    (hd : DigitsBelow base s.data) :
    (ParseInt s base).1 = ((clampInt (digitsValue base s.data 0) : Nat) : Int) := by
  by_cases hv : digitsValue base s.data 0 < 2 ^ 63
  · rw [ParseInt_digits s base hb hne hd hv]
    simp only [clampInt]
    rw [Nat.min_eq_left (by omega)]
  · have hc : clampInt (digitsValue base s.data 0) = 2 ^ 63 - 1 := by
      simp only [clampInt]
      rw [Nat.min_eq_right (by omega)]
    rw [hc]
    unfold ParseInt
    cases hs : s.data with
    | nil => exact absurd hs hne
    | cons c cs =>
      rw [hs] at hd hv
      obtain ⟨d, hd1, _⟩ := hd c (List.mem_cons_self c cs)
      have hsign := digitOf_ne_sign c d hd1
      have hneg : ¬ c = '-' := fun h => hsign (Or.inr h)
      simp only [if_neg hsign]
      by_cases h64 : digitsValue base (c :: cs) 0 < 2 ^ 64
      · have hp : ParseUint (c :: cs) base = (digitsValue base (c :: cs) 0, none) := by
          simp only [ParseUint]
          exact parseUintLoop_eq base hb (c :: cs) 0 hd h64
        rw [hp]
        simp only [hneg, decide_False, Bool.false_eq_true, false_and, not_false_eq_true,
          true_and, if_false]
        rw [if_pos (by omega)]
        norm_num
      · have hp : ParseUint (c :: cs) base = (2 ^ 64 - 1, some .errRange) := by
          simp only [ParseUint]
          exact parseUintLoop_range base (c :: cs) 0 hd (by omega) (by omega)
        rw [hp]
        simp only [hneg, decide_False, Bool.false_eq_true, false_and, not_false_eq_true,
          true_and, if_false]
        rw [if_pos (by omega)]
        norm_num

/-- The function `Atoi` reads a decimal literal as the number it denotes, or as the largest
`int` when that number is out of range. -/
theorem Atoi_decimal_clamp (s : String) (h : IsDecimalNat s) :
    (Atoi s).1 = ((clampInt (decimalValue s) : Nat) : Int) := by
  have hval : digitsValue 10 s.data 0 = decimalValue s := digitsValue_of_decimal s.data h.2 0
  unfold Atoi
  rw [ParseInt_digits_clamp s 10 (by omega) h.1 (digitsBelow_of_decimal s h), hval]

/-- The call `ParseInt(s, 2, 64)` reads a bit-string as its value, or as the largest `int`
when the value is out of range. -/
theorem ParseInt_bits_clamp (s : String) (h : IsBitString s) :
    (ParseInt s 2).1 = ((clampInt (unsignedValue s) : Nat) : Int) := by
  by_cases hne : s.data = []
  · simp [ParseInt, unsignedValue, clampInt, hne]
  · rw [← unsignedValue_eq_digitsValue s h]
    exact ParseInt_digits_clamp s 2 (by omega) hne (digitsBelow_of_bits s h)

theorem clampInt_lt (n : Nat) : clampInt n < 2 ^ 63 := by
  unfold clampInt
  omega

theorem clampInt_of_lt (n : Nat) (h : n < 2 ^ 63) : clampInt n = n := by
  unfold clampInt
  omega

theorem clampInt_mono (a b : Nat) (h : a ≤ b) : clampInt a ≤ clampInt b := by
  unfold clampInt
  omega

/-- An operand token with a value in the sense of the specification (a location name or a
decimal literal) is translated to a text that `Atoi` reads as that value, or as the
largest `int` when the value is out of range. -/
theorem translateOperand_clamp (x : List String) (hbits : ∀ s ∈ x, IsBitString s)
    (t : String) (v : Nat) (hv : operandValue x t = some v) :
    ∃ t', translateOperand x t = .ok t' ∧ (Atoi t').1 = ((clampInt v : Nat) : Int) := by
  unfold operandValue at hv
  by_cases hn : t ∈ locationNames
  · rw [if_pos hn] at hv
    rw [translateOperand_name x t hn]
    unfold slotDecimal
    cases hs : x[slotIndex t]? with
    | none => simp [hs] at hv
    | some s =>
      simp only [hs, Option.map_some', Option.some.injEq] at hv
      have hb : IsBitString s := hbits s (List.getElem?_mem hs)
      subst hv
      refine ⟨_, rfl, ?_⟩
      rw [ParseInt_bits_clamp s hb, Atoi_Itoa _ (clampInt_lt _)]
  · rw [if_neg hn] at hv
    by_cases hd : IsDecimalNat t
    · rw [if_pos hd] at hv
      simp only [Option.some.injEq] at hv
      subst hv
      exact ⟨t, translateOperand_other x t hn, Atoi_decimal_clamp t hd⟩
    · simp [hd] at hv

theorem execute_halfWord (x : List String) (i : Nat) (m : Machine) (mn opcode : String)
    (h : (mn, opcode) ∈ halfWordCases) :
    execute x i m mn = withIncrement 3 (execThree goSub false true opcode x i m) := by
  simp only [halfWordCases, List.mem_cons, List.mem_singleton, List.not_mem_nil, or_false,
    Prod.mk.injEq] at h
  rcases h with ⟨rfl, rfl⟩ | ⟨rfl, rfl⟩ | ⟨rfl, rfl⟩ | ⟨rfl, rfl⟩ <;> rfl

theorem step_halfWord (x : List String) (i : Nat) (sys : List String)
    (t0 t1 t2 mn opcode dest a b : String) (k : Nat) (hlen : sys.length = 11)
    (hmn : (mn, opcode) ∈ halfWordCases) (h0 : x[i]? = some mn)
    (h1 : x[i + 1]? = some dest) (h2 : x[i + 2]? = some a) (h3 : x[i + 3]? = some b)
    (hk : (Atoi dest).1 = (k : Int)) (hk11 : k < 11) :
    step x i ⟨sys, [t0, t1, t2]⟩ =
      .ok (⟨(sys.set 8 opcode).set k (FormatInt (wrap64 ((Atoi a).1 - (Atoi b).1)) 2),
        [dest, a, b]⟩, i + 4) := by
  have hexec := execThree_untranslated goSub opcode x i sys t0 t1 t2 dest a b
    (wrap64 ((Atoi a).1 - (Atoi b).1)) k h1 h2 h3 rfl hk (by omega) (by omega)
  simp [step, h0, execute_halfWord x i _ mn opcode hmn, hexec, withIncrement]

/-- C18, amended, on a state vector of eleven slots.  (1) In STOREHALF, STOREWORD,
LOADHALF and LOADHALFUN no token is resolved by name: each of `dest`, `a`, `b` is read by
`Atoi` alone.  For any tokens with `Atoi(dest) = k`, `k` in 0..10, the instruction
completes, writes its opcode to slot 8 and then the `FormatInt` text in base 2 of
`Atoi(a) - Atoi(b)` (as an `int`) to slot `k`, changes no other slot, and goes on after the
third operand.  (2) `Atoi` reads a location name as 0.  (3) So for decimal literals
`dest`, `a`, `b` with `dest` below 8 and numbers `va ≥ vb`, slot `dest` then holds a
bit-string of value `min(va, 2^63-1) - min(vb, 2^63-1)`, which is `va - vb` when
`va < 2^63`.  (4) LOADWORD takes two operands `dest`, `src`, resolved by name as for ADD:
with `dest` a location name and `src` a location name or decimal literal of value `v` (the
slots being bit-strings), it completes, leaves in the slot of `dest` a bit-string of value
`min(v, 2^63-1)`, which is `v` when `v < 2^63`, writes opcode `010111` and goes on after
the second operand. -/
theorem storehalf_family_and_loadword (x : List String) (i : Nat) (sys : List String)
    (t0 t1 t2 : String) (hlen : sys.length = 11) :
    (∀ (mn opcode dest a b : String) (k : Nat),
        (mn, opcode) ∈ halfWordCases →
        x[i]? = some mn → x[i + 1]? = some dest → x[i + 2]? = some a →
        x[i + 3]? = some b → (Atoi dest).1 = (k : Int) → k < 11 →
        step x i ⟨sys, [t0, t1, t2]⟩ =
          .ok (⟨(sys.set 8 opcode).set k
            (FormatInt (wrap64 ((Atoi a).1 - (Atoi b).1)) 2), [dest, a, b]⟩, i + 4)) ∧
      (∀ t : String, t ∈ locationNames → (Atoi t).1 = 0) ∧
      (∀ (mn opcode dest a b : String),
        (mn, opcode) ∈ halfWordCases →
        x[i]? = some mn → x[i + 1]? = some dest → x[i + 2]? = some a →
        x[i + 3]? = some b →
        IsDecimalNat dest → decimalValue dest < 8 → IsDecimalNat a → IsDecimalNat b →
        decimalValue b ≤ decimalValue a →
        ∃ m' s, step x i ⟨sys, [t0, t1, t2]⟩ = .ok (m', i + 4) ∧
          m'.system[decimalValue dest]? = some s ∧ IsBitString s ∧
          unsignedValue s = clampInt (decimalValue a) - clampInt (decimalValue b) ∧
          (decimalValue a < 2 ^ 63 →
            unsignedValue s = decimalValue a - decimalValue b)) ∧
      (∀ (dest src : String) (v : Nat),
        x[i]? = some "LOADWORD" → x[i + 1]? = some dest → x[i + 2]? = some src →
        dest ∈ locationNames → (∀ s ∈ sys, IsBitString s) →
        operandValue sys src = some v →
        ∃ m' s, step x i ⟨sys, [t0, t1, t2]⟩ = .ok (m', i + 3) ∧
          m'.system[slotIndex dest]? = some s ∧ IsBitString s ∧
          unsignedValue s = clampInt v ∧ (v < 2 ^ 63 → unsignedValue s = v) ∧
          m'.system[8]? = some "010111") := by
  refine ⟨?_, Atoi_name, ?_, ?_⟩
  · intro mn opcode dest a b k hmn h0 h1 h2 h3 hk hk11
    exact step_halfWord x i sys t0 t1 t2 mn opcode dest a b k hlen hmn h0 h1 h2 h3 hk hk11
  · intro mn opcode dest a b hmn h0 h1 h2 h3 hdest hk ha hb hge
    have hva := Atoi_decimal_clamp a ha
    have hvb := Atoi_decimal_clamp b hb
    have hvd := Atoi_decimal dest hdest (by omega)
    have hkd : (Atoi dest).1 = (decimalValue dest : Int) := by rw [hvd]
    have hmono := clampInt_mono _ _ hge
    have hlt := clampInt_lt (decimalValue a)
    have hr : wrap64 ((Atoi a).1 - (Atoi b).1) =
        ((clampInt (decimalValue a) - clampInt (decimalValue b) : Nat) : Int) := by
      rw [hva, hvb, ← Nat.cast_sub hmono]
      exact wrap64_of_lt _ (by omega)
    have hstep := step_halfWord x i sys t0 t1 t2 mn opcode dest a b (decimalValue dest) hlen
      hmn h0 h1 h2 h3 hkd (by omega)
    rw [hr] at hstep
    have hfmt := FormatInt_two (clampInt (decimalValue a) - clampInt (decimalValue b))
      (by omega)
    have hget := (getElem?_set_opcode_set sys (decimalValue dest)
      (FormatInt ((clampInt (decimalValue a) - clampInt (decimalValue b) : Nat) : Int) 2)
      opcode hk (by omega)).1
    refine ⟨_, _, hstep, hget, hfmt.1, hfmt.2, ?_⟩
    intro hsmall
    rw [hfmt.2, clampInt_of_lt _ hsmall, clampInt_of_lt _ (by omega)]
  · intro dest src v h0 h1 h2 hdest hbits hv
    obtain ⟨src', hts, hsv⟩ := translateOperand_clamp sys hbits src v hv
    have hk := slotIndex_lt dest hdest
    have hd : (Atoi (translateDest dest)).1 = (slotIndex dest : Int) := by
      rw [(translateDest_name dest hdest).2]
    obtain ⟨tj, hexec⟩ := execMove_ok "010111" x i sys t0 t1 t2 dest src src'
      (slotIndex dest) (by omega) h1 h2 hts hd (by omega) (by omega)
    rw [hsv] at hexec
    have hfmt := FormatInt_two (clampInt v) (clampInt_lt v)
    have hget := getElem?_set_set_opcode sys (slotIndex dest)
      (FormatInt (clampInt v : Int) 2) "010111" hk (by omega)
    refine ⟨⟨(sys.set (slotIndex dest) (FormatInt (clampInt v : Int) 2)).set 8 "010111",
      tj⟩, _, by simp [step, h0, execute, hexec, withIncrement], hget.1, hfmt.1, hfmt.2, ?_,
      hget.2⟩
    intro hsmall
    rw [hfmt.2, clampInt_of_lt _ hsmall]

/-- C18, amended, on the initial state: `STOREHALF 2,7,3` leaves `100` (7 - 3) in slot 2
and goes on at position 4; `STOREHALF REGC,MEM2,MEM1` reads its three names as 0;
`STOREHALF 2,9223372036854775808,9223372036854775807` reads both numbers as `2^63 - 1`;
`LOADWORD REGA,MEM2` leaves `10`, the value 2 of MEM2, in Register A and goes on at
position 3. -/
theorem storehalf_family_and_loadword_witness :
    step ["STOREHALF", "2", "7", "3"] 0 initialMachine =
        .ok (⟨(initialSystem.set 8 "010001").set 2 "100", ["2", "7", "3"]⟩, 4) ∧
      step ["LOADWORD", "REGA", "MEM2"] 0 initialMachine =
        .ok (⟨(initialSystem.set 2 "10").set 8 "010111", ["2", "2", ""]⟩, 3) ∧
      step ["STOREHALF", "REGC", "MEM2", "MEM1"] 0 ⟨initialSystem, ["", "", ""]⟩ =
        .ok (⟨(initialSystem.set 8 "010001").set 0
          (FormatInt (wrap64 ((Atoi "MEM2").1 - (Atoi "MEM1").1)) 2),
          ["REGC", "MEM2", "MEM1"]⟩, 0 + 4) ∧
      (∃ m' s, step ["STOREHALF", "2", "7", "3"] 0 ⟨initialSystem, ["", "", ""]⟩ =
          .ok (m', 0 + 4) ∧
        m'.system[decimalValue "2"]? = some s ∧ IsBitString s ∧
        unsignedValue s = clampInt (decimalValue "7") - clampInt (decimalValue "3") ∧
        (decimalValue "7" < 2 ^ 63 →
          unsignedValue s = decimalValue "7" - decimalValue "3")) ∧
      (∃ m' s, step ["STOREHALF", "2", "9223372036854775808", "9223372036854775807"] 0
          ⟨initialSystem, ["", "", ""]⟩ = .ok (m', 0 + 4) ∧
        m'.system[decimalValue "2"]? = some s ∧ IsBitString s ∧
        unsignedValue s = clampInt (decimalValue "9223372036854775808") -
          clampInt (decimalValue "9223372036854775807") ∧
        (decimalValue "9223372036854775808" < 2 ^ 63 →
          unsignedValue s =
            decimalValue "9223372036854775808" - decimalValue "9223372036854775807")) ∧
      (∃ m' s, step ["LOADWORD", "REGA", "MEM2"] 0 ⟨initialSystem, ["", "", ""]⟩ =
          .ok (m', 0 + 3) ∧
        m'.system[slotIndex "REGA"]? = some s ∧ IsBitString s ∧
        unsignedValue s = clampInt 2 ∧ (2 < 2 ^ 63 → unsignedValue s = 2) ∧
        m'.system[8]? = some "010111") :=
  ⟨by rfl, by rfl,
   (storehalf_family_and_loadword ["STOREHALF", "REGC", "MEM2", "MEM1"] 0 initialSystem "" "" ""
      (by decide)).1 "STOREHALF" "010001" "REGC" "MEM2" "MEM1" 0 (by decide) (by decide)
      (by decide) (by decide) (by decide) (by decide) (by decide),
   (storehalf_family_and_loadword ["STOREHALF", "2", "7", "3"] 0 initialSystem "" "" ""
      (by decide)).2.2.1 "STOREHALF" "010001" "2" "7" "3" (by decide) (by decide)
      (by decide) (by decide) (by decide) (by decide) (by decide) (by decide) (by decide)
      (by decide),
   (storehalf_family_and_loadword ["STOREHALF", "2", "9223372036854775808", "9223372036854775807"] 0
      initialSystem "" "" "" (by decide)).2.2.1 "STOREHALF" "010001" "2"
      "9223372036854775808" "9223372036854775807" (by decide) (by decide) (by decide)
      (by decide) (by decide) (by decide) (by decide) (by decide) (by decide) (by decide),
   (storehalf_family_and_loadword ["LOADWORD", "REGA", "MEM2"] 0 initialSystem "" "" ""
      (by decide)).2.2.2 "REGA" "MEM2" 2 (by decide) (by decide) (by decide) (by decide)
      (by decide) (by decide)⟩

/-! ## The annotator on a stream without line-boundary markers -/

theorem secondLoop_no_marker (x : List String) (hx : "@" ∉ x) (m : Nat) :
    ∀ (j i fuel : Nat) (sl : List String), j + m = x.length → m ≤ fuel →
      secondLoop x fuel j i sl = .ok (i, sl ++ x.drop j) := by
  induction m with
  | zero =>
    intro j i fuel sl hj _
    have hnone : x[j]? = none := List.getElem?_eq_none (by omega)
    have hdrop : x.drop j = [] := List.drop_eq_nil_of_le (by omega)
    cases fuel with
    | zero => simp [secondLoop, hdrop]
    | succ f => simp [secondLoop, hnone, hdrop]
  | succ m ih =>
    intro j i fuel sl hj hf
    obtain ⟨f, rfl⟩ : ∃ f, fuel = f + 1 := ⟨fuel - 1, by omega⟩
    have hlt : j < x.length := by omega
    have hsome : x[j]? = some x[j] := List.getElem?_eq_getElem hlt
    have hne : x[j] ≠ "@" := fun h => hx (h ▸ List.getElem_mem hlt)
    have hdrop : x.drop j = x[j] :: x.drop (j + 1) := List.drop_eq_getElem_cons hlt
    unfold secondLoop
    simp only [hsome, hne, false_and, if_false, ne_eq, not_false_eq_true, if_true]
    rw [ih (j + 1) i f (sl ++ [x[j]]) (by omega) (by omega), hdrop]
    simp

theorem firstLoop_no_marker (x : List String) (hx : "@" ∉ x) (m : Nat) :
    ∀ (i fuel : Nat) (sl : List String), i + m = x.length → m ≤ fuel →
      firstLoop x fuel i sl =
        .ok (sl ++ ((List.range' i m).map (fun p => x.drop p)).flatten) := by
  induction m with
  | zero =>
    intro i fuel sl hi _
    cases fuel with
    | zero => simp [firstLoop]
    | succ f => simp [firstLoop, show ¬ i < x.length by omega]
  | succ m ih =>
    intro i fuel sl hi hf
    obtain ⟨f, rfl⟩ : ∃ f, fuel = f + 1 := ⟨fuel - 1, by omega⟩
    have hlt : i < x.length := by omega
    unfold firstLoop
    rw [if_pos hlt, secondLoop_no_marker x hx (m + 1) i i x.length sl hi (by omega)]
    simp only []
    rw [ih (i + 1) f (sl ++ x.drop i) (by omega) (by omega), List.range'_succ]
    simp

theorem firstLoop_eq_suffixConcat (x : List String) (hx : "@" ∉ x) :
    firstLoop x x.length 0 [] = .ok (suffixConcat x) := by
  rw [firstLoop_no_marker x hx x.length 0 x.length [] (by omega) (by omega)]
  simp [suffixConcat, List.range_eq_range']

theorem drop_length_pred (x : List String) (hne : x ≠ []) :
    x.drop (x.length - 1) = [x.getLast hne] := by
  have h := List.dropLast_concat_getLast hne
  have hl : x.dropLast.length = x.length - 1 := List.length_dropLast x
  calc x.drop (x.length - 1)
      = (x.dropLast ++ [x.getLast hne]).drop x.dropLast.length := by rw [h, hl]
    _ = [x.getLast hne] := List.drop_left _ _

theorem suffixConcat_eq (x : List String) (hne : x ≠ []) :
    suffixConcat x =
      ((List.range (x.length - 1)).map (fun p => x.drop p)).flatten ++ [x.getLast hne] := by
  have hlen : x.length = (x.length - 1) + 1 := by
    have := List.length_pos.2 hne
    omega
  unfold suffixConcat
  conv_lhs => rw [hlen, List.range_succ]
  rw [List.map_append, List.flatten_append]
  simp [drop_length_pred x hne]

theorem stallSl_no_marker (x : List String) (hne : x ≠ []) (hx : "@" ∉ x) :
    stallSl x = .ok (suffixConcat x).dropLast := by
  have h := suffixConcat_eq x hne
  unfold stallSl
  rw [firstLoop_eq_suffixConcat x hx]
  simp only []
  rw [if_neg (by rw [h]; simp)]

/-- C25: for every non-empty stream `x` without the marker `@`, the stream that
`stallDesignate` hands to `riscSim` is the concatenation of the suffixes `x[0:]`,
`x[1:]`, ..., `x[n-1:]` with its final token removed; a one-token stream becomes the
empty stream. -/
theorem stallDesignate_suffixes (x : List String) (y : Bool) (hne : x ≠ [])
    (hx : "@" ∉ x) :
    stallSl x = .ok (suffixConcat x).dropLast ∧
      stallDesignate x y = .ok (riscSim (suffixConcat x).dropLast y) ∧
      (x.length = 1 → stallSl x = .ok []) := by
  have h := stallSl_no_marker x hne hx
  refine ⟨h, by simp [stallDesignate, h], ?_⟩
  intro h1
  rw [h, suffixConcat_eq x hne, h1]
  simp

/-- C25 on the one-line program `ADD REGA, 3, 4` and on the one-token stream `ZERO`. -/
theorem stallDesignate_suffixes_witness :
    stallSl ["ADD", "REGA", "3", "4"] =
        .ok ["ADD", "REGA", "3", "4", "REGA", "3", "4", "3", "4"] ∧
      stallSl ["ZERO"] = .ok [] ∧
      (stallSl ["ADD", "REGA", "3", "4"] =
          .ok (suffixConcat ["ADD", "REGA", "3", "4"]).dropLast ∧
        stallDesignate ["ADD", "REGA", "3", "4"] true =
          .ok (riscSim (suffixConcat ["ADD", "REGA", "3", "4"]).dropLast true) ∧
        (["ADD", "REGA", "3", "4"].length = 1 → stallSl ["ADD", "REGA", "3", "4"] = .ok [])) :=
  ⟨by rfl, by rfl,
   stallDesignate_suffixes ["ADD", "REGA", "3", "4"] true (by decide) (by decide)⟩

/-- C24, as stated, fails: the annotated stream of the three-line program
`AIN MEM1 / BIN MEM2 / CIN MEM1` has no marker and two STALL tokens; annotating it again
gives a stream with eleven STALL tokens. -/
theorem reannotation_multiplies_stalls :
    stallSl ["AIN", "MEM1", "@", "BIN", "MEM2", "@", "CIN", "MEM1"] =
        .ok ["AIN", "MEM1", "BIN", "MEM2", "STALL", "STALL", "CIN"] ∧
      "@" ∉ ["AIN", "MEM1", "BIN", "MEM2", "STALL", "STALL", "CIN"] ∧
      ["AIN", "MEM1", "BIN", "MEM2", "STALL", "STALL", "CIN"].count "STALL" = 2 ∧
      ∃ out, stallSl ["AIN", "MEM1", "BIN", "MEM2", "STALL", "STALL", "CIN"] = .ok out ∧
        out.count "STALL" = 11 :=
  ⟨by rfl, by decide, by decide,
   ["AIN", "MEM1", "BIN", "MEM2", "STALL", "STALL", "CIN", "MEM1", "BIN", "MEM2", "STALL",
    "STALL", "CIN", "BIN", "MEM2", "STALL", "STALL", "CIN", "MEM2", "STALL", "STALL",
    "CIN", "STALL", "STALL", "CIN", "STALL", "CIN"], by rfl, by decide⟩

/-- C24, amended: for every non-empty stream `x` without the marker `@`, the annotation
loops of `stallDesignate` raise no panic and insert no stall marker of their own, and
`stallDesignate` calls `riscSim` on the stream `out` they produce (what `riscSim` does on
`out` is no part of the statement).  The stream `out`, followed by the last token of `x`,
is the concatenation of the suffixes of `x`: each of its tokens is a token of `x`, it has
no STALL token when `x` has none, and it has as many STALL tokens as the suffixes of `x`
together, less one when `x` ends in STALL. -/
theorem annotation_without_markers_copies (x : List String) (hne : x ≠ [])
    (hx : "@" ∉ x) :
    ∃ out, stallSl x = .ok out ∧ (∀ y, stallDesignate x y = .ok (riscSim out y)) ∧
      out ++ [x.getLast hne] = suffixConcat x ∧
      (∀ t ∈ out, t ∈ x) ∧ ("STALL" ∉ x → "STALL" ∉ out) ∧
      out.count "STALL" + (if x.getLast hne = "STALL" then 1 else 0) =
        ((List.range x.length).map (fun p => (x.drop p).count "STALL")).sum := by
  have hcat : (suffixConcat x).dropLast ++ [x.getLast hne] = suffixConcat x := by
    rw [suffixConcat_eq x hne]
    simp
  have hmem : ∀ t ∈ (suffixConcat x).dropLast, t ∈ x := by
    intro t ht
    have h1 : t ∈ suffixConcat x := List.mem_of_mem_dropLast ht
    unfold suffixConcat at h1
    obtain ⟨l, hl, htl⟩ := List.mem_flatten.1 h1
    obtain ⟨p, _, rfl⟩ := List.mem_map.1 hl
    exact List.mem_of_mem_drop htl
  refine ⟨(suffixConcat x).dropLast, stallSl_no_marker x hne hx,
    fun y => by simp [stallDesignate, stallSl_no_marker x hne hx], hcat, hmem,
    fun hno hin => hno (hmem _ hin), ?_⟩
  have hcount := congrArg (List.count "STALL") hcat
  rw [List.count_append, List.count_singleton] at hcount
  rw [show ((List.range x.length).map (fun p => (x.drop p).count "STALL")).sum =
      List.count "STALL" (suffixConcat x) by
    unfold suffixConcat
    rw [List.count_flatten, List.map_map]
    rfl]
  rw [← hcount]
  by_cases hl : x.getLast hne = "STALL" <;> simp [hl]

/-- C24, amended, on the stream `A, STALL, B`: the stream produced is
`A, STALL, B, STALL, B`, with two STALL tokens. -/
theorem annotation_without_markers_copies_witness :
    stallSl ["A", "STALL", "B"] = .ok ["A", "STALL", "B", "STALL", "B"] ∧
      ∃ out, stallSl ["A", "STALL", "B"] = .ok out ∧
        (∀ y, stallDesignate ["A", "STALL", "B"] y = .ok (riscSim out y)) ∧
        out ++ [["A", "STALL", "B"].getLast (by decide)] = suffixConcat ["A", "STALL", "B"] ∧
        (∀ t ∈ out, t ∈ ["A", "STALL", "B"]) ∧
        ("STALL" ∉ ["A", "STALL", "B"] → "STALL" ∉ out) ∧
        out.count "STALL" +
            (if ["A", "STALL", "B"].getLast (by decide) = "STALL" then 1 else 0) =
          ((List.range ["A", "STALL", "B"].length).map
            (fun p => (["A", "STALL", "B"].drop p).count "STALL")).sum :=
  ⟨by rfl, annotation_without_markers_copies ["A", "STALL", "B"] (by decide) (by decide)⟩

/-! ## The annotator on streams with line-boundary markers -/

/-- C23 fails on a run: the program text `ZERO / ADD REGA, 3, 4 / JUMP / JUMP`, each line
ended by a line break, is tokenized to the stream below; `stallDesignate` completes on it
and hands to `riscSim` a stream whose last token is the marker `@`, while the slice
`stallSl2`, which the function computes and does not use, has no marker. -/
theorem annotated_stream_keeps_marker :
    stallSl ["ZERO", "@", "ADD", "REGA", "3", "4", "@", "JUMP", "@", "JUMP", "@"] =
        .ok ["ZERO", "ADD", "REGA", "3", "4", "STALL", "STALL", "@"] ∧
      "@" ∈ ["ZERO", "ADD", "REGA", "3", "4", "STALL", "STALL", "@"] ∧
      stallDesignate ["ZERO", "@", "ADD", "REGA", "3", "4", "@", "JUMP", "@", "JUMP", "@"]
          false =
        .ok (riscSim ["ZERO", "ADD", "REGA", "3", "4", "STALL", "STALL", "@"] false) ∧
      stallSl2 ["ZERO", "@", "ADD", "REGA", "3", "4", "@", "JUMP", "@", "JUMP", "@"] =
        .ok ["ZERO", "ADD", "REGA", "3", "4", "STALL", "STALL"] :=
  ⟨by rfl, by decide, by rfl, by rfl⟩

/-- C26 fails on a run: on the stream of the three-line program
`AIN MEM1 / BIN MEM2 / CIN MEM3` the second probe loop reads `x[l+2]` with `l + 2 = 8`,
the length of the stream, and on the stream of `ZERO / AIN MEM1 / BIN MEM2` it reads
`x[l-6]` with `l = 5`; both runs end in the index-out-of-range panic.  With a matching
third line (`CIN MEM1`) the annotator returns. -/
theorem annotator_reads_outside_stream :
    stallSl ["AIN", "MEM1", "@", "BIN", "MEM2", "@", "CIN", "MEM3"] =
        .error .indexOutOfRange ∧
      probeWide ["AIN", "MEM1", "@", "BIN", "MEM2", "@", "CIN", "MEM3"] 6 =
        .error .indexOutOfRange ∧
      indexInt ["AIN", "MEM1", "@", "BIN", "MEM2", "@", "CIN", "MEM3"] (6 + 2) = none ∧
      stallSl ["ZERO", "@", "AIN", "MEM1", "@", "BIN", "MEM2"] = .error .indexOutOfRange ∧
      probeWide ["ZERO", "@", "AIN", "MEM1", "@", "BIN", "MEM2"] 5 =
        .error .indexOutOfRange ∧
      indexInt ["ZERO", "@", "AIN", "MEM1", "@", "BIN", "MEM2"] (5 - 6) = none ∧
      (∀ y, stallDesignate ["AIN", "MEM1", "@", "BIN", "MEM2", "@", "CIN", "MEM3"] y =
        .error .indexOutOfRange) ∧
      stallSl ["AIN", "MEM1", "@", "BIN", "MEM2", "@", "CIN", "MEM1"] =
        .ok ["AIN", "MEM1", "BIN", "MEM2", "STALL", "STALL", "CIN"] :=
  ⟨by rfl, by rfl, by rfl, by rfl, by rfl, by rfl, fun _ => by rfl, by rfl⟩

/-! ## What a case body can leave in the state vector -/

/-- The three-operand body on any tokens: the state vector it leaves is the one it
started from (a missing token, a divide panic, a destination out of range before any
write), or that one with the opcode written (a destination out of range after the
opcode), or that one with the opcode and with the `FormatInt` text of a number written at
the index `Atoi` reads from the destination. -/
theorem execThree_after (op : Int → Int → Option Int) (translated opcodeFirst : Bool)
    (opcode : String) (x : List String) (i : Nat) (sys : List String) (t0 t1 t2 : String)
    (hlen : sys.length = 11) :
    systemAfterBody (execThree op translated opcodeFirst opcode x i ⟨sys, [t0, t1, t2]⟩) = sys ∨
      systemAfterBody (execThree op translated opcodeFirst opcode x i ⟨sys, [t0, t1, t2]⟩) =
        sys.set 8 opcode ∨
      ∃ (dest : String) (k : Nat) (r : Int), x[i + 1]? = some dest ∧ k < 11 ∧
        (Atoi (if translated = true then translateDest dest else dest)).1 = (k : Int) ∧
        Written sys opcode k (FormatInt r 2)
          (systemAfterBody
            (execThree op translated opcodeFirst opcode x i ⟨sys, [t0, t1, t2]⟩)) := by
  cases h1 : x[i + 1]? with
  | none =>
    left
    simp [execThree, loadThree, tokenAt, h1, bind, Except.bind, systemAfterBody]
  | some dest =>
    cases h2 : x[i + 2]? with
    | none =>
      left
      simp [execThree, loadThree, tokenAt, h1, h2, bind, Except.bind, systemAfterBody]
    | some a =>
      cases h3 : x[i + 3]? with
      | none =>
        left
        simp [execThree, loadThree, tokenAt, h1, h2, h3, bind, Except.bind,
          systemAfterBody]
      | some b =>
        obtain ⟨a', ha⟩ := translateOperand_ok sys (by omega) a
        obtain ⟨b', hb⟩ := translateOperand_ok sys (by omega) b
        cases translated with
        | false =>
          cases hop : op (Atoi a).1 (Atoi b).1 with
          | none =>
            left
            simp [execThree, loadThree, tokenAt, setTempJunk, tempAt, h1, h2, h3, hop, bind,
              Except.bind, systemAfterBody]
          | some r =>
            by_cases hk : 0 ≤ (Atoi dest).1 ∧ (Atoi dest).1.toNat < 11
            · right; right
              refine ⟨dest, (Atoi dest).1.toNat, r, rfl, hk.2, by simp; omega, ?_⟩
              cases opcodeFirst <;>
                simp [execThree, loadThree, tokenAt, setTempJunk, tempAt, setSystem, h1, h2,
                  h3, hop, hk, hlen, bind, Except.bind, systemAfterBody, Written]
            · cases opcodeFirst with
              | false =>
                left
                simp [execThree, loadThree, tokenAt, setTempJunk, tempAt, setSystem, h1, h2,
                  h3, hop, hk, hlen, bind, Except.bind, systemAfterBody]
              | true =>
                right; left
                simp [execThree, loadThree, tokenAt, setTempJunk, tempAt, setSystem, h1, h2,
                  h3, hop, hk, hlen, bind, Except.bind, systemAfterBody]
        | true =>
          cases hop : op (Atoi a').1 (Atoi b').1 with
          | none =>
            left
            simp [execThree, loadThree, tokenAt, setTempJunk, translate, translateOperation,
              translateLoop, tempAt, h1, h2, h3, ha, hb, hop, bind, Except.bind,
              systemAfterBody]
          | some r =>
            by_cases hk : 0 ≤ (Atoi (translateDest dest)).1 ∧
                (Atoi (translateDest dest)).1.toNat < 11
            · right; right
              refine ⟨dest, (Atoi (translateDest dest)).1.toNat, r, rfl, hk.2,
                by simp; omega, ?_⟩
              cases opcodeFirst <;>
                simp [execThree, loadThree, tokenAt, setTempJunk, translate,
                  translateOperation, translateLoop, tempAt, setSystem, h1, h2, h3, ha, hb,
                  hop, hk, hlen, bind, Except.bind, systemAfterBody, Written]
            · cases opcodeFirst with
              | false =>
                left
                simp [execThree, loadThree, tokenAt, setTempJunk, translate,
                  translateOperation, translateLoop, tempAt, setSystem, h1, h2, h3, ha, hb,
                  hop, hk, hlen, bind, Except.bind, systemAfterBody]
              | true =>
                right; left
                simp [execThree, loadThree, tokenAt, setTempJunk, translate,
                  translateOperation, translateLoop, tempAt, setSystem, h1, h2, h3, ha, hb,
                  hop, hk, hlen, bind, Except.bind, systemAfterBody]

theorem mem_of_indexInt (sys : List String) (k : Int) (v : String)
    (h : indexInt sys k = some v) : v ∈ sys := by
  unfold indexInt at h
  split at h
  · exact List.getElem?_mem h
  · simp at h

/-- The two-operand body on any tokens: the state vector it leaves is the one it started
from, or that one with the `FormatInt` text of a number written at the index read from
the destination and with the opcode written. -/
theorem execMove_after (opcode : String) (x : List String) (i : Nat) (sys : List String)
    (t0 t1 t2 : String) (hlen : sys.length = 11) :
    systemAfterBody (execMove opcode x i ⟨sys, [t0, t1, t2]⟩) = sys ∨
      ∃ (dest : String) (k : Nat) (r : Int), x[i + 1]? = some dest ∧ k < 11 ∧
        (Atoi (translateDest dest)).1 = (k : Int) ∧
        Written sys opcode k (FormatInt r 2)
          (systemAfterBody (execMove opcode x i ⟨sys, [t0, t1, t2]⟩)) := by
  cases h1 : x[i + 1]? with
  | none =>
    left
    simp [execMove, loadTwo, tokenAt, h1, bind, Except.bind, systemAfterBody]
  | some dest =>
    cases h2 : x[i + 2]? with
    | none =>
      left
      simp [execMove, loadTwo, tokenAt, h1, h2, bind, Except.bind, systemAfterBody]
    | some src =>
      obtain ⟨src', hs⟩ := translateOperand_ok sys (by omega) src
      obtain ⟨t2', ht2⟩ := translateOperand_ok sys (by omega) t2
      by_cases hk : 0 ≤ (Atoi (translateDest dest)).1 ∧
          (Atoi (translateDest dest)).1.toNat < 11
      · right
        refine ⟨dest, (Atoi (translateDest dest)).1.toNat, (Atoi src').1, rfl, hk.2,
          by simp; omega, ?_⟩
        simp [execMove, loadTwo, tokenAt, setTempJunk, translate, translateOperation,
          translateLoop, tempAt, setSystem, h1, h2, hs, ht2, hk, hlen, bind, Except.bind,
          systemAfterBody, Written]
      · left
        simp [execMove, loadTwo, tokenAt, setTempJunk, translate, translateOperation,
          translateLoop, tempAt, setSystem, h1, h2, hs, ht2, hk, hlen, bind, Except.bind,
          systemAfterBody]

/-- A shift body on any tokens: the state vector it leaves is the one it started from,
or that one with the opcode written, or that one with the opcode and with the slice of
one of its slots written at the index read from the destination. -/
theorem execShift_after (slice : String → Option String) (opcode : String)
    (x : List String) (i : Nat) (sys : List String) (t0 t1 t2 : String)
    (hlen : sys.length = 11) :
    systemAfterBody (execShift slice opcode x i ⟨sys, [t0, t1, t2]⟩) = sys ∨
      systemAfterBody (execShift slice opcode x i ⟨sys, [t0, t1, t2]⟩) = sys.set 8 opcode ∨
      ∃ (dest : String) (k : Nat) (s0 v : String), x[i + 1]? = some dest ∧ k < 11 ∧
        (Atoi (translateDest dest)).1 = (k : Int) ∧ s0 ∈ sys ∧ slice s0 = some v ∧
        Written sys opcode k v
          (systemAfterBody (execShift slice opcode x i ⟨sys, [t0, t1, t2]⟩)) := by
  obtain ⟨r1, hr1, _, _⟩ := translateLoop_ok sys (by omega) [t1, t2]
  obtain ⟨r2, hr2, _, _⟩ := translateLoop_ok sys (by omega) r1
  cases h1 : x[i + 1]? with
  | none =>
    left
    simp [execShift, loadOne, tokenAt, h1, bind, Except.bind, systemAfterBody]
  | some dest =>
    cases h2 : x[i + 2]? with
    | none =>
      left
      simp [execShift, loadOne, tokenAt, setTempJunk, translate, translateOperation, hr1,
        tempAt, h1, h2, bind, Except.bind, systemAfterBody]
    | some src =>
      cases h3 : indexInt sys (Atoi (translateDest src)).1 with
      | none =>
        left
        simp [execShift, loadOne, tokenAt, setTempJunk, translate, translateOperation, hr1,
          hr2, tempAt, systemAt, h1, h2, h3, bind, Except.bind, systemAfterBody]
      | some s0 =>
        cases h4 : slice s0 with
        | none =>
          left
          simp [execShift, loadOne, tokenAt, setTempJunk, translate, translateOperation,
            hr1, hr2, tempAt, systemAt, h1, h2, h3, h4, bind, Except.bind, systemAfterBody]
        | some v =>
          by_cases hk : 0 ≤ (Atoi (translateDest dest)).1 ∧
              (Atoi (translateDest dest)).1.toNat < 11
          · right; right
            refine ⟨dest, (Atoi (translateDest dest)).1.toNat, s0, v, rfl, hk.2,
              by simp; omega, mem_of_indexInt sys _ s0 h3, h4, ?_⟩
            simp [execShift, loadOne, tokenAt, setTempJunk, translate, translateOperation,
              hr1, hr2, tempAt, systemAt, setSystem, h1, h2, h3, h4, hk, hlen, bind,
              Except.bind, systemAfterBody, Written]
          · right; left
            simp [execShift, loadOne, tokenAt, setTempJunk, translate, translateOperation,
              hr1, hr2, tempAt, systemAt, setSystem, h1, h2, h3, h4, hk, hlen, bind,
              Except.bind, systemAfterBody]

/-- An IN transfer body on any token: the state vector it leaves is the one it started
from, or that one with one of its slots copied to the fixed slot `k` and with the opcode
written. -/
theorem execIn_after (k : Nat) (opcode : String) (x : List String) (i : Nat)
    (sys : List String) (t0 t1 t2 : String) (hlen : sys.length = 11) (hk : k < 8) :
    systemAfterBody (execIn (k : Int) opcode x i ⟨sys, [t0, t1, t2]⟩) = sys ∨
      ∃ v, v ∈ sys ∧
        Written sys opcode k v
          (systemAfterBody (execIn (k : Int) opcode x i ⟨sys, [t0, t1, t2]⟩)) := by
  obtain ⟨r1, hr1, _, _⟩ := translateLoop_ok sys (by omega) [t1, t2]
  have hk11 : k < 11 := by omega
  cases h1 : x[i + 1]? with
  | none =>
    left
    simp [execIn, loadOne, tokenAt, h1, bind, Except.bind, systemAfterBody]
  | some src =>
    cases h3 : indexInt sys (Atoi (translateDest src)).1 with
    | none =>
      left
      simp [execIn, loadOne, tokenAt, setTempJunk, translate, translateOperation, hr1,
        tempAt, systemAt, h1, h3, bind, Except.bind, systemAfterBody]
    | some v =>
      right
      refine ⟨v, mem_of_indexInt sys _ v h3, ?_⟩
      simp [execIn, loadOne, tokenAt, setTempJunk, translate, translateOperation, hr1,
        tempAt, systemAt, setSystem, h1, h3, hk11, hlen, bind, Except.bind,
        systemAfterBody, Written]

/-- An OUT transfer body on any token: the state vector it leaves is the one it started
from, or that one with its fixed slot `k` copied to the index read from the destination
and with the opcode written. -/
theorem execOut_after (k : Nat) (opcode : String) (x : List String) (i : Nat)
    (sys : List String) (t0 t1 t2 : String) (hlen : sys.length = 11) (hk : k < 8) :
    systemAfterBody (execOut (k : Int) opcode x i ⟨sys, [t0, t1, t2]⟩) = sys ∨
      ∃ (dest : String) (kd : Nat) (v : String), x[i + 1]? = some dest ∧ kd < 11 ∧
        (Atoi (translateDest dest)).1 = (kd : Int) ∧ v ∈ sys ∧
        Written sys opcode kd v
          (systemAfterBody (execOut (k : Int) opcode x i ⟨sys, [t0, t1, t2]⟩)) := by
  obtain ⟨r1, hr1, _, _⟩ := translateLoop_ok sys (by omega) [t1, t2]
  have hlt : k < sys.length := by omega
  have hv : sys[k]? = some sys[k] := List.getElem?_eq_getElem hlt
  cases h1 : x[i + 1]? with
  | none =>
    left
    simp [execOut, loadOne, tokenAt, h1, bind, Except.bind, systemAfterBody]
  | some dest =>
    by_cases hkd : 0 ≤ (Atoi (translateDest dest)).1 ∧
        (Atoi (translateDest dest)).1.toNat < 11
    · right
      refine ⟨dest, (Atoi (translateDest dest)).1.toNat, sys[k], rfl, hkd.2,
        by simp; omega, List.getElem_mem hlt, ?_⟩
      simp [execOut, loadOne, tokenAt, setTempJunk, translate, translateOperation, hr1,
        tempAt, systemAt, indexInt, setSystem, h1, hv, hkd, hlen, bind, Except.bind,
        systemAfterBody, Written]
    · left
      simp [execOut, loadOne, tokenAt, setTempJunk, translate, translateOperation, hr1,
        tempAt, systemAt, indexInt, setSystem, h1, hv, hkd, hlen, bind, Except.bind,
        systemAfterBody]

/-! ## The frame of an instruction with a named destination -/

theorem systemAfter_withIncrement (n : Nat) (r : Exec Machine) :
    systemAfter (withIncrement n r) = systemAfterBody r := by
  cases r <;> rfl

theorem systemAfter_step (x : List String) (i : Nat) (m : Machine) (t : String)
    (hx : x[i]? = some t) : systemAfter (step x i m) = systemAfter (execute x i m t) := by
  unfold step
  rw [hx]
  cases h : execute x i m t with
  | error e => simp [h, systemAfter]
  | ok p => cases p; simp [h, systemAfter]

theorem changesOnly_same (sys : List String) (idx : Int) : ChangesOnly sys sys idx :=
  ⟨rfl, fun _ _ _ => rfl⟩

theorem changesOnly_opcode (sys : List String) (opcode : String) (idx : Int) :
    ChangesOnly sys (sys.set 8 opcode) idx :=
  ⟨by simp, fun j h8 _ => by rw [List.getElem?_set_ne (fun h => h8 h.symm)]⟩

theorem changesOnly_written (sys s : List String) (opcode v : String) (k : Nat) (idx : Int)
    (hk : idx = (k : Int)) (h : Written sys opcode k v s) : ChangesOnly sys s idx := by
  subst hk
  rcases h with rfl | rfl
  · exact ⟨by simp, fun j h8 hj => by
      rw [List.getElem?_set_ne (fun h => h8 h.symm),
        List.getElem?_set_ne (fun h => hj (by rw [h]))]⟩
  · exact ⟨by simp, fun j h8 hj => by
      rw [List.getElem?_set_ne (fun h => hj (by rw [h])),
        List.getElem?_set_ne (fun h => h8 h.symm)]⟩

theorem execThree_changesOnly (op : Int → Int → Option Int) (translated opcodeFirst : Bool)
    (opcode : String) (x : List String) (i : Nat) (sys : List String) (t0 t1 t2 : String)
    (dest : String) (hlen : sys.length = 11) (hx : x[i + 1]? = some dest) :
    ChangesOnly sys
      (systemAfterBody (execThree op translated opcodeFirst opcode x i ⟨sys, [t0, t1, t2]⟩))
      (Atoi (if translated = true then translateDest dest else dest)).1 := by
  rcases execThree_after op translated opcodeFirst opcode x i sys t0 t1 t2 hlen with
    h | h | ⟨d, k, r, hd1, _, hk, hw⟩
  · rw [h]; exact changesOnly_same sys _
  · rw [h]; exact changesOnly_opcode sys opcode _
  · rw [hx] at hd1
    cases hd1
    exact changesOnly_written sys _ opcode _ k _ hk hw

theorem execMove_changesOnly (opcode : String) (x : List String) (i : Nat)
    (sys : List String) (t0 t1 t2 : String) (dest : String) (hlen : sys.length = 11)
    (hx : x[i + 1]? = some dest) :
    ChangesOnly sys (systemAfterBody (execMove opcode x i ⟨sys, [t0, t1, t2]⟩))
      (Atoi (translateDest dest)).1 := by
  rcases execMove_after opcode x i sys t0 t1 t2 hlen with h | ⟨d, k, r, hd1, _, hk, hw⟩
  · rw [h]; exact changesOnly_same sys _
  · rw [hx] at hd1
    cases hd1
    exact changesOnly_written sys _ opcode _ k _ hk hw

theorem execShift_changesOnly (slice : String → Option String) (opcode : String)
    (x : List String) (i : Nat) (sys : List String) (t0 t1 t2 : String) (dest : String)
    (hlen : sys.length = 11) (hx : x[i + 1]? = some dest) :
    ChangesOnly sys (systemAfterBody (execShift slice opcode x i ⟨sys, [t0, t1, t2]⟩))
      (Atoi (translateDest dest)).1 := by
  rcases execShift_after slice opcode x i sys t0 t1 t2 hlen with
    h | h | ⟨d, k, s0, v, hd1, _, hk, _, _, hw⟩
  · rw [h]; exact changesOnly_same sys _
  · rw [h]; exact changesOnly_opcode sys opcode _
  · rw [hx] at hd1
    cases hd1
    exact changesOnly_written sys _ opcode _ k _ hk hw

theorem execOut_changesOnly (k : Nat) (opcode : String) (x : List String) (i : Nat)
    (sys : List String) (t0 t1 t2 : String) (dest : String) (hlen : sys.length = 11)
    (hk : k < 8) (hx : x[i + 1]? = some dest) :
    ChangesOnly sys (systemAfterBody (execOut (k : Int) opcode x i ⟨sys, [t0, t1, t2]⟩))
      (Atoi (translateDest dest)).1 := by
  rcases execOut_after k opcode x i sys t0 t1 t2 hlen hk with
    h | ⟨d, kd, v, hd1, _, hkd, _, hw⟩
  · rw [h]; exact changesOnly_same sys _
  · rw [hx] at hd1
    cases hd1
    exact changesOnly_written sys _ opcode _ kd _ hkd hw

theorem execute_changesOnly (x : List String) (i : Nat) (sys : List String)
    (t0 t1 t2 : String) (mn dest : String) (hmn : mn ∈ destinationMnemonics)
    (hlen : sys.length = 11) (hx : x[i + 1]? = some dest) :
    ChangesOnly sys (systemAfter (execute x i ⟨sys, [t0, t1, t2]⟩ mn))
      (destinationIndex mn dest) := by
  have key : ∀ (n : Nat) (r : Exec Machine) (idx : Int),
      execute x i ⟨sys, [t0, t1, t2]⟩ mn = withIncrement n r →
      destinationIndex mn dest = idx →
      ChangesOnly sys (systemAfterBody r) idx →
      ChangesOnly sys (systemAfter (execute x i ⟨sys, [t0, t1, t2]⟩ mn))
        (destinationIndex mn dest) := by
    intro n r idx h hidx hr
    rw [h, systemAfter_withIncrement, hidx]
    exact hr
  have h3 : ∀ op opf opc, ChangesOnly sys
      (systemAfterBody (execThree op true opf opc x i ⟨sys, [t0, t1, t2]⟩))
      (Atoi (translateDest dest)).1 := fun op opf opc => by
    simpa using execThree_changesOnly op true opf opc x i sys t0 t1 t2 dest hlen hx
  have hu : ∀ op opf opc, ChangesOnly sys
      (systemAfterBody (execThree op false opf opc x i ⟨sys, [t0, t1, t2]⟩))
      (Atoi dest).1 := fun op opf opc => by
    simpa using execThree_changesOnly op false opf opc x i sys t0 t1 t2 dest hlen hx
  have hm := fun opc => execMove_changesOnly opc x i sys t0 t1 t2 dest hlen hx
  have hs := fun sl opc => execShift_changesOnly sl opc x i sys t0 t1 t2 dest hlen hx
  have ho := fun k opc hk => execOut_changesOnly k opc x i sys t0 t1 t2 dest hlen hk hx
  simp only [destinationMnemonics, List.mem_cons, List.mem_singleton, List.not_mem_nil,
    or_false] at hmn
  rcases hmn with rfl | rfl | rfl | rfl | rfl | rfl | rfl | rfl | rfl | rfl | rfl | rfl |
    rfl | rfl | rfl | rfl | rfl | rfl | rfl | rfl | rfl | rfl | rfl | rfl | rfl | rfl |
    rfl | rfl | rfl | rfl
  · exact key 2 _ _ rfl rfl (h3 goAdd false "000010")
  · exact key 2 _ _ rfl rfl (h3 goSub false "000011")
  · exact key 3 _ _ rfl rfl (h3 goMul false "000100")
  · exact key 3 _ _ rfl rfl (h3 goMul true "000101")
  · exact key 3 _ _ rfl rfl (h3 goMul true "000110")
  · exact key 3 _ _ rfl rfl (h3 goDiv true "000111")
  · exact key 3 _ _ rfl rfl (h3 goDiv true "001000")
  · exact key 3 _ _ rfl rfl (h3 goDiv true "001001")
  · exact key 2 _ _ rfl rfl (hm "010000")
  · exact key 3 _ _ rfl rfl (hu goSub true "010001")
  · exact key 3 _ _ rfl rfl (hu goSub true "010010")
  · exact key 2 _ _ rfl rfl (hm "010011")
  · exact key 2 _ _ rfl rfl (hm "010100")
  · exact key 3 _ _ rfl rfl (hu goSub true "010101")
  · exact key 3 _ _ rfl rfl (hu goSub true "010110")
  · exact key 2 _ _ rfl rfl (hm "010111")
  · exact key 3 _ _ rfl rfl (hu goSub true "011000")
  · exact key 3 _ _ rfl rfl (hu goSub true "011001")
  · exact key 2 _ _ rfl rfl (hs sliceShiftLeftLog "011100")
  · exact key 2 _ _ rfl rfl (hs sliceShiftRightLog "011100")
  · exact key 2 _ _ rfl rfl (hs sliceShiftRightArith "011100")
  · exact key 2 _ _ rfl rfl (hs sliceShiftLeftArith "011101")
  · exact key 1 _ _ rfl rfl (ho 2 "100000" (by omega))
  · exact key 1 _ _ rfl rfl (ho 1 "100011" (by omega))
  · exact key 1 _ _ rfl rfl (ho 0 "100110" (by omega))
  · exact key 1 _ _ rfl rfl (ho 7 "100110" (by omega))
  · exact key 1 _ _ rfl rfl (ho 6 "101010" (by omega))
  · exact key 1 _ _ rfl rfl (ho 5 "101100" (by omega))
  · exact key 1 _ _ rfl rfl (ho 4 "101110" (by omega))
  · exact key 1 _ _ rfl rfl (ho 3 "110000" (by omega))

theorem destinationIndex_name (mn dest : String) (hd : dest ∈ locationNames) :
    0 ≤ destinationIndex mn dest ∧ destinationIndex mn dest < 8 := by
  unfold destinationIndex
  split
  · rw [Atoi_name dest hd]; omega
  · rw [(translateDest_name dest hd).2]
    have := slotIndex_lt dest hd
    simp only
    omega

theorem destinationIndex_literal (mn dest : String) (hd : IsDecimalNat dest)
    (hv : decimalValue dest < 2 ^ 63) :
    destinationIndex mn dest = (decimalValue dest : Int) := by
  unfold destinationIndex
  rw [translateDest_other dest (not_name_of_decimal dest hd), Atoi_decimal dest hd hv]
  simp

/-- C21, counterexample: on the initial state `ADD 9, 3, 4`, whose destination is the
literal `9` and not a location name, completes and leaves the sum `111` in the reserved
slot 9, which held `0000`. -/
theorem literal_destination_writes_reserved_slot :
    "ADD" ∈ destinationMnemonics ∧ "9" ∉ locationNames ∧
      initialSystem[9]? = some "0000" ∧
      (systemAfter (step ["ADD", "9", "3", "4"] 0 initialMachine))[9]? = some "111" := by
  refine ⟨by decide, by decide, by rfl, by rfl⟩

/-- C21, amended: for every state vector of 11 slots, every instruction that takes a
destination operand and every destination token, the step (completed or stopped by a
panic) leaves a vector of 11 slots that differs from the one before in at most the opcode
slot 8 and the slot whose index is the number the case reads from the destination token.
So slot 9 is unchanged unless that number is 9, and slot 10 unless it is 10.  For a
location name the number is a slot index 0 to 7, so that slots 9 and 10 are unchanged;
for a decimal literal below 2^63 it is the number the literal denotes. -/
theorem destination_write_frame (x : List String) (i : Nat)
    (sys : List String) (t0 t1 t2 : String) (mn dest : String)
    (hlen : sys.length = 11) (hmn : mn ∈ destinationMnemonics)
    (hx : x[i]? = some mn) (hdest : x[i + 1]? = some dest) :
    (systemAfter (step x i ⟨sys, [t0, t1, t2]⟩)).length = 11 ∧
      (∀ j : Nat, j ≠ 8 → (j : Int) ≠ destinationIndex mn dest →
        (systemAfter (step x i ⟨sys, [t0, t1, t2]⟩))[j]? = sys[j]?) ∧
      (destinationIndex mn dest ≠ 9 →
        (systemAfter (step x i ⟨sys, [t0, t1, t2]⟩))[9]? = sys[9]?) ∧
      (destinationIndex mn dest ≠ 10 →
        (systemAfter (step x i ⟨sys, [t0, t1, t2]⟩))[10]? = sys[10]?) ∧
      (dest ∈ locationNames →
        0 ≤ destinationIndex mn dest ∧ destinationIndex mn dest < 8 ∧
        (systemAfter (step x i ⟨sys, [t0, t1, t2]⟩))[9]? = sys[9]? ∧
        (systemAfter (step x i ⟨sys, [t0, t1, t2]⟩))[10]? = sys[10]?) ∧
      (IsDecimalNat dest → decimalValue dest < 2 ^ 63 →
        destinationIndex mn dest = (decimalValue dest : Int)) := by
  rw [systemAfter_step x i _ mn hx]
  obtain ⟨hl, hj⟩ := execute_changesOnly x i sys t0 t1 t2 mn dest hmn hlen hdest
  refine ⟨by rw [hl, hlen], hj, fun h9 => hj 9 (by omega) (fun h => h9 h.symm),
    fun h10 => hj 10 (by omega) (fun h => h10 h.symm), ?_,
    destinationIndex_literal mn dest⟩
  intro hd
  obtain ⟨h0, h8⟩ := destinationIndex_name mn dest hd
  exact ⟨h0, h8, hj 9 (by omega) (by omega), hj 10 (by omega) (by omega)⟩

/-- C21, amended, on the initial state: `ADD 3, 1, 2`, `ADD FOO, 3, 4` (read as index 0)
and `ADD 11, 3, 4` (index out of range) leave slots 9 and 10 as they were, as does
`STOREHALF REGA, 7, 3`, whose destination name is read as index 0; the literal `9` is read
as index 9. -/
theorem destination_write_frame_witness :
    (systemAfter (step ["ADD", "3", "1", "2"] 0 ⟨initialSystem, ["", "", ""]⟩))[9]? =
        initialSystem[9]? ∧
      (systemAfter (step ["ADD", "FOO", "3", "4"] 0 ⟨initialSystem, ["", "", ""]⟩))[10]? =
        initialSystem[10]? ∧
      (systemAfter (step ["ADD", "11", "3", "4"] 0 ⟨initialSystem, ["", "", ""]⟩))[9]? =
        initialSystem[9]? ∧
      (0 ≤ destinationIndex "STOREHALF" "REGA" ∧ destinationIndex "STOREHALF" "REGA" < 8 ∧
        (systemAfter (step ["STOREHALF", "REGA", "7", "3"] 0
          ⟨initialSystem, ["", "", ""]⟩))[9]? = initialSystem[9]? ∧
        (systemAfter (step ["STOREHALF", "REGA", "7", "3"] 0
          ⟨initialSystem, ["", "", ""]⟩))[10]? = initialSystem[10]?) ∧
      destinationIndex "ADD" "9" = (decimalValue "9" : Int) :=
  ⟨(destination_write_frame ["ADD", "3", "1", "2"] 0 initialSystem "" "" "" "ADD" "3"
      (by decide) (by decide) (by rfl) (by rfl)).2.2.1 (by decide),
   (destination_write_frame ["ADD", "FOO", "3", "4"] 0 initialSystem "" "" "" "ADD" "FOO"
      (by decide) (by decide) (by rfl) (by rfl)).2.2.2.1 (by decide),
   (destination_write_frame ["ADD", "11", "3", "4"] 0 initialSystem "" "" "" "ADD" "11"
      (by decide) (by decide) (by rfl) (by rfl)).2.2.1 (by decide),
   (destination_write_frame ["STOREHALF", "REGA", "7", "3"] 0 initialSystem "" "" ""
      "STOREHALF" "REGA" (by decide) (by decide) (by rfl) (by rfl)).2.2.2.2.1 (by decide),
   (destination_write_frame ["ADD", "9", "3", "4"] 0 initialSystem "" "" "" "ADD" "9"
      (by decide) (by decide) (by rfl) (by rfl)).2.2.2.2.2 (by decide) (by decide)⟩

/-! ## The characters of the slots after a step -/

theorem signed_of_nonEmptyBit (s : String) (h : IsNonEmptyBitString s) :
    IsSignedBitString s := Or.inl h

/-- The text `FormatInt(r, 2)` of any `int` is a non-empty bit-string, preceded by `-` when
`r` is negative. -/
theorem FormatInt_two_signed (r : Int) : IsSignedBitString (FormatInt r 2) := by
  have hdig : ∀ n : Nat, ∀ c ∈ formatLoop 2 64 n [], c = '0' ∨ c = '1' := by
    intro n c hc
    obtain ⟨d, hd1, hd2⟩ :=
      digitsBelow_formatLoop 2 (by omega) (by omega) 64 n [] (by intro c hc; simp at hc) c hc
    exact bit_of_digitOf c d hd1 hd2
  unfold FormatInt
  split
  · right
    exact ⟨_, rfl, formatLoop_ne_nil 2 63 _ [], hdig _⟩
  · left
    exact ⟨formatLoop_ne_nil 2 63 _ [], hdig _⟩

theorem sliceShiftLeftLog_bits (s v : String) (hs : IsNonEmptyBitString s)
    (h : sliceShiftLeftLog s = some v) : IsNonEmptyBitString v := by
  unfold sliceShiftLeftLog at h
  split at h
  · cases h
    refine ⟨by simp [String.data_append], ?_⟩
    intro c hc
    rw [String.data_append, List.mem_append] at hc
    rcases hc with hc | hc
    · exact hs.2 c (List.mem_of_mem_drop hc)
    · left; simpa using hc
  · cases h

theorem sliceShiftRightLog_bits (s v : String) (hs : IsNonEmptyBitString s)
    (h : sliceShiftRightLog s = some v) : IsNonEmptyBitString v := by
  unfold sliceShiftRightLog at h
  split at h
  · cases h
    refine ⟨by simp [String.data_append], ?_⟩
    intro c hc
    rw [String.data_append, List.mem_append] at hc
    rcases hc with hc | hc
    · left; simpa using hc
    · exact hs.2 c (List.mem_of_mem_take hc)
  · cases h

theorem sliceShiftRightArith_bits (s v : String) (hs : IsNonEmptyBitString s)
    (h : sliceShiftRightArith s = some v) : IsNonEmptyBitString v := by
  unfold sliceShiftRightArith at h
  split at h
  · cases h
    refine ⟨by simp [String.data_append], ?_⟩
    intro c hc
    rw [String.data_append, List.mem_append] at hc
    rcases hc with hc | hc
    · right; simpa using hc
    · exact hs.2 c (List.mem_of_mem_take hc)
  · cases h

theorem sliceShiftLeftArith_bits (s v : String) (hs : IsNonEmptyBitString s)
    (h : sliceShiftLeftArith s = some v) : IsNonEmptyBitString v := by
  unfold sliceShiftLeftArith at h
  cases h
  refine ⟨by simp [String.data_append], ?_⟩
  intro c hc
  rw [String.data_append, List.mem_append] at hc
  rcases hc with hc | hc
  · exact hs.2 c hc
  · left; simpa using hc

theorem signed_set (sys : List String) (k : Nat) (v : String)
    (hsys : ∀ s ∈ sys, IsSignedBitString s) (hv : IsSignedBitString v) :
    ∀ s ∈ sys.set k v, IsSignedBitString s := by
  intro s hs
  rcases List.mem_or_eq_of_mem_set hs with h | h
  · exact hsys s h
  · rw [h]; exact hv

theorem signed_written (sys s : List String) (opcode v : String) (k : Nat)
    (hsys : ∀ s ∈ sys, IsSignedBitString s) (hop : IsSignedBitString opcode)
    (hv : IsSignedBitString v) (h : Written sys opcode k v s) :
    ∀ w ∈ s, IsSignedBitString w := by
  rcases h with rfl | rfl
  · exact signed_set _ 8 opcode (signed_set sys k v hsys hv) hop
  · exact signed_set _ k v (signed_set sys 8 opcode hsys hop) hv

theorem execThree_signed (op : Int → Int → Option Int) (translated opcodeFirst : Bool)
    (opcode : String) (x : List String) (i : Nat) (sys : List String) (t0 t1 t2 : String)
    (hlen : sys.length = 11) (hsys : ∀ s ∈ sys, IsSignedBitString s)
    (hop : IsNonEmptyBitString opcode) :
    ∀ w ∈ systemAfterBody
        (execThree op translated opcodeFirst opcode x i ⟨sys, [t0, t1, t2]⟩),
      IsSignedBitString w := by
  rcases execThree_after op translated opcodeFirst opcode x i sys t0 t1 t2 hlen with
    h | h | ⟨d, k, r, _, _, _, hw⟩
  · rw [h]; exact hsys
  · rw [h]; exact signed_set sys 8 opcode hsys (Or.inl hop)
  · exact signed_written sys _ opcode _ k hsys (Or.inl hop) (FormatInt_two_signed r) hw

theorem execMove_signed (opcode : String) (x : List String) (i : Nat) (sys : List String)
    (t0 t1 t2 : String) (hlen : sys.length = 11) (hsys : ∀ s ∈ sys, IsSignedBitString s)
    (hop : IsNonEmptyBitString opcode) :
    ∀ w ∈ systemAfterBody (execMove opcode x i ⟨sys, [t0, t1, t2]⟩),
      IsSignedBitString w := by
  rcases execMove_after opcode x i sys t0 t1 t2 hlen with h | ⟨d, k, r, _, _, _, hw⟩
  · rw [h]; exact hsys
  · exact signed_written sys _ opcode _ k hsys (Or.inl hop) (FormatInt_two_signed r) hw

theorem execShift_signed (slice : String → Option String) (opcode : String)
    (x : List String) (i : Nat) (sys : List String) (t0 t1 t2 : String)
    (hlen : sys.length = 11) (hsys : ∀ s ∈ sys, IsNonEmptyBitString s)
    (hop : IsNonEmptyBitString opcode)
    (hslice : ∀ s v, IsNonEmptyBitString s → slice s = some v → IsNonEmptyBitString v) :
    ∀ w ∈ systemAfterBody (execShift slice opcode x i ⟨sys, [t0, t1, t2]⟩),
      IsSignedBitString w := by
  have hsys2 : ∀ s ∈ sys, IsSignedBitString s := fun s hs => Or.inl (hsys s hs)
  rcases execShift_after slice opcode x i sys t0 t1 t2 hlen with
    h | h | ⟨d, k, s0, v, _, _, _, hs0, hv, hw⟩
  · rw [h]; exact hsys2
  · rw [h]; exact signed_set sys 8 opcode hsys2 (Or.inl hop)
  · exact signed_written sys _ opcode _ k hsys2 (Or.inl hop)
      (Or.inl (hslice s0 v (hsys s0 hs0) hv)) hw

theorem execIn_signed (k : Nat) (opcode : String) (x : List String) (i : Nat)
    (sys : List String) (t0 t1 t2 : String) (hlen : sys.length = 11)
    (hsys : ∀ s ∈ sys, IsSignedBitString s) (hop : IsNonEmptyBitString opcode)
    (hk : k < 8) :
    ∀ w ∈ systemAfterBody (execIn (k : Int) opcode x i ⟨sys, [t0, t1, t2]⟩),
      IsSignedBitString w := by
  rcases execIn_after k opcode x i sys t0 t1 t2 hlen hk with h | ⟨v, hv, hw⟩
  · rw [h]; exact hsys
  · exact signed_written sys _ opcode _ k hsys (Or.inl hop) (hsys v hv) hw

theorem execOut_signed (k : Nat) (opcode : String) (x : List String) (i : Nat)
    (sys : List String) (t0 t1 t2 : String) (hlen : sys.length = 11)
    (hsys : ∀ s ∈ sys, IsSignedBitString s) (hop : IsNonEmptyBitString opcode)
    (hk : k < 8) :
    ∀ w ∈ systemAfterBody (execOut (k : Int) opcode x i ⟨sys, [t0, t1, t2]⟩),
      IsSignedBitString w := by
  rcases execOut_after k opcode x i sys t0 t1 t2 hlen hk with
    h | ⟨d, kd, v, _, _, _, hv, hw⟩
  · rw [h]; exact hsys
  · exact signed_written sys _ opcode _ kd hsys (Or.inl hop) (hsys v hv) hw

theorem setOpcode_signed (opcode : String) (sys : List String) (tj : List String)
    (hlen : sys.length = 11) (hsys : ∀ s ∈ sys, IsSignedBitString s)
    (hop : IsNonEmptyBitString opcode) :
    ∀ w ∈ systemAfterBody (setSystem 8 opcode ⟨sys, tj⟩), IsSignedBitString w := by
  have h : systemAfterBody (setSystem 8 opcode ⟨sys, tj⟩) = sys.set 8 opcode := by
    simp [setSystem, hlen, systemAfterBody]
  rw [h]
  exact signed_set sys 8 opcode hsys (Or.inl hop)

theorem stall_signed (sys : List String) (tj : List String)
    (hlen : sys.length = 11) (hsys : ∀ s ∈ sys, IsSignedBitString s) :
    ∀ w ∈ systemAfterBody (do
        let m ← setSystem 8 "0" ⟨sys, tj⟩
        setSystem 8 "111110" m), IsSignedBitString w := by
  have h : systemAfterBody (do
        let m ← setSystem 8 "0" ⟨sys, tj⟩
        setSystem 8 "111110" m) = (sys.set 8 "0").set 8 "111110" := by
    simp [setSystem, hlen, systemAfterBody, bind, Except.bind]
  rw [h]
  exact signed_set _ 8 _ (signed_set sys 8 _ hsys (Or.inl (by decide))) (Or.inl (by decide))

theorem resetSystem_bits : ∀ s ∈ resetSystem, IsNonEmptyBitString s := by decide

theorem execute_unmatched (x : List String) (i : Nat) (m : Machine) (t : String)
    (ht : t ∉ mnemonics) : execute x i m t = .ok (m, 0) := by
  simp only [mnemonics, List.mem_cons, List.mem_singleton, List.not_mem_nil, or_false,
    not_or] at ht
  obtain ⟨h1, h2, h3, h4, h5, h6, h7, h8, h9, h10, h11, h12, h13, h14, h15, h16, h17,
    h18, h19, h20, h21, h22, h23, h24, h25, h26, h27, h28, h29, h30, h31, h32, h33, h34,
    h35, h36, h37, h38, h39, h40, h41, h42, h43, h44, h45, h46⟩ := ht
  simp [execute, h1, h2, h3, h4, h5, h6, h7, h8, h9, h10, h11, h12, h13, h14,
    h15, h16, h17, h18, h19, h20, h21, h22, h23, h24, h25, h26, h27, h28, h29, h30, h31,
    h32, h33, h34, h35, h36, h37, h38, h39, h40, h41, h42, h43, h44, h45, h46]

theorem execute_signed (x : List String) (i : Nat) (sys : List String) (t0 t1 t2 : String)
    (t : String) (hlen : sys.length = 11) (hsys : ∀ s ∈ sys, IsNonEmptyBitString s) :
    ∀ w ∈ systemAfter (execute x i ⟨sys, [t0, t1, t2]⟩ t), IsSignedBitString w := by
  have hsys2 : ∀ s ∈ sys, IsSignedBitString s := fun s hs => Or.inl (hsys s hs)
  have key : ∀ (n : Nat) (r : Exec Machine),
      execute x i ⟨sys, [t0, t1, t2]⟩ t = withIncrement n r →
      (∀ w ∈ systemAfterBody r, IsSignedBitString w) →
      ∀ w ∈ systemAfter (execute x i ⟨sys, [t0, t1, t2]⟩ t), IsSignedBitString w := by
    intro n r h hr
    rw [h, systemAfter_withIncrement]
    exact hr
  have h0 := fun opc hop => setOpcode_signed opc sys [t0, t1, t2] hlen hsys2 hop
  have h3 := fun op tr opf opc hop =>
    execThree_signed op tr opf opc x i sys t0 t1 t2 hlen hsys2 hop
  have hm := fun opc hop => execMove_signed opc x i sys t0 t1 t2 hlen hsys2 hop
  have hs := fun sl opc hop hsl =>
    execShift_signed sl opc x i sys t0 t1 t2 hlen hsys hop hsl
  have hi := fun k opc hop hk => execIn_signed k opc x i sys t0 t1 t2 hlen hsys2 hop hk
  have ho := fun k opc hop hk => execOut_signed k opc x i sys t0 t1 t2 hlen hsys2 hop hk
  have hst := stall_signed sys [t0, t1, t2] hlen hsys2
  by_cases hmem : t ∈ mnemonics
  · simp only [mnemonics, List.mem_cons, List.mem_singleton, List.not_mem_nil,
      or_false] at hmem
    rcases hmem with rfl | rfl | rfl | rfl | rfl | rfl | rfl | rfl | rfl | rfl | rfl |
      rfl | rfl | rfl | rfl | rfl | rfl | rfl | rfl | rfl | rfl | rfl | rfl | rfl | rfl |
      rfl | rfl | rfl | rfl | rfl | rfl | rfl | rfl | rfl | rfl | rfl | rfl | rfl | rfl |
      rfl | rfl | rfl | rfl | rfl | rfl | rfl
    · exact key 0 _ rfl (h0 "000000" (by decide))
    · exact key 0 _ rfl (h0 "000001" (by decide))
    · exact key 2 _ rfl (h3 goAdd true false "000010" (by decide))
    · exact key 2 _ rfl (h3 goSub true false "000011" (by decide))
    · exact key 3 _ rfl (h3 goMul true false "000100" (by decide))
    · exact key 3 _ rfl (h3 goMul true true "000101" (by decide))
    · exact key 3 _ rfl (h3 goMul true true "000110" (by decide))
    · exact key 3 _ rfl (h3 goDiv true true "000111" (by decide))
    · exact key 3 _ rfl (h3 goDiv true true "001000" (by decide))
    · exact key 3 _ rfl (h3 goDiv true true "001001" (by decide))
    · exact key 2 _ rfl (hm "010000" (by decide))
    · exact key 3 _ rfl (h3 goSub false true "010001" (by decide))
    · exact key 3 _ rfl (h3 goSub false true "010010" (by decide))
    · exact key 2 _ rfl (hm "010011" (by decide))
    · exact key 2 _ rfl (hm "010100" (by decide))
    · exact key 3 _ rfl (h3 goSub false true "010101" (by decide))
    · exact key 3 _ rfl (h3 goSub false true "010110" (by decide))
    · exact key 2 _ rfl (hm "010111" (by decide))
    · exact key 3 _ rfl (h3 goSub false true "011000" (by decide))
    · exact key 3 _ rfl (h3 goSub false true "011001" (by decide))
    · exact key 2 _ rfl (hs sliceShiftLeftLog "011100" (by decide) sliceShiftLeftLog_bits)
    · exact key 2 _ rfl (hs sliceShiftRightLog "011100" (by decide) sliceShiftRightLog_bits)
    · exact key 2 _ rfl
        (hs sliceShiftRightArith "011100" (by decide) sliceShiftRightArith_bits)
    · exact key 2 _ rfl (hs sliceShiftLeftArith "011101" (by decide) sliceShiftLeftArith_bits)
    · exact key 1 _ rfl (hi 2 "011110" (by decide) (by omega))
    · exact key 1 _ rfl (hi 2 "011111" (by decide) (by omega))
    · exact key 1 _ rfl (ho 2 "100000" (by decide) (by omega))
    · exact key 1 _ rfl (hi 1 "100001" (by decide) (by omega))
    · exact key 1 _ rfl (hi 1 "100010" (by decide) (by omega))
    · exact key 1 _ rfl (ho 1 "100011" (by decide) (by omega))
    · exact key 1 _ rfl (hi 1 "100100" (by decide) (by omega))
    · exact key 1 _ rfl (hi 1 "100101" (by decide) (by omega))
    · exact key 1 _ rfl (ho 0 "100110" (by decide) (by omega))
    · exact key 1 _ rfl (hi 7 "100111" (by decide) (by omega))
    · exact key 1 _ rfl (ho 7 "100110" (by decide) (by omega))
    · exact key 1 _ rfl (hi 6 "101001" (by decide) (by omega))
    · exact key 1 _ rfl (ho 6 "101010" (by decide) (by omega))
    · exact key 1 _ rfl (hi 5 "101011" (by decide) (by omega))
    · exact key 1 _ rfl (ho 5 "101100" (by decide) (by omega))
    · exact key 1 _ rfl (hi 4 "101101" (by decide) (by omega))
    · exact key 1 _ rfl (ho 4 "101110" (by decide) (by omega))
    · exact key 1 _ rfl (hi 4 "101111" (by decide) (by omega))
    · exact key 1 _ rfl (ho 3 "110000" (by decide) (by omega))
    · exact key 0 _ rfl (h0 "110001" (by decide))
    · exact key 0 _ rfl hst
    · have h : systemAfter (execute x i ⟨sys, [t0, t1, t2]⟩ "RESET") = resetSystem := rfl
      rw [h]
      exact fun w hw => Or.inl (resetSystem_bits w hw)
  · rw [execute_unmatched x i _ t hmem]
    exact hsys2

/-- C22, counterexample: every slot of the state vector that RESET assigns is a non-empty
bit-string, and on it `SUB REGA, 3, 4` completes and leaves `-1` in slot 2, which is not a
bit-string. -/
theorem sub_leaves_minus_sign :
    (∀ s ∈ resetSystem, IsNonEmptyBitString s) ∧
      (systemAfter (step ["SUB", "REGA", "3", "4"] 0 ⟨resetSystem, ["", "", ""]⟩))[2]? =
        some "-1" ∧
      ¬ IsBitString "-1" := by
  refine ⟨by decide, by rfl, by decide⟩

/-- C22, amended: if each of the 11 slots of the state vector is a non-empty string over
the characters 0 and 1, then after one step of the engine, for every token at the current
position and all operand tokens, whether the step completes or stops in a panic, each slot
is a non-empty string over 0 and 1 or the minus sign followed by one. -/
theorem step_keeps_signed_bit_strings (x : List String) (i : Nat) (sys : List String)
    (t0 t1 t2 : String) (hlen : sys.length = 11)
    (hsys : ∀ s ∈ sys, IsNonEmptyBitString s) :
    ∀ w ∈ systemAfter (step x i ⟨sys, [t0, t1, t2]⟩), IsSignedBitString w := by
  cases hx : x[i]? with
  | none =>
    have h : systemAfter (step x i ⟨sys, [t0, t1, t2]⟩) = sys := by
      simp [step, hx, systemAfter]
    rw [h]
    exact fun s hs => Or.inl (hsys s hs)
  | some t =>
    rw [systemAfter_step x i _ t hx]
    exact execute_signed x i sys t0 t1 t2 t hlen hsys

theorem step_keeps_signed_bit_strings_witness :
    resetSystem.length = 11 ∧ (∀ s ∈ resetSystem, IsNonEmptyBitString s) ∧
      ∀ w ∈ systemAfter (step ["SUB", "REGA", "3", "4"] 0 ⟨resetSystem, ["", "", ""]⟩),
        IsSignedBitString w :=
  ⟨by decide, by decide,
    step_keeps_signed_bit_strings ["SUB", "REGA", "3", "4"] 0 resetSystem "" "" ""
      (by decide) (by decide)⟩

/-! ## The lengths of the slots after a step -/

theorem execThree_effect (op : Int → Int → Option Int) (translated opcodeFirst : Bool)
    (opcode : String) (x : List String) (i : Nat) (sys : List String) (t0 t1 t2 : String)
    (hlen : sys.length = 11) :
    CaseEffect sys opcode (systemAfterBody
      (execThree op translated opcodeFirst opcode x i ⟨sys, [t0, t1, t2]⟩)) := by
  rcases execThree_after op translated opcodeFirst opcode x i sys t0 t1 t2 hlen with
    h | h | ⟨d, k, r, _, hk, _, hw⟩
  · exact Or.inl h
  · exact Or.inr (Or.inl h)
  · exact Or.inr (Or.inr ⟨k, _, hk, Or.inl ⟨r, rfl⟩, hw⟩)

theorem execMove_effect (opcode : String) (x : List String) (i : Nat) (sys : List String)
    (t0 t1 t2 : String) (hlen : sys.length = 11) :
    CaseEffect sys opcode (systemAfterBody (execMove opcode x i ⟨sys, [t0, t1, t2]⟩)) := by
  rcases execMove_after opcode x i sys t0 t1 t2 hlen with h | ⟨d, k, r, _, hk, _, hw⟩
  · exact Or.inl h
  · exact Or.inr (Or.inr ⟨k, _, hk, Or.inl ⟨r, rfl⟩, hw⟩)

theorem execShift_effect (slice : String → Option String) (opcode : String)
    (x : List String) (i : Nat) (sys : List String) (t0 t1 t2 : String)
    (hlen : sys.length = 11)
    (hslice : ∀ s0 v, slice s0 = some v →
      sliceShiftLeftLog s0 = some v ∨ sliceShiftRightLog s0 = some v ∨
        sliceShiftRightArith s0 = some v ∨ sliceShiftLeftArith s0 = some v) :
    CaseEffect sys opcode
      (systemAfterBody (execShift slice opcode x i ⟨sys, [t0, t1, t2]⟩)) := by
  rcases execShift_after slice opcode x i sys t0 t1 t2 hlen with
    h | h | ⟨d, k, s0, v, _, hk, _, hs0, hv, hw⟩
  · exact Or.inl h
  · exact Or.inr (Or.inl h)
  · exact Or.inr (Or.inr ⟨k, v, hk, Or.inr (Or.inr ⟨s0, hs0, hslice s0 v hv⟩), hw⟩)

theorem execIn_effect (k : Nat) (opcode : String) (x : List String) (i : Nat)
    (sys : List String) (t0 t1 t2 : String) (hlen : sys.length = 11) (hk : k < 8) :
    CaseEffect sys opcode
      (systemAfterBody (execIn (k : Int) opcode x i ⟨sys, [t0, t1, t2]⟩)) := by
  rcases execIn_after k opcode x i sys t0 t1 t2 hlen hk with h | ⟨v, hv, hw⟩
  · exact Or.inl h
  · exact Or.inr (Or.inr ⟨k, v, by omega, Or.inr (Or.inl hv), hw⟩)

theorem execOut_effect (k : Nat) (opcode : String) (x : List String) (i : Nat)
    (sys : List String) (t0 t1 t2 : String) (hlen : sys.length = 11) (hk : k < 8) :
    CaseEffect sys opcode
      (systemAfterBody (execOut (k : Int) opcode x i ⟨sys, [t0, t1, t2]⟩)) := by
  rcases execOut_after k opcode x i sys t0 t1 t2 hlen hk with
    h | ⟨d, kd, v, _, hkd, _, hv, hw⟩
  · exact Or.inl h
  · exact Or.inr (Or.inr ⟨kd, v, hkd, Or.inr (Or.inl hv), hw⟩)

theorem setOpcode_effect (opcode : String) (sys tj : List String) (hlen : sys.length = 11) :
    CaseEffect sys opcode (systemAfterBody (setSystem 8 opcode ⟨sys, tj⟩)) := by
  right; left
  simp [setSystem, hlen, systemAfterBody]

theorem stall_effect (sys tj : List String) (hlen : sys.length = 11) :
    CaseEffect sys "111110" (systemAfterBody (do
      let m ← setSystem 8 "0" ⟨sys, tj⟩
      setSystem 8 "111110" m)) := by
  right; left
  simp [setSystem, hlen, systemAfterBody, bind, Except.bind]

/-- Every outcome of the `switch` of `riscSim` on a state vector of 11 slots: the vector
unchanged, the literal of RESET, or the effect of one case body with a 6-character
opcode. -/
theorem execute_effect (x : List String) (i : Nat) (sys : List String) (t0 t1 t2 : String)
    (t : String) (hlen : sys.length = 11) :
    systemAfter (execute x i ⟨sys, [t0, t1, t2]⟩ t) = sys ∨
      (t = "RESET" ∧ systemAfter (execute x i ⟨sys, [t0, t1, t2]⟩ t) = resetSystem) ∨
      ∃ opcode : String, opcode.length = 6 ∧
        CaseEffect sys opcode (systemAfter (execute x i ⟨sys, [t0, t1, t2]⟩ t)) := by
  have key : ∀ (n : Nat) (r : Exec Machine) (opcode : String),
      execute x i ⟨sys, [t0, t1, t2]⟩ t = withIncrement n r → opcode.length = 6 →
      CaseEffect sys opcode (systemAfterBody r) →
      systemAfter (execute x i ⟨sys, [t0, t1, t2]⟩ t) = sys ∨
        (t = "RESET" ∧ systemAfter (execute x i ⟨sys, [t0, t1, t2]⟩ t) = resetSystem) ∨
        ∃ opcode : String, opcode.length = 6 ∧
          CaseEffect sys opcode (systemAfter (execute x i ⟨sys, [t0, t1, t2]⟩ t)) := by
    intro n r opcode h h6 hr
    rw [h, systemAfter_withIncrement]
    exact Or.inr (Or.inr ⟨opcode, h6, hr⟩)
  have h0 := fun opc => setOpcode_effect opc sys [t0, t1, t2] hlen
  have h3 := fun op tr opf opc => execThree_effect op tr opf opc x i sys t0 t1 t2 hlen
  have hm := fun opc => execMove_effect opc x i sys t0 t1 t2 hlen
  have hs := fun sl opc hsl => execShift_effect sl opc x i sys t0 t1 t2 hlen hsl
  have hi := fun k opc hk => execIn_effect k opc x i sys t0 t1 t2 hlen hk
  have ho := fun k opc hk => execOut_effect k opc x i sys t0 t1 t2 hlen hk
  have hst := stall_effect sys [t0, t1, t2] hlen
  by_cases hmem : t ∈ mnemonics
  · simp only [mnemonics, List.mem_cons, List.mem_singleton, List.not_mem_nil,
      or_false] at hmem
    rcases hmem with rfl | rfl | rfl | rfl | rfl | rfl | rfl | rfl | rfl | rfl | rfl |
      rfl | rfl | rfl | rfl | rfl | rfl | rfl | rfl | rfl | rfl | rfl | rfl | rfl | rfl |
      rfl | rfl | rfl | rfl | rfl | rfl | rfl | rfl | rfl | rfl | rfl | rfl | rfl | rfl |
      rfl | rfl | rfl | rfl | rfl | rfl | rfl
    · exact key 0 _ _ rfl (by decide) (h0 "000000")
    · exact key 0 _ _ rfl (by decide) (h0 "000001")
    · exact key 2 _ _ rfl (by decide) (h3 goAdd true false "000010")
    · exact key 2 _ _ rfl (by decide) (h3 goSub true false "000011")
    · exact key 3 _ _ rfl (by decide) (h3 goMul true false "000100")
    · exact key 3 _ _ rfl (by decide) (h3 goMul true true "000101")
    · exact key 3 _ _ rfl (by decide) (h3 goMul true true "000110")
    · exact key 3 _ _ rfl (by decide) (h3 goDiv true true "000111")
    · exact key 3 _ _ rfl (by decide) (h3 goDiv true true "001000")
    · exact key 3 _ _ rfl (by decide) (h3 goDiv true true "001001")
    · exact key 2 _ _ rfl (by decide) (hm "010000")
    · exact key 3 _ _ rfl (by decide) (h3 goSub false true "010001")
    · exact key 3 _ _ rfl (by decide) (h3 goSub false true "010010")
    · exact key 2 _ _ rfl (by decide) (hm "010011")
    · exact key 2 _ _ rfl (by decide) (hm "010100")
    · exact key 3 _ _ rfl (by decide) (h3 goSub false true "010101")
    · exact key 3 _ _ rfl (by decide) (h3 goSub false true "010110")
    · exact key 2 _ _ rfl (by decide) (hm "010111")
    · exact key 3 _ _ rfl (by decide) (h3 goSub false true "011000")
    · exact key 3 _ _ rfl (by decide) (h3 goSub false true "011001")
    · exact key 2 _ _ rfl (by decide)
        (hs sliceShiftLeftLog "011100" (fun _ _ h => Or.inl h))
    · exact key 2 _ _ rfl (by decide)
        (hs sliceShiftRightLog "011100" (fun _ _ h => Or.inr (Or.inl h)))
    · exact key 2 _ _ rfl (by decide)
        (hs sliceShiftRightArith "011100" (fun _ _ h => Or.inr (Or.inr (Or.inl h))))
    · exact key 2 _ _ rfl (by decide)
        (hs sliceShiftLeftArith "011101" (fun _ _ h => Or.inr (Or.inr (Or.inr h))))
    · exact key 1 _ _ rfl (by decide) (hi 2 "011110" (by omega))
    · exact key 1 _ _ rfl (by decide) (hi 2 "011111" (by omega))
    · exact key 1 _ _ rfl (by decide) (ho 2 "100000" (by omega))
    · exact key 1 _ _ rfl (by decide) (hi 1 "100001" (by omega))
    · exact key 1 _ _ rfl (by decide) (hi 1 "100010" (by omega))
    · exact key 1 _ _ rfl (by decide) (ho 1 "100011" (by omega))
    · exact key 1 _ _ rfl (by decide) (hi 1 "100100" (by omega))
    · exact key 1 _ _ rfl (by decide) (hi 1 "100101" (by omega))
    · exact key 1 _ _ rfl (by decide) (ho 0 "100110" (by omega))
    · exact key 1 _ _ rfl (by decide) (hi 7 "100111" (by omega))
    · exact key 1 _ _ rfl (by decide) (ho 7 "100110" (by omega))
    · exact key 1 _ _ rfl (by decide) (hi 6 "101001" (by omega))
    · exact key 1 _ _ rfl (by decide) (ho 6 "101010" (by omega))
    · exact key 1 _ _ rfl (by decide) (hi 5 "101011" (by omega))
    · exact key 1 _ _ rfl (by decide) (ho 5 "101100" (by omega))
    · exact key 1 _ _ rfl (by decide) (hi 4 "101101" (by omega))
    · exact key 1 _ _ rfl (by decide) (ho 4 "101110" (by omega))
    · exact key 1 _ _ rfl (by decide) (hi 4 "101111" (by omega))
    · exact key 1 _ _ rfl (by decide) (ho 3 "110000" (by omega))
    · exact key 0 _ _ rfl (by decide) (h0 "110001")
    · exact key 0 _ _ rfl (by decide) hst
    · exact Or.inr (Or.inl ⟨rfl, rfl⟩)
  · left
    rw [execute_unmatched x i _ t hmem]
    rfl

theorem hasWidths_written (w : Nat) (sys s : List String) (opcode v : String) (k : Nat)
    (hw : HasWidths w sys) (h6 : opcode.length = 6) (hk : k < 11)
    (h : Written sys opcode k v s) :
    (v.length = declaredWidth w k → HasWidths w s) ∧
      (k ≠ 8 → HasWidths w s → v.length = declaredWidth w k) := by
  unfold HasWidths at hw ⊢
  rcases h with rfl | rfl
  · rw [List.map_set, List.map_set, hw, h6]
    interval_cases k <;> simp [declaredWidth]
  · rw [List.map_set, List.map_set, hw, h6]
    interval_cases k <;> simp [declaredWidth]

theorem slot_of_hasWidths (w : Nat) (sys : List String) (j : Nat) (hw : HasWidths w sys)
    (hj : j < 11) : ∃ s, sys[j]? = some s ∧ s.length = declaredWidth w j := by
  have hlen := length_of_hasWidths w sys hw
  have hlt : j < sys.length := by omega
  refine ⟨sys[j], List.getElem?_eq_getElem hlt, ?_⟩
  have h : (sys.map String.length)[j]? = some sys[j].length := by
    rw [List.getElem?_map, List.getElem?_eq_getElem hlt]; rfl
  unfold HasWidths at hw
  rw [hw] at h
  interval_cases j <;> simp [declaredWidth] at h ⊢ <;> omega

theorem hasWidths_reset (w : Nat) : HasWidths w resetSystem ↔ w = 40 := by
  unfold HasWidths
  constructor
  · intro h
    have h0 := congrArg (fun l => l.getD 0 0) h
    have h1 : (resetSystem.map String.length).getD 0 0 = 40 := by decide
    simp only at h0
    rw [h1] at h0
    simpa using h0.symm
  · rintro rfl
    decide

theorem declaredWidth_class (w j k : Nat) (hj : j < 8) (hk : k < 8)
    (h : j < 3 ↔ k < 3) : declaredWidth w j = declaredWidth w k := by
  interval_cases j <;> interval_cases k <;> simp [declaredWidth] at h ⊢

theorem declaredWidth_pos (w j : Nat) (hj : j < 8) (hw : 0 < w) :
    1 ≤ declaredWidth w j := by
  interval_cases j <;> simp [declaredWidth] <;> omega

theorem sliceShiftLeftLog_length (s : String) (h : 1 ≤ s.length) :
    ∃ r, sliceShiftLeftLog s = some r ∧ r.length = s.length := by
  have h1 : 1 ≤ s.data.length := h
  refine ⟨String.mk (s.data.drop 1) ++ "0", by unfold sliceShiftLeftLog; rw [if_pos h1], ?_⟩
  show (String.mk (s.data.drop 1) ++ "0").data.length = s.data.length
  rw [String.data_append, List.length_append, List.length_drop]
  simp only [String.data, List.length_cons, List.length_nil]
  omega

theorem sliceShiftRightArith_length (s : String) (h : 1 ≤ s.length) :
    ∃ r, sliceShiftRightArith s = some r ∧ r.length = s.length := by
  have h1 : 1 ≤ s.data.length := h
  refine ⟨"1" ++ String.mk (s.data.take (s.data.length - 1)),
    by unfold sliceShiftRightArith; rw [if_pos h1], ?_⟩
  show ("1" ++ String.mk (s.data.take (s.data.length - 1))).data.length = s.data.length
  rw [String.data_append, List.length_append, List.length_take]
  simp only [String.data, List.length_cons, List.length_nil]
  omega

theorem shift_keeps_widths (slice : String → Option String) (opcode : String) (w : Nat)
    (x : List String) (i : Nat) (sys : List String) (t0 t1 t2 dest src : String)
    (hw : HasWidths w sys) (h6 : opcode.length = 6)
    (hslice : ∀ s : String, 1 ≤ s.length → ∃ r, slice s = some r ∧ r.length = s.length)
    (h1 : x[i + 1]? = some dest) (h2 : x[i + 2]? = some src)
    (hdest : dest ∈ locationNames) (hsrc : src ∈ locationNames)
    (hclass : slotIndex dest < 3 ↔ slotIndex src < 3) (hpos : 0 < w) :
    ∃ m', execShift slice opcode x i ⟨sys, [t0, t1, t2]⟩ = .ok m' ∧
      HasWidths w m'.system := by
  have hlen := length_of_hasWidths w sys hw
  have hkd := slotIndex_lt dest hdest
  have hks := slotIndex_lt src hsrc
  obtain ⟨s, hs, hsl⟩ := slot_of_hasWidths w sys (slotIndex src) hw (by omega)
  have hge := declaredWidth_pos w (slotIndex src) hks hpos
  obtain ⟨r, hr, hrl⟩ := hslice s (by omega)
  obtain ⟨tj, hexec⟩ := execShift_names slice opcode x i sys t0 t1 t2 dest src s r hlen h1
    h2 hdest hsrc hs hr
  refine ⟨_, hexec, ?_⟩
  have hcl := declaredWidth_class w (slotIndex dest) (slotIndex src) hkd hks hclass
  exact (hasWidths_written w sys _ opcode r (slotIndex dest) hw h6 (by omega)
    (Or.inr rfl)).1 (by rw [hrl, hsl, hcl])

/-- C9, amended.  On a state vector with the declared lengths (registers of any length
`w`) and for every token at the current position and all operands, a step, completed or
stopped by a panic, leaves the vector as it was, or the literal of RESET (which has the
declared lengths exactly when `w = 40`), or the vector with a 6-character opcode written to
slot 8 and at most one further string `v` written to one slot `k`.  The string `v` is
stored as it is, neither padded nor cut: it is the `FormatInt` text of an integer, a slot
of the vector before the step, or one of the four shift expressions on such a slot.  The
lengths are kept when `v` has the declared length of slot `k`, and for `k ≠ 8` only then.
In particular the step completes and keeps the lengths for ZERO, IMM, JUMP and STALL, for a
token that is no mnemonic, for RESET when `w = 40`, for a transfer instruction on a
location name when the slot read and the slot written are both registers or both memory
slots, and for SHIFTLEFTLOG and SHIFTRIGHARTH on two location names of the same kind when
`w > 0`. -/
theorem widths_kept_iff_stored_string_fits (w : Nat) (x : List String) (i : Nat)
    (sys : List String) (t0 t1 t2 t : String) (hw : HasWidths w sys)
    (hx : x[i]? = some t) :
    (systemAfter (step x i ⟨sys, [t0, t1, t2]⟩) = sys ∨
      (t = "RESET" ∧ systemAfter (step x i ⟨sys, [t0, t1, t2]⟩) = resetSystem ∧
        (HasWidths w resetSystem ↔ w = 40)) ∨
      ∃ opcode : String, opcode.length = 6 ∧
        ((systemAfter (step x i ⟨sys, [t0, t1, t2]⟩) = sys.set 8 opcode ∧
            HasWidths w (systemAfter (step x i ⟨sys, [t0, t1, t2]⟩))) ∨
          ∃ (k : Nat) (v : String), k < 11 ∧ StoredAsIs sys v ∧
            Written sys opcode k v (systemAfter (step x i ⟨sys, [t0, t1, t2]⟩)) ∧
            (v.length = declaredWidth w k →
              HasWidths w (systemAfter (step x i ⟨sys, [t0, t1, t2]⟩))) ∧
            (k ≠ 8 → HasWidths w (systemAfter (step x i ⟨sys, [t0, t1, t2]⟩)) →
              v.length = declaredWidth w k))) ∧
    ((t ∈ ["ZERO", "IMM", "JUMP", "STALL"] ∨ t ∉ mnemonics ∨ (t = "RESET" ∧ w = 40) ∨
        (∃ k opnd, ((t, k) ∈ transferIn ∨ (t, k) ∈ transferOut) ∧
          x[i + 1]? = some opnd ∧ opnd ∈ locationNames ∧ (slotIndex opnd < 3 ↔ k < 3)) ∨
        (∃ dest src, (t = "SHIFTLEFTLOG" ∨ t = "SHIFTRIGHARTH") ∧
          x[i + 1]? = some dest ∧ x[i + 2]? = some src ∧ dest ∈ locationNames ∧
          src ∈ locationNames ∧ (slotIndex dest < 3 ↔ slotIndex src < 3) ∧ 0 < w)) →
      ∃ m' n, step x i ⟨sys, [t0, t1, t2]⟩ = .ok (m', n) ∧ HasWidths w m'.system) := by
  have hlen := length_of_hasWidths w sys hw
  constructor
  · rw [systemAfter_step x i _ t hx]
    rcases execute_effect x i sys t0 t1 t2 t hlen with h | ⟨ht, h⟩ | ⟨opcode, h6, h⟩
    · exact Or.inl h
    · exact Or.inr (Or.inl ⟨ht, h, hasWidths_reset w⟩)
    · rcases h with h | h | ⟨k, v, hk, hv, hwr⟩
      · exact Or.inl h
      · exact Or.inr (Or.inr ⟨opcode, h6, Or.inl
          ⟨h, by rw [h]; exact hasWidths_set_opcode w sys opcode hw h6⟩⟩)
      · have hh := hasWidths_written w sys _ opcode v k hw h6 hk hwr
        exact Or.inr (Or.inr ⟨opcode, h6, Or.inr ⟨k, v, hk, hv, hwr, hh.1, hh.2⟩⟩)
  · rintro (hmark | hun | ⟨rfl, rfl⟩ | htr | ⟨dest, src, hmn, h1, h2, hdest, hsrc, hclass,
      hpos⟩)
    · exact marker_or_transfer_keeps_widths w x i sys t0 t1 t2 t hw hx (Or.inl hmark)
    · exact ⟨⟨sys, [t0, t1, t2]⟩, i + 0 + 1,
        by simp [step, hx, execute_unmatched x i _ t hun], hw⟩
    · exact ⟨⟨resetSystem, [t0, t1, t2]⟩, i + 0 + 1, by simp [step, hx, execute],
        (hasWidths_reset 40).2 rfl⟩
    · exact marker_or_transfer_keeps_widths w x i sys t0 t1 t2 t hw hx (Or.inr htr)
    · rcases hmn with rfl | rfl
      · obtain ⟨m', hexec, hm'⟩ := shift_keeps_widths sliceShiftLeftLog "011100" w x i sys
          t0 t1 t2 dest src hw (by decide) sliceShiftLeftLog_length h1 h2 hdest hsrc hclass
          hpos
        exact ⟨m', i + 2 + 1, by simp [step, hx, execute, hexec, withIncrement], hm'⟩
      · obtain ⟨m', hexec, hm'⟩ := shift_keeps_widths sliceShiftRightArith "011100" w x i
          sys t0 t1 t2 dest src hw (by decide) sliceShiftRightArith_length h1 h2 hdest hsrc
          hclass hpos
        exact ⟨m', i + 2 + 1, by simp [step, hx, execute, hexec, withIncrement], hm'⟩

/-- C9, amended, on the reset state: STALL, `LOADA REGB`, `SHIFTLEFTLOG REGA, REGB` and
`SHIFTRIGHARTH MEM1, MEM2` complete and keep the lengths; RESET on the initial state
leaves the reset literal, which has the lengths for `w = 40`. -/
theorem widths_kept_iff_stored_string_fits_witness :
    (∃ m' n, step ["STALL"] 0 ⟨resetSystem, ["", "", ""]⟩ = .ok (m', n) ∧
        HasWidths 40 m'.system) ∧
      (∃ m' n, step ["LOADA", "REGB"] 0 ⟨resetSystem, ["", "", ""]⟩ = .ok (m', n) ∧
        HasWidths 40 m'.system) ∧
      (∃ m' n, step ["SHIFTLEFTLOG", "REGA", "REGB"] 0 ⟨resetSystem, ["", "", ""]⟩ =
        .ok (m', n) ∧ HasWidths 40 m'.system) ∧
      (∃ m' n, step ["SHIFTRIGHARTH", "MEM1", "MEM2"] 0 ⟨resetSystem, ["", "", ""]⟩ =
        .ok (m', n) ∧ HasWidths 40 m'.system) ∧
      (∃ m' n, step ["RESET"] 0 ⟨initialSystem, ["", "", ""]⟩ = .ok (m', n) ∧
        HasWidths 40 m'.system) :=
  ⟨(widths_kept_iff_stored_string_fits 40 ["STALL"] 0 resetSystem "" "" "" "STALL"
      (by decide) (by decide)).2 (Or.inl (by decide)),
   (widths_kept_iff_stored_string_fits 40 ["LOADA", "REGB"] 0 resetSystem "" "" "" "LOADA"
      (by decide) (by decide)).2
      (Or.inr (Or.inr (Or.inr (Or.inl
        ⟨2, "REGB", Or.inl (by decide), by decide, by decide, by decide⟩)))),
   (widths_kept_iff_stored_string_fits 40 ["SHIFTLEFTLOG", "REGA", "REGB"] 0 resetSystem
      "" "" "" "SHIFTLEFTLOG" (by decide) (by decide)).2
      (Or.inr (Or.inr (Or.inr (Or.inr
        ⟨"REGA", "REGB", Or.inl rfl, by decide, by decide, by decide, by decide, by decide,
          by decide⟩)))),
   (widths_kept_iff_stored_string_fits 40 ["SHIFTRIGHARTH", "MEM1", "MEM2"] 0 resetSystem
      "" "" "" "SHIFTRIGHARTH" (by decide) (by decide)).2
      (Or.inr (Or.inr (Or.inr (Or.inr
        ⟨"MEM1", "MEM2", Or.inr rfl, by decide, by decide, by decide, by decide, by decide,
          by decide⟩)))),
   (widths_kept_iff_stored_string_fits 40 ["RESET"] 0 initialSystem "" "" "" "RESET"
      (by decide) (by decide)).2 (Or.inr (Or.inr (Or.inl ⟨rfl, rfl⟩)))⟩

end RiscSim
